import Mathlib

/-!
# goex venue adapters: normalisation of depth and order responses

A shallow embedding of the request builders and response normalisers of the
Binance, Atop, OKEx, Poloniex, KuCoin, Bitfinex, Kraken and Bitstamp adapters
(`src/binance/Binance.go`, `src/atop/atop.go`, `src/okex/OKEx.go`,
`src/poloniex/Poloniex.go`, `src/kucoin/kucoin.go`, `src/bitfinex/bitfinex.go`,
`src/kraken/Kraken.go`, `src/bitstamp/Bitstamp.go`).

Conventions of the embedding.

* Go `float64` is `F64`: the finite values are rationals (the sign of zero is
  not represented), the special values `+Inf`, `-Inf` and `NaN` are explicit,
  and the arithmetic follows IEEE 754 on them (`0/0 = NaN`, `x/0 = ±Inf`, every
  comparison with `NaN` is false). `F64.add`, `F64.mul` and `F64.div` give the
  finite result unrounded; `F64.addR`, `F64.mulR` and `F64.divR` round it to
  binary64 (`F64.roundRat`: nearest, ties to even, gradual underflow, overflow
  to an infinity). The Bitstamp order totals, whose sums and quotient are the
  subject of a statement, are embedded over the rounded operations; the
  statements on the other adapters concern the special values, the order and
  the sign of the results and small integer values, and those adapters are
  embedded over the unrounded ones.
* Go `int` is `Int` (no claim here depends on 64-bit wrap-around).
* The network is a parameter: an adapter method receives the result of its
  HTTP call, `Except String` with the transport error on the left.
* Where the kind of a Go `error` matters it is a `GoError`; where a method can
  return the pair `(nil, nil)` its result is the Go pair itself, two options;
  a method whose body is a `panic`, or that slices a string out of bounds,
  ends in `Outcome.panics`.
* Go strings are strings of one-byte (ASCII) characters, as symbols, decimal
  numbers and timestamps are: a byte offset is a character offset.
* The clock is a parameter: a method that reads `time.Now()` receives the
  reading.
* A JSON value that the source reads through `interface{}` is a `JVal`; a
  field on which the source makes a type assertion (`.(float64)`, `.(string)`,
  `.([]interface{})`) has the asserted type, since the Go code panics on any
  other payload.
* The helpers of the root package (`ToFloat64`, `ToInt`, `FloatToFixed`, ...)
  are not among the sources; they are the fields of `RootPkg`, a parameter of
  every function that calls them.
-/

namespace Goex

/-! ## float64 -/

/-- Values of Go `float64`: finite (as a rational), signed infinity, NaN. -/
inductive F64 where
  | fin (q : ℚ)
  | inf (neg : Bool)
  | nan
deriving DecidableEq

namespace F64

/-- The literal `0.0`, also the zero value of a `float64` field. -/
def zero : F64 := fin 0

/-- Go `x < y` on `float64`. -/
def lt : F64 → F64 → Bool
  | fin a, fin b => decide (a < b)
  | fin _, inf neg => !neg
  | inf neg, fin _ => neg
  | inf a, inf b => a && !b
  | _, _ => false

/-- Go `x <= y` on `float64`. -/
def le : F64 → F64 → Bool
  | fin a, fin b => decide (a ≤ b)
  | fin _, inf neg => !neg
  | inf neg, fin _ => neg
  | inf a, inf b => a || !b
  | _, _ => false

/-- Go `x > y` on `float64`. -/
def gt (x y : F64) : Bool := lt y x

/-- Go `x + y` on `float64`, a finite sum left unrounded (`addR` rounds it). -/
def add : F64 → F64 → F64
  | fin a, fin b => fin (a + b)
  | fin _, inf n => inf n
  | inf n, fin _ => inf n
  | inf a, inf b => if a = b then inf a else nan
  | _, _ => nan

/-- Go `-x` on `float64`. -/
def neg : F64 → F64
  | fin a => fin (-a)
  | inf n => inf (!n)
  | nan => nan

/-- Go `x - y` on `float64`. -/
def sub (x y : F64) : F64 := add x (neg y)

/-- Go `x * y` on `float64`, a finite product left unrounded (`mulR` rounds
it). -/
def mul : F64 → F64 → F64
  | fin a, fin b => fin (a * b)
  | fin a, inf n => if a = 0 then nan else inf (if a < 0 then !n else n)
  | inf n, fin b => if b = 0 then nan else inf (if b < 0 then !n else n)
  | inf a, inf b => inf (a != b)
  | _, _ => nan

/-- Go `x / y` on `float64`: division by zero does not trap, it yields `NaN`
for `0/0` and an infinity otherwise; a finite quotient is left unrounded
(`divR` rounds it). -/
def div : F64 → F64 → F64
  | fin a, fin b =>
      if b = 0 then (if a = 0 then nan else inf (decide (a < 0))) else fin (a / b)
  | fin _, inf _ => fin 0
  | inf n, fin b => inf (if b < 0 then !n else n)
  | _, _ => nan

/-- The value is not NaN. -/
def notNaN : F64 → Bool
  | nan => false
  | _ => true

/-! ### Rounding to binary64

IEEE 754 binary64 as Go computes with it: 53 significant binary digits, binary
exponents from -1022 to 1023, gradual underflow below `2 ^ (-1022)`, rounding
to the nearest value with ties to the even significand, overflow to an
infinity. -/

/-- Number of binary digits of `n`; the first argument bounds the recursion,
`n` itself is enough. -/
def bitLength : Nat → Nat → Nat
  | 0, _ => 0
  | fuel + 1, n => if n = 0 then 0 else bitLength fuel (n / 2) + 1

/-- The integer nearest to `a / b`, for `b > 0`; of two nearest integers the
even one. -/
def roundHalfEven (a b : Nat) : Nat :=
  let f := a / b
  let r := a % b
  if 2 * r < b then f
  else if b < 2 * r then f + 1
  else if f % 2 = 0 then f
  else f + 1

/-- The binary exponent of `a / d`, for `a, d > 0`: the `e` with
`2 ^ e ≤ a / d < 2 ^ (e + 1)`. The difference `e0` of the digit counts is
either `e` or `e + 1`; the comparison of `a / d` with `2 ^ e0` decides. -/
def binaryExponent (a d : Nat) : Int :=
  let e0 : Int := (bitLength a a : Int) - (bitLength d d : Int)
  let reaches : Bool :=
    if 0 ≤ e0 then decide (d * 2 ^ e0.toNat ≤ a) else decide (d ≤ a * 2 ^ (-e0).toNat)
  if reaches then e0 else e0 - 1

/-- The `float64` nearest to the fraction `n / d`, for `d > 0`. With `e` the
binary exponent of `|n / d|`, not below -1022, the representable values around
`n / d` are the multiples of `2 ^ (e - 52)`: the significand `m` is
`|n / d| / 2 ^ (e - 52)` rounded to an integer, ties to even, and the result is
`± m * 2 ^ (e - 52)`, an infinity when that reaches `2 ^ 1024`. -/
def roundRat (n : Int) (d : Nat) : F64 :=
  if n = 0 ∨ d = 0 then fin 0
  else
    let a := n.natAbs
    let e := binaryExponent a d
    let qe : Int := max e (-1022) - 52
    let m : Nat :=
      if 0 ≤ qe then roundHalfEven a (d * 2 ^ qe.toNat)
      else roundHalfEven (a * 2 ^ (-qe).toNat) d
    if 0 ≤ qe ∧ 2 ^ 1024 ≤ m * 2 ^ qe.toNat then inf (decide (n < 0))
    else
      let s : Int := if n < 0 then -1 else 1
      if 0 ≤ qe then fin (mkRat (s * m * 2 ^ qe.toNat) 1)
      else fin (mkRat (s * m) (2 ^ (-qe).toNat))

/-- Go `x + y` on `float64`: the sum of two finite values, computed exactly as
a fraction, is rounded to a `float64`. -/
def addR : F64 → F64 → F64
  | fin a, fin b => roundRat (a.num * b.den + b.num * a.den) (a.den * b.den)
  | x, y => add x y

/-- Go `x * y` on `float64`: the product of two finite values, computed exactly
as a fraction, is rounded to a `float64`. -/
def mulR : F64 → F64 → F64
  | fin a, fin b => roundRat (a.num * b.num) (a.den * b.den)
  | x, y => mul x y

/-- Go `x / y` on `float64`: the quotient of two finite values with `y ≠ 0`,
computed exactly as a fraction, is rounded to a `float64`; division by zero
yields `NaN` for `0/0` and an infinity otherwise. -/
def divR : F64 → F64 → F64
  | fin a, fin b =>
      if b.num = 0 then div (fin a) (fin b)
      else roundRat (a.num * b.den * b.num.sign) (a.den * b.num.natAbs)
  | x, y => div x y

/-- The sum of the values as a Go loop `s += x` computes it from a zero
start: from the left, each addition rounded. -/
def sumR (xs : List F64) : F64 := xs.foldl addR zero

end F64

/-! ## Canonical model (root package) -/

/-- A decoded JSON value held in an `interface{}`. -/
inductive JVal where
  | null
  | num (x : F64)
  | str (s : String)
  | bool (b : Bool)
deriving DecidableEq

/-- The helper functions of the root package and of `strconv`/`fmt` that the
adapters call. They are not among the sources, so the adapters are embedded
over an arbitrary implementation of them. -/
structure RootPkg where
  ToFloat64 : JVal → F64
  ToInt : JVal → Int
  ToInt64 : JVal → Int
  FloatToFixed : F64 → Int → F64
  ParseFloat : String → F64
  Atoi : String → Int
  Itoa : Int → String
  FormatFloat : F64 → String
  SprintfF0 : JVal → String

/-- Go `url.Values`, as the adapters use it: keys with one value each. -/
abbrev Values := List (String × String)

/-- Go `url.Values.Set`: the key gets the value, replacing an earlier one. -/
def Values.Set (v : Values) (key value : String) : Values :=
  v.filter (fun kv => kv.1 != key) ++ [(key, value)]

/-- Go `url.Values.Get`: the value of the key, `""` when absent. -/
def Values.Get (v : Values) (key : String) : String :=
  match v.find? (fun kv => kv.1 == key) with
  | some kv => kv.2
  | none => ""

/-- What a signed POST gives back: a transport error, bytes that
`json.Unmarshal` rejects, or the bytes `raw` together with their decoding. -/
inductive Reply (α : Type) where
  | transport (err : String)
  | malformed (raw : String) (err : String)
  | json (raw : String) (v : α)

/-- Go `strings.Contains(s, substr)`: `substr` occurs in `s` as a run of
consecutive characters. -/
def stringsContains (s substr : String) : Bool :=
  s.toList.tails.any (fun t => substr.toList.isPrefixOf t)

/-- Modelled from the spec: the cross-venue error kinds of the root package
(`ApiError` values, not among the sources) that the adapters name:
`EX_ERR_NOT_FIND_ORDER` (order not found), `EX_ERR_API_LIMIT` (rate limited),
`EX_ERR_INSUFFICIENT_BALANCE` (insufficient balance). -/
inductive ApiErrKind where
  | EX_ERR_NOT_FIND_ORDER
  | EX_ERR_API_LIMIT
  | EX_ERR_INSUFFICIENT_BALANCE
deriving DecidableEq

/-- A Go `error` value as the adapters make or pass one: `errors.New(text)`;
an error handed over by the transport or the JSON decoder; or a typed
`ApiError` of the root package with the venue's text attached by
`OriginErr`. -/
inductive GoError where
  | errorsNew (text : String)
  | passed (text : String)
  | api (kind : ApiErrKind) (originErrMsg : String)
deriving DecidableEq

/-- Go `err.Error()`. `apiText` is `ApiError.Error` of the root package. -/
def GoError.Error (apiText : ApiErrKind → String → String) : GoError → String
  | .errorsNew text => text
  | .passed text => text
  | .api kind originErrMsg => apiText kind originErrMsg

/-- How a Go call ends: it returns a value or it panics. -/
inductive Outcome (α : Type) where
  | returns (v : α)
  | panics (msg : String)
deriving DecidableEq

/-- Go `int64(x)` for a `float64` `x`: the fraction is dropped (truncation
towards zero). A value that no `int64` represents converts to an
implementation-specific result, on amd64 the least `int64`. -/
def F64.toInt64 : F64 → Int
  | .fin q =>
      let t := Int.tdiv q.num q.den
      if -(2 : Int) ^ 63 ≤ t ∧ t < (2 : Int) ^ 63 then t else -(2 : Int) ^ 63
  | _ => -(2 : Int) ^ 63

/-- Modelled from the spec: `Currency` of the root package (not among the
sources): symbol and display name. -/
structure Currency where
  Symbol : String
  Desc : String
deriving DecidableEq

/-- Modelled from the spec: `NewCurrency` of the root package; the symbol is
case-normalized to upper case. -/
def NewCurrency (symbol desc : String) : Currency :=
  { Symbol := String.mk (symbol.toList.map Char.toUpper), Desc := desc }

/-- Modelled from the spec: the currency constants `USD`, `BCC`, `BCH`. -/
def USD : Currency := { Symbol := "USD", Desc := "" }

/-- Modelled from the spec: the legacy symbol `BCC`. -/
def BCC : Currency := { Symbol := "BCC", Desc := "" }

/-- Modelled from the spec: `BCH`, the successor of `BCC`. -/
def BCH : Currency := { Symbol := "BCH", Desc := "" }

/-- Modelled from the spec: `Currency.AdaptBccToBch` of the root package, the
alias rule that maps the legacy symbol `BCC` to `BCH`. -/
def Currency.AdaptBccToBch (c : Currency) : Currency :=
  if c.Symbol = "BCC" then BCH else c

/-- Modelled from the spec: `CurrencyPair` of the root package (not among the
sources), the ordered pair of base and quote currency. -/
structure CurrencyPair where
  CurrencyA : Currency := { Symbol := "", Desc := "" }
  CurrencyB : Currency := { Symbol := "", Desc := "" }
deriving DecidableEq

/-- Modelled from the spec: `NewCurrencyPair` of the root package. -/
def NewCurrencyPair (currencyA currencyB : Currency) : CurrencyPair :=
  { CurrencyA := currencyA, CurrencyB := currencyB }

/-- Modelled from the spec: `CurrencyPair.ToSymbol` of the root package, the
rendering of a pair as the two symbols joined with the venue's separator. -/
def CurrencyPair.ToSymbol (pair : CurrencyPair) (joinChar : String) : String :=
  pair.CurrencyA.Symbol ++ joinChar ++ pair.CurrencyB.Symbol

/-- Modelled from the spec: the currency constant `USDT`. -/
def USDT : Currency := { Symbol := "USDT", Desc := "" }

/-- Modelled from the spec: the currency constant `QTUM`. -/
def QTUM : Currency := { Symbol := "QTUM", Desc := "" }

/-- Go `strings.ToUpper`, on the ASCII letters. -/
def stringsToUpper (s : String) : String := String.mk (s.toList.map Char.toUpper)

/-- Go `strings.ToLower`, on the ASCII letters. -/
def stringsToLower (s : String) : String := String.mk (s.toList.map Char.toLower)

/-- Position of the first occurrence of `sub` in `cs` at or after the offset
`i`, `-1` if there is none. -/
def indexFrom (sub : List Char) : List Char → Nat → Int
  | [], i => if sub.isEmpty then (i : Int) else -1
  | c :: cs, i => if sub.isPrefixOf (c :: cs) then (i : Int) else indexFrom sub cs (i + 1)

/-- Go `strings.Index(s, substr)`: the offset of the first occurrence of
`substr` in `s`, `-1` if `substr` does not occur. -/
def stringsIndex (s substr : String) : Int := indexFrom substr.toList s.toList 0

/-- Go `s[lo:hi]` on a string of one-byte characters: the run from `lo` to
`hi`, a panic when `0 <= lo <= hi <= len(s)` fails. -/
def sliceString (s : String) (lo hi : Int) : Outcome String :=
  if 0 ≤ lo ∧ lo ≤ hi ∧ hi ≤ (s.length : Int) then
    .returns (String.mk ((s.toList.drop lo.toNat).take (hi.toNat - lo.toNat)))
  else .panics "slice bounds out of range"

/-- The decimal digit `d < 10` as a character. -/
def digitChar (d : Nat) : Char := Char.ofNat (48 + d)

/-- The decimal digits of `n`, most significant first; `fuel` bounds the
number of digits and is enough when `n < 10 ^ fuel`. -/
def decimalChars : Nat → Nat → List Char
  | 0, _ => []
  | fuel + 1, n =>
      if n < 10 then [digitChar n] else decimalChars fuel (n / 10) ++ [digitChar (n % 10)]

/-- Go `strconv.FormatInt(n, 10)`: the decimal rendering, most significant
digit first, `-` in front of a negative number. -/
def FormatInt (n : Int) : String :=
  let body : List Char := decimalChars (n.natAbs + 1) n.natAbs
  String.mk (if n < 0 then '-' :: body else body)

/-- Go `int64` addition: the sum taken modulo 2^64 into the range of `int64`. -/
def addInt64 (a b : Int) : Int := (a + b + 2 ^ 63) % 2 ^ 64 - 2 ^ 63

/-- Go `type SubAccount struct` of the root package. -/
structure SubAccount where
  Currency : Currency := { Symbol := "", Desc := "" }
  Amount : F64 := F64.zero
  ForzenAmount : F64 := F64.zero
  LoanAmount : F64 := F64.zero
deriving DecidableEq

/-- Go `map[Currency]SubAccount`: at most one entry per key. -/
abbrev SubAccounts := List (Currency × SubAccount)

/-- Go `m[k]` with the comma-ok form: the entry of the key, if any. -/
def SubAccounts.get (m : SubAccounts) (k : Currency) : Option SubAccount :=
  match m.find? (fun kv => kv.1 = k) with
  | some kv => some kv.2
  | none => none

/-- Go `m[k] = v`: the entry of the key is replaced, or added. -/
def SubAccounts.set (m : SubAccounts) (k : Currency) (v : SubAccount) : SubAccounts :=
  m.filter (fun kv => kv.1 ≠ k) ++ [(k, v)]

/-- Go `type Account struct` of the root package, the fields the adapters
fill in. -/
structure Account where
  Exchange : String := ""
  SubAccounts : SubAccounts := []
deriving DecidableEq

/-- Go `type Kline struct` of the root package, without the currency pair. -/
structure Kline where
  Timestamp : Int := 0
  Open : F64 := F64.zero
  Close : F64 := F64.zero
  High : F64 := F64.zero
  Low : F64 := F64.zero
  Vol : F64 := F64.zero
deriving DecidableEq

/-- Go `type TradeStatus int`. -/
abbrev TradeStatus := Int

/-- Go `type TradeSide int`. -/
abbrev TradeSide := Int

/-- Modelled from the spec: the `TradeStatus` constants of the root package
(`Const.go`, not among the sources). The spec lists the closed set
{unfinished, partially-filled, filled, canceled, cancel-pending, failed}; the
adapters also name `ORDER_REJECT`. They are numbered by `iota` from
`ORDER_UNFINISH = 0`, the zero value of an `Order.Status` left unassigned. -/
def ORDER_UNFINISH : TradeStatus := 0

/-- Modelled from the spec: partially-filled. -/
def ORDER_PART_FINISH : TradeStatus := 1

/-- Modelled from the spec: filled. -/
def ORDER_FINISH : TradeStatus := 2

/-- Modelled from the spec: canceled. -/
def ORDER_CANCEL : TradeStatus := 3

/-- Modelled from the spec: rejected (named by the adapters, not by the spec). -/
def ORDER_REJECT : TradeStatus := 4

/-- Modelled from the spec: cancel-pending. -/
def ORDER_CANCEL_ING : TradeStatus := 5

/-- Modelled from the spec: failed. -/
def ORDER_FAIL : TradeStatus := 6

/-- The closed set of order statuses: the values of the named constants. -/
def tradeStatusSet : List TradeStatus :=
  [ORDER_UNFINISH, ORDER_PART_FINISH, ORDER_FINISH, ORDER_CANCEL, ORDER_REJECT,
   ORDER_CANCEL_ING, ORDER_FAIL]

/-- Modelled from the spec: the `TradeSide` constants of the root package
(`Const.go`, not among the sources), the set {buy, sell, buy-market,
sell-market} numbered by `1 + iota`: no side has the value `0`. -/
def BUY : TradeSide := 1

/-- Modelled from the spec: sell. -/
def SELL : TradeSide := 2

/-- Modelled from the spec: buy-market. -/
def BUY_MARKET : TradeSide := 3

/-- Modelled from the spec: sell-market. -/
def SELL_MARKET : TradeSide := 4

/-- Go `type Order struct` of the root package. A field that a constructor
does not mention has its zero value, as in Go; `Currency` is left out by the
adapters that only copy it from their argument. The Go field `Type` is
`Type_` here (`Type` is reserved). -/
structure Order where
  Currency : CurrencyPair := {}
  Type_ : String := ""
  Price : F64 := F64.zero
  Amount : F64 := F64.zero
  AvgPrice : F64 := F64.zero
  DealAmount : F64 := F64.zero
  Fee : F64 := F64.zero
  Cid : String := ""
  OrderID2 : String := ""
  OrderID : Int := 0
  OrderTime : Int := 0
  Status : TradeStatus := 0
  Side : TradeSide := 0
  FinishedTime : Int := 0
deriving DecidableEq

/-- Go `type DepthRecord struct { Price, Amount float64 }`. -/
structure DepthRecord where
  Price : F64
  Amount : F64
deriving DecidableEq

/-- Go `type DepthRecords []DepthRecord`. -/
abbrev DepthRecords := List DepthRecord

/-- Modelled from the spec: `DepthRecords.Less`, the `sort.Interface` method of
the root package (not among the sources). Depth records are ordered by price:
`dr[i].Price < dr[j].Price`. -/
def DepthRecords.Less (a b : DepthRecord) : Bool := F64.lt a.Price b.Price

/-- Go `type Depth struct` without the currency pair, which an adapter copies
from its argument; `UTime` is a clock reading. -/
structure Depth where
  UTime : Int := 0
  AskList : DepthRecords := []
  BidList : DepthRecords := []
deriving DecidableEq

/-! ## package sort -/

/-- Inner loop of Go's `insertionSort`: the new element `x` sits after the
sorted prefix and is swapped towards the front while `less x y` holds for its
left neighbour `y`. The prefix is given back to front (head = last element). -/
def sortBubble {α : Type} (less : α → α → Bool) (x : α) : List α → List α
  | [] => [x]
  | y :: ys => if less x y then y :: sortBubble less x ys else x :: y :: ys

/-- Go `sort.Sort(data)` with `data.Less(i, j) = less data[i] data[j]`, as the
insertion sort that `sort.Sort` runs on slices of fewer than 12 elements. On
longer slices `sort.Sort` switches to pattern-defeating quicksort, whose result
is again a permutation ordered by `less`; it can differ from this one only in
the relative order of elements that `less` does not separate. -/
def sortSort {α : Type} (less : α → α → Bool) (data : List α) : List α :=
  (data.foldl (fun acc x => sortBubble less x acc) []).reverse

/-- Go `sort.Reverse(data)`: the same data with `Less(i, j) = data.Less(j, i)`. -/
def sortReverse {α : Type} (less : α → α → Bool) : α → α → Bool :=
  fun a b => less b a

/-! ## Binance -/

namespace Binance

/-- One price level of a depth payload, the array `[price, amount]`. -/
structure Level where
  price : JVal
  amount : JVal
deriving DecidableEq

/-- The depth payload: an error envelope has the key `code` (and a `msg`),
a book has `bids` and `asks`. -/
structure DepthResp where
  code : Option JVal := none
  msg : String := ""
  bids : List Level := []
  asks : List Level := []

/-- First statement of `GetDepth` (lines 253-267): `size` is overwritten with
the depth tier that goes into the request. -/
def depthLimit (size : Int) : Int :=
  if size ≤ 5 then 5
  else if size ≤ 10 then 10
  else if size ≤ 20 then 20
  else if size ≤ 50 then 50
  else if size ≤ 100 then 100
  else if size ≤ 500 then 500
  else 1000

/-- The two `for ... range` loops of `GetDepth` (lines 285-296, 298-309): each
level is coerced and appended, `n` is incremented, and the loop is left when
`n == size`. -/
def collectLevels (pkg : RootPkg) (size : Int) :
    Int → List Level → DepthRecords → DepthRecords
  | _, [], acc => acc
  | n, l :: ls, acc =>
      let amount := pkg.ToFloat64 l.amount
      let price := pkg.ToFloat64 l.price
      let dr : DepthRecord := { Amount := amount, Price := price }
      let acc1 := acc ++ [dr]
      let n1 := n + 1
      if n1 = size then acc1 else collectLevels pkg size n1 ls acc1

/-- `Exchange.GetDepth` (lines 252-314). `HttpGet` answers the depth request
for the given `limit`; `now` is the reading of `time.Now()` at line 284. -/
def GetDepth (pkg : RootPkg) (now : Int) (HttpGet : Int → Except String DepthResp)
    (size : Int) : Except String Depth :=
  let size := depthLimit size
  match HttpGet size with
  | .error err => .error err
  | .ok resp =>
    match resp.code with
    | some _ => .error resp.msg
    | none =>
      let bidList := collectLevels pkg size 0 resp.bids []
      let askList := collectLevels pkg size 0 resp.asks []
      let askList := sortSort (sortReverse DepthRecords.Less) askList
      .ok { UTime := now, AskList := askList, BidList := bidList }

/-- The tiers the venue accepts as `limit`. -/
def depthTiers : List Int := [5, 10, 20, 50, 100, 500, 1000]

/-- The decoded answer to an order placement, the keys `placeOrder` reads. -/
structure PlaceMap where
  orderId : JVal
  executedQty : JVal
  cummulativeQuoteQty : JVal
  transactTime : JVal

/-- The request parameters of `placeOrder` (lines 318-331), before
`buildParamsSigned` adds the timestamp and the signature. -/
def placeOrderParams (amount price symbol orderType orderSide : String) : Values :=
  let params : Values := []
  let params := params.Set "symbol" symbol
  let params := params.Set "side" orderSide
  let params := params.Set "type" orderType
  let params := params.Set "newOrderRespType" "ACK"
  let params := params.Set "quantity" amount
  if orderType = "LIMIT" then
    (params.Set "timeInForce" "GTC").Set "price" price
  else if orderType = "MARKET" then
    params.Set "newOrderRespType" "RESULT"
  else params

/-- `Exchange.placeOrder` (lines 316-375). -/
def placeOrder (pkg : RootPkg) (HttpPostForm2 : Values → Reply PlaceMap)
    (amount price symbol orderType orderSide : String) : Except String Order :=
  match HttpPostForm2 (placeOrderParams amount price symbol orderType orderSide) with
  | .transport err => .error err
  | .malformed _ err => .error err
  | .json resp respmap =>
    let orderId := pkg.ToInt respmap.orderId
    if orderId ≤ 0 then .error resp
    else
      let side := if orderSide = "SELL" then SELL else BUY
      let dealAmount := pkg.ToFloat64 respmap.executedQty
      let cummulativeQuoteQty := pkg.ToFloat64 respmap.cummulativeQuoteQty
      let avgPrice :=
        if F64.gt cummulativeQuoteQty F64.zero && F64.gt dealAmount F64.zero then
          F64.div cummulativeQuoteQty dealAmount
        else F64.zero
      .ok { OrderID := orderId
            OrderID2 := pkg.Itoa orderId
            Price := pkg.ToFloat64 (JVal.str price)
            Amount := pkg.ToFloat64 (JVal.str amount)
            DealAmount := dealAmount
            AvgPrice := avgPrice
            Side := side
            Status := ORDER_UNFINISH
            OrderTime := pkg.ToInt respmap.transactTime }

/-- One order of an order-query payload, the keys `adaptOrder` reads; `side`,
`clientOrderId` and `status` are asserted to be strings. -/
structure OrderMap where
  side : String
  orderId : JVal
  clientOrderId : String
  price : JVal
  origQty : JVal
  executedQty : JVal
  cummulativeQuoteQty : JVal
  status : String
  time : JVal
  updateTime : JVal

/-- `Exchange.adaptOrder` (lines 647-669). `adaptOrderStatus` is a function of
the package defined outside `Binance.go`. -/
def adaptOrder (pkg : RootPkg) (adaptOrderStatus : String → TradeStatus)
    (orderMap : OrderMap) : Order :=
  let side := orderMap.side
  let orderSide := if side = "BUY" then BUY else SELL
  { OrderID := pkg.ToInt orderMap.orderId
    OrderID2 := pkg.SprintfF0 orderMap.orderId
    Cid := orderMap.clientOrderId
    Price := pkg.ToFloat64 orderMap.price
    Amount := pkg.ToFloat64 orderMap.origQty
    DealAmount := pkg.ToFloat64 orderMap.executedQty
    AvgPrice := pkg.FloatToFixed
      (F64.div (pkg.ToFloat64 orderMap.cummulativeQuoteQty) (pkg.ToFloat64 orderMap.executedQty)) 8
    Side := orderSide
    Status := adaptOrderStatus orderMap.status
    OrderTime := pkg.ToInt orderMap.time
    FinishedTime := pkg.ToInt64 orderMap.updateTime }

end Binance

/-! ## OKEx -/

namespace OKEx

/-- `Exchange.adaptOrderState` (lines 76-94). -/
def adaptOrderState (state : Int) : TradeStatus :=
  if state = -2 then ORDER_FAIL
  else if state = -1 then ORDER_CANCEL
  else if state = 0 then ORDER_UNFINISH
  else if state = 1 then ORDER_PART_FINISH
  else if state = 2 then ORDER_FINISH
  else if state = 3 then ORDER_UNFINISH
  else if state = 4 then ORDER_CANCEL_ING
  else ORDER_UNFINISH

end OKEx

/-! ## Atop -/

namespace Atop

/-- The envelope of every signed Atop answer: `code` (asserted `float64`),
`info`, and the payload `data`. -/
structure Envelope (α : Type) where
  code : F64
  info : String
  data : α

/-- The request parameters of `plateOrder` (lines 221-236), before
`buildPostForm` adds the access key, the nonce and the signature. -/
def plateOrderParams (pkg : RootPkg) (amount price market orderType orderSide : String) :
    Values :=
  let params : Values := []
  let params := params.Set "market" market
  let params :=
    if orderSide = "buy" then params.Set "type" (pkg.Itoa 1)
    else params.Set "type" (pkg.Itoa 0)
  let params := params.Set "price" price
  let params := params.Set "number" amount
  if orderType = "market" then params.Set "entrustType" (pkg.Itoa 1)
  else params.Set "entrustType" (pkg.Itoa 0)

/-- The payload of a placement answer: the order id, asserted `float64`. -/
structure PlateData where
  id : F64

/-- `Exchange.plateOrder` (lines 218-276); `now` is `time.Now().Unix()`. -/
def plateOrder (pkg : RootPkg) (HttpPostForm : Values → Reply (Envelope PlateData))
    (now : Int) (amount price market orderType orderSide : String) : Except GoError Order :=
  match HttpPostForm (plateOrderParams pkg amount price market orderType orderSide) with
  | .transport err => .error (.passed err)
  | .malformed _ err => .error (.passed err)
  | .json _ respMap =>
    let code := respMap.code
    if code ≠ F64.fin 200 then .error (.errorsNew respMap.info)
    else
      let data := respMap.data
      let orderId := data.id
      let side := if orderSide = "sale" then SELL else BUY
      .ok { OrderID2 := pkg.FormatFloat orderId
            Price := pkg.ToFloat64 (JVal.str price)
            Amount := pkg.ToFloat64 (JVal.str amount)
            DealAmount := F64.zero
            AvgPrice := F64.zero
            Side := side
            Status := ORDER_UNFINISH
            OrderTime := now }

/-- `Exchange.LimitBuy` (lines 310-312). -/
def LimitBuy (pkg : RootPkg) (HttpPostForm : Values → Reply (Envelope PlateData))
    (now : Int) (amount price market : String) : Except GoError Order :=
  plateOrder pkg HttpPostForm now amount price market "limit" "buy"

/-- `Exchange.LimitSell` (lines 315-317). -/
def LimitSell (pkg : RootPkg) (HttpPostForm : Values → Reply (Envelope PlateData))
    (now : Int) (amount price market : String) : Except GoError Order :=
  plateOrder pkg HttpPostForm now amount price market "limit" "sale"

/-- `Exchange.MarketBuy` (lines 320-322). -/
def MarketBuy (pkg : RootPkg) (HttpPostForm : Values → Reply (Envelope PlateData))
    (now : Int) (amount price market : String) : Except GoError Order :=
  plateOrder pkg HttpPostForm now amount price market "market" "buy"

/-- `Exchange.MarketSell` (lines 325-327). -/
def MarketSell (pkg : RootPkg) (HttpPostForm : Values → Reply (Envelope PlateData))
    (now : Int) (amount price market : String) : Except GoError Order :=
  plateOrder pkg HttpPostForm now amount price market "market" "sale"

/-- The payload of an order-status answer, the keys `GetOneOrder` reads;
`status` is asserted `float64`. -/
structure OrderData where
  status : F64
  flag : JVal
  number : JVal
  price : JVal
  completeNumber : JVal
  avg_price : JVal

/-- `Exchange.GetOneOrder` (lines 365-430). The `switch` on `status` has no
default: on any other code `ord.Status` keeps its zero value. -/
def GetOneOrder (pkg : RootPkg) (HttpPostForm : Reply (Envelope OrderData))
    (orderId : String) : Except String Order :=
  match HttpPostForm with
  | .transport err => .error err
  | .malformed _ err => .error err
  | .json _ respMap =>
    let code := respMap.code
    if code ≠ F64.fin 200 then .error respMap.info
    else
      let data := respMap.data
      let status := data.status
      let side := data.flag
      let ord : Order := {}
      let ord := { ord with OrderID2 := orderId }
      let ord := if side = JVal.str "sale" then { ord with Side := SELL }
                 else { ord with Side := BUY }
      let ord :=
        if status = F64.fin 0 then { ord with Status := ORDER_UNFINISH }
        else if status = F64.fin 1 then { ord with Status := ORDER_PART_FINISH }
        else if status = F64.fin 2 then { ord with Status := ORDER_FINISH }
        else if status = F64.fin 3 then { ord with Status := ORDER_CANCEL }
        else ord
      let ord := { ord with Amount := pkg.ToFloat64 data.number }
      let ord := { ord with Price := pkg.ToFloat64 data.price }
      let ord := { ord with
        DealAmount := F64.sub ord.Amount (pkg.ToFloat64 data.completeNumber) }
      let ord := { ord with AvgPrice := pkg.ToFloat64 data.avg_price }
      .ok ord

/-- One record of an open-orders or order-history answer; `id` is asserted
`float64`. -/
structure OrderRecord where
  id : F64
  price : JVal
  number : JVal
  type : JVal
  status : JVal
  time : JVal

/-- The body of the loops of `GetUnfinishOrders` (lines 459-471) and
`GetOrderHistorys` (lines 577-589), which are the same: one record becomes one
`Order`, side and status by conversion of the native integer. -/
def recordToOrder (pkg : RootPkg) (ordData : OrderRecord) : Order :=
  let orderId := pkg.FormatFloat ordData.id
  { OrderID := 0
    OrderID2 := orderId
    Price := pkg.ToFloat64 ordData.price
    Amount := pkg.ToFloat64 ordData.number
    Side := pkg.ToInt ordData.type
    Status := pkg.ToInt ordData.status
    OrderTime := pkg.ToInt ordData.time }

/-- `Exchange.GetUnfinishOrders` (lines 433-473). -/
def GetUnfinishOrders (pkg : RootPkg) (HttpPostForm : Reply (Envelope (List OrderRecord))) :
    Except String (List Order) :=
  match HttpPostForm with
  | .transport err => .error err
  | .malformed _ err => .error err
  | .json _ respMap =>
    if respMap.code ≠ F64.fin 200 then .error respMap.info
    else .ok (respMap.data.foldl (fun orders ord => orders ++ [recordToOrder pkg ord]) [])

/-- The payload of an order-history answer: the records under `record`. -/
structure HistoryData where
  record : List OrderRecord

/-- `Exchange.GetOrderHistorys` (lines 548-592). -/
def GetOrderHistorys (pkg : RootPkg) (HttpPostForm : Reply (Envelope HistoryData)) :
    Except String (List Order) :=
  match HttpPostForm with
  | .transport err => .error err
  | .malformed _ err => .error err
  | .json _ respMap =>
    if respMap.code ≠ F64.fin 200 then .error respMap.info
    else
      let records := respMap.data.record
      .ok (records.foldl (fun orders ord => orders ++ [recordToOrder pkg ord]) [])

end Atop

/-! ## Poloniex -/

namespace Poloniex

/-- One fill of a `returnOrderTrades` answer; every key is asserted `string`. -/
structure Fill where
  amount : String
  rate : String
  fee : String
  type : String

/-- What `GetOneOrder` gets back from the venue: a transport error; a body
containing the text `error`, with what the follow-up `GetUnfinishOrders` call
then returns; a body that is not a JSON array; or the array of fills. -/
inductive TradesReply where
  | transport (err : String)
  | errorBody (raw : String) (open_ : Except String (List Order))
  | malformed (raw : String) (err : String)
  | fills (raw : String) (respmap : List Fill)

/-- State of the loop over the fills (lines 266-281): the order and `total`. -/
structure FillAcc where
  order : Order
  total : F64

/-- One iteration of the loop over the fills. -/
def fillStep (pkg : RootPkg) (acc : FillAcc) (vv : Fill) : FillAcc :=
  let amount := pkg.ParseFloat vv.amount
  let rate := pkg.ParseFloat vv.rate
  let fee := pkg.ParseFloat vv.fee
  let order := { acc.order with DealAmount := F64.add acc.order.DealAmount amount }
  let total := F64.add acc.total (F64.mul amount rate)
  let order := { order with Fee := fee }
  let order := if vv.type = "sell" then { order with Side := SELL }
               else { order with Side := BUY }
  { order := order, total := total }

/-- `Exchange.GetOneOrder` (lines 215-286); `notFound` is the text of
`EX_ERR_NOT_FIND_ORDER`. -/
def GetOneOrder (pkg : RootPkg) (notFound : String) (reply : TradesReply)
    (orderId : String) : Except String Order :=
  match reply with
  | .transport err => .error err
  | .errorBody raw open_ =>
    match open_ with
    | .error err1 =>
      if stringsContains err1 "Order not found" then .error notFound else .error raw
    | .ok ords =>
      let ordId := pkg.Atoi orderId
      match ords.find? (fun ord => ord.OrderID = ordId) with
      | some ord => .ok ord
      | none => .error raw
  | .malformed _ err => .error err
  | .fills _ respmap =>
    let order : Order := {}
    let order := { order with OrderID := pkg.Atoi orderId }
    let acc := respmap.foldl (fillStep pkg) { order := order, total := F64.zero }
    let order := acc.order
    .ok { order with AvgPrice := F64.div acc.total order.DealAmount }

end Poloniex

/-! ## Concrete inputs -/

/-- Digits of an unsigned decimal integer, most significant first. -/
def digitsValue (cs : List Char) : Option Nat :=
  cs.foldl (fun acc c =>
    match acc with
    | none => none
    | some n => if c.isDigit then some (n * 10 + (c.toNat - 48)) else none) (some 0)

/-- Go `math.Round(v*p) / p` on a finite value, halves away from zero. -/
def roundAt (q : ℚ) (p : ℚ) : ℚ :=
  if 0 ≤ q then ((q * p + 1 / 2).floor : ℚ) / p else -((-q * p + 1 / 2).floor : ℚ) / p

/-- An implementation of the root-package helpers on which the adapters can be
run. It behaves as the Go helpers on the payloads used as examples below:
JSON numbers and strings of decimal digits are read as that number, `nil` and
anything unreadable as zero (the helpers ignore the parse error), and
`FloatToFixed` rounds a finite value to the given number of decimals and lets
`NaN` and the infinities through, as `math.Round(v*p)/p` does. -/
def samplePkg : RootPkg where
  ToFloat64 := fun v =>
    match v with
    | .num x => x
    | .str s => F64.fin ((digitsValue s.toList).getD 0)
    | _ => F64.zero
  ToInt := fun v =>
    match v with
    | .num (.fin q) => Int.sign q.num * ((q.num.natAbs / q.den : Nat) : Int)
    | .str s => (digitsValue s.toList).getD 0
    | _ => 0
  ToInt64 := fun v =>
    match v with
    | .num (.fin q) => Int.sign q.num * ((q.num.natAbs / q.den : Nat) : Int)
    | .str s => (digitsValue s.toList).getD 0
    | _ => 0
  FloatToFixed := fun v precision =>
    match v with
    | .fin q => F64.fin (roundAt q ((10 : ℚ) ^ precision.toNat))
    | other => other
  ParseFloat := fun s => F64.fin ((digitsValue s.toList).getD 0)
  Atoi := fun s => (digitsValue s.toList).getD 0
  Itoa := fun n => toString n
  FormatFloat := fun _ => ""
  SprintfF0 := fun _ => ""

namespace Binance

/-- A book of `k` levels per side, at the prices `1, 2, ..., k`, each of
amount `1`. -/
def ladder (k : Nat) : DepthResp :=
  let levels := (List.range k).map
    (fun i => ({ price := JVal.num (F64.fin ((i + 1 : Nat) : ℚ)),
                  amount := JVal.num (F64.fin 1) } : Level))
  { bids := levels, asks := levels }

/-- A venue that answers a depth request with as many levels per side as the
requested `limit`. -/
def fullBook (limit : Int) : Except String DepthResp := .ok (ladder limit.toNat)

/-- The coercion of one level, as done in the body of both loops. -/
def levelRecord (pkg : RootPkg) (l : Level) : DepthRecord :=
  { Amount := pkg.ToFloat64 l.amount, Price := pkg.ToFloat64 l.price }

/-- The level `[price, 1]`. -/
def levelAt (price : Nat) : Level :=
  { price := JVal.num (F64.fin (price : ℚ)), amount := JVal.num (F64.fin 1) }

/-- A book with the given prices on each side, in the given order. -/
def bookOf (bids asks : List Nat) : DepthResp :=
  { bids := bids.map levelAt, asks := asks.map levelAt }

/-- The list is non-decreasing by price. -/
def nonDecreasing (l : DepthRecords) : Prop :=
  l.Pairwise (fun a b => F64.le a.Price b.Price = true)

/-- The list is non-increasing by price. -/
def nonIncreasing (l : DepthRecords) : Prop :=
  l.Pairwise (fun a b => F64.le b.Price a.Price = true)

instance (l : DepthRecords) : Decidable (nonDecreasing l) := by
  unfold nonDecreasing; infer_instance

instance (l : DepthRecords) : Decidable (nonIncreasing l) := by
  unfold nonIncreasing; infer_instance

end Binance

/-! ## Concrete payloads -/

/-- An order payload with nothing executed: `executedQty` and
`cummulativeQuoteQty` are `"0"`, of 2 units ordered at price 100. -/
def Binance.unfilledOrder : Binance.OrderMap :=
  { side := "BUY", orderId := JVal.num (F64.fin 1), clientOrderId := "c1"
    price := JVal.str "100", origQty := JVal.str "2", executedQty := JVal.str "0"
    cummulativeQuoteQty := JVal.str "0", status := "NEW"
    time := JVal.num (F64.fin 0), updateTime := JVal.num (F64.fin 0) }

/-- A placement answer with the same figures: nothing executed. -/
def Binance.unfilledAck : Binance.PlaceMap :=
  { orderId := JVal.num (F64.fin 1), executedQty := JVal.str "0"
    cummulativeQuoteQty := JVal.str "0", transactTime := JVal.num (F64.fin 0) }

/-- A successful Atop order-status answer: 10 units requested (`number`), 3
executed (`completeNumber`), status 1. -/
def Atop.partFilled : Reply (Atop.Envelope Atop.OrderData) :=
  .json "" { code := F64.fin 200, info := ""
             data := { status := F64.fin 1, flag := JVal.str "buy", number := JVal.str "10"
                       price := JVal.str "100", completeNumber := JVal.str "3"
                       avg_price := JVal.str "100" } }

/-- A successful Atop order-status answer with the given native status. -/
def Atop.statusAnswer (status : Nat) : Reply (Atop.Envelope Atop.OrderData) :=
  .json "" { code := F64.fin 200, info := ""
             data := { status := F64.fin (status : ℚ), flag := JVal.str "buy"
                       number := JVal.str "10", price := JVal.str "100"
                       completeNumber := JVal.str "0", avg_price := JVal.str "0" } }

/-- An Atop order record with the given native `type` and `status`. -/
def Atop.recordOf (type status : Nat) : Atop.OrderRecord :=
  { id := F64.fin 1, price := JVal.str "100", number := JVal.str "10"
    type := JVal.num (F64.fin (type : ℚ)), status := JVal.num (F64.fin (status : ℚ))
    time := JVal.num (F64.fin 0) }

/-- A successful open-orders answer holding the given records. -/
def Atop.openOrders (records : List Atop.OrderRecord) :
    Reply (Atop.Envelope (List Atop.OrderRecord)) :=
  .json "" { code := F64.fin 200, info := "", data := records }

/-- A successful order-history answer holding the given records. -/
def Atop.history (records : List Atop.OrderRecord) :
    Reply (Atop.Envelope Atop.HistoryData) :=
  .json "" { code := F64.fin 200, info := "", data := { record := records } }

/-- The closed set of sides: the values of the named constants. -/
def tradeSideSet : List TradeSide := [BUY, SELL, BUY_MARKET, SELL_MARKET]

/-- A Poloniex fill of the given amount at the given rate, fee 0. -/
def Poloniex.fillOf (amount rate : String) : Poloniex.Fill :=
  { amount := amount, rate := rate, fee := "0", type := "buy" }

/-- The amounts of the fills, as `GetOneOrder` parses them. -/
def Poloniex.fillAmounts (pkg : RootPkg) (fills : List Poloniex.Fill) : List F64 :=
  fills.map (fun vv => pkg.ParseFloat vv.amount)

/-! ## Error handling, accounts and klines of the adapters -/

namespace Binance

/-- `Exchange.adaptError` (lines 628-645). -/
def adaptError (apiText : ApiErrKind → String → String) (err : GoError) : GoError :=
  let errStr := err.Error apiText
  if stringsContains errStr "Order does not exist" ||
      stringsContains errStr "Unknown order sent" then
    .api .EX_ERR_NOT_FIND_ORDER errStr
  else if stringsContains errStr "Too much request" then
    .api .EX_ERR_API_LIMIT errStr
  else if stringsContains errStr "insufficient" then
    .api .EX_ERR_INSUFFICIENT_BALANCE errStr
  else err

/-- One row of a kline payload, the columns `GetKlineRecords` reads:
`record[0]` is asserted `float64`, `record[1..5]` go through `ToFloat64`. -/
structure KlineRow where
  t : F64
  o : JVal
  h : JVal
  l : JVal
  c : JVal
  v : JVal

/-- The body of the loop of `GetKlineRecords` (lines 506-514). -/
def rowToKline (pkg : RootPkg) (record : KlineRow) : Kline :=
  let r : Kline := {}
  let r := { r with Timestamp := Int.tdiv (F64.toInt64 record.t) 1000 }
  let r := { r with Open := pkg.ToFloat64 record.o }
  let r := { r with High := pkg.ToFloat64 record.h }
  let r := { r with Low := pkg.ToFloat64 record.l }
  let r := { r with Close := pkg.ToFloat64 record.c }
  let r := { r with Vol := pkg.ToFloat64 record.v }
  r

/-- `Exchange.GetKlineRecords` (lines 492-521); `HttpGet3` is the answer to
the kline request. -/
def GetKlineRecords (pkg : RootPkg) (HttpGet3 : Except String (List KlineRow)) :
    Except String (List Kline) :=
  match HttpGet3 with
  | .error err => .error err
  | .ok klines =>
    .ok (klines.foldl (fun klineRecords record => klineRecords ++ [rowToKline pkg record]) [])

end Binance

namespace Atop

/-- One currency of a balance payload. -/
structure Balance where
  available : JVal
  freeze : JVal

/-- The body of the loop of `GetAccount` (lines 297-305). -/
def accountStep (pkg : RootPkg) (subAccounts : SubAccounts) (kv : String × Balance) :
    SubAccounts :=
  let cur := NewCurrency kv.1 ""
  let vv := kv.2
  let sub : SubAccount := {}
  let sub := { sub with Currency := cur }
  let sub := { sub with
    Amount := F64.add (pkg.ToFloat64 vv.available) (pkg.ToFloat64 vv.freeze) }
  let sub := { sub with ForzenAmount := pkg.ToFloat64 vv.freeze }
  subAccounts.set cur sub

/-- `Exchange.GetAccount` (lines 279-307); the payload is `respMap["data"]`,
its entries in the order the `range` visits them. -/
def GetAccount (pkg : RootPkg) (HttpPostForm : Reply (List (String × Balance))) :
    Except String Account :=
  match HttpPostForm with
  | .transport err => .error err
  | .malformed _ err => .error err
  | .json _ data =>
    .ok { Exchange := "atop.com", SubAccounts := data.foldl (accountStep pkg) [] }

/-- One row of a kline payload: the first column, asserted `float64`, and the
columns after it. -/
structure KlineRow where
  time : F64
  cols : List JVal

/-- The `switch i` of `GetKlineRecords` (lines 494-507) for a column `i >= 1`. -/
def klineColumn (pkg : RootPkg) (r : Kline) (i : Nat) (e : JVal) : Kline :=
  if i = 1 then { r with Open := pkg.ToFloat64 e }
  else if i = 2 then { r with High := pkg.ToFloat64 e }
  else if i = 3 then { r with Low := pkg.ToFloat64 e }
  else if i = 4 then { r with Close := pkg.ToFloat64 e }
  else if i = 5 then { r with Vol := pkg.ToFloat64 e }
  else r

/-- The body of the outer loop of `GetKlineRecords` (lines 490-510): column 0
is converted with `int64(...)`, the columns after it by `klineColumn`. -/
def rowToKline (pkg : RootPkg) (record : KlineRow) : Kline :=
  let r : Kline := {}
  let r := { r with Timestamp := F64.toInt64 record.time }
  (record.cols.foldl
    (fun (acc : Kline × Nat) e => (klineColumn pkg acc.1 acc.2 e, acc.2 + 1)) (r, 1)).1

/-- `Exchange.GetKlineRecords` (lines 476-513); `HttpGet` is the answer to the
kline request, the rows under `datas`. -/
def GetKlineRecords (pkg : RootPkg) (HttpGet : Except String (List KlineRow)) :
    Except String (List Kline) :=
  match HttpGet with
  | .error err => .error err
  | .ok datas =>
    .ok (datas.foldl (fun klineRecords record => klineRecords ++ [rowToKline pkg record]) [])

end Atop

namespace Poloniex

/-- The decoded answer to a placement: `error` (null when absent) and
`orderNumber`, asserted `string`. -/
structure PlaceMap where
  error : JVal
  orderNumber : String

/-- The request parameters of `placeLimitOrder` (lines 124-128), before
`buildPostForm` signs them. -/
def placeLimitOrderParams (command amount price symbol : String) : Values :=
  let postData : Values := []
  let postData := postData.Set "command" command
  let postData := postData.Set "currencyPair" symbol
  let postData := postData.Set "rate" price
  postData.Set "amount" amount

/-- `Exchange.placeLimitOrder` (lines 123-168), with the Go result pair
`(*Order, error)`; `now` is `time.Now().Unix()`. -/
def placeLimitOrder (pkg : RootPkg) (HttpPostForm2 : Values → Reply PlaceMap) (now : Int)
    (command amount price symbol : String) : Option Order × Option GoError :=
  match HttpPostForm2 (placeLimitOrderParams command amount price symbol) with
  | .transport err => (none, some (.passed err))
  | .malformed _ err => (none, some (.passed err))
  | .json _ respmap =>
    let err : Option GoError := none
    if respmap.error ≠ JVal.null then (none, err)
    else
      let orderNumber := respmap.orderNumber
      let order : Order := {}
      let order := { order with OrderTime := now * 1000 }
      let order := { order with OrderID := pkg.Atoi orderNumber }
      let order := { order with OrderID2 := orderNumber }
      let order := { order with Amount := pkg.ParseFloat amount }
      let order := { order with Price := pkg.ParseFloat price }
      let order := { order with Status := ORDER_UNFINISH }
      let order :=
        if command = "sell" then { order with Side := SELL }
        else if command = "buy" then { order with Side := BUY }
        else order
      (some order, none)

/-- `Exchange.LimitBuy` (lines 170-172). -/
def LimitBuy (pkg : RootPkg) (HttpPostForm2 : Values → Reply PlaceMap) (now : Int)
    (amount price symbol : String) : Option Order × Option GoError :=
  placeLimitOrder pkg HttpPostForm2 now "buy" amount price symbol

/-- `Exchange.LimitSell` (lines 174-176). -/
def LimitSell (pkg : RootPkg) (HttpPostForm2 : Values → Reply PlaceMap) (now : Int)
    (amount price symbol : String) : Option Order × Option GoError :=
  placeLimitOrder pkg HttpPostForm2 now "sell" amount price symbol

/-- The decoded answer to a cancellation: `error` (null when absent) and
`success`, asserted `float64`. -/
structure CancelMap where
  error : JVal
  success : F64

/-- `Exchange.CancelOrder` (lines 178-214), with the Go result pair
`(bool, error)`. -/
def CancelOrder (HttpPostForm2 : Reply CancelMap) : Bool × Option GoError :=
  match HttpPostForm2 with
  | .transport err => (false, some (.passed err))
  | .malformed raw _ => (false, some (.errorsNew raw))
  | .json raw respmap =>
    if respmap.error ≠ JVal.null then (false, some (.errorsNew raw))
    else
      let success := F64.toInt64 respmap.success
      if success ≠ 1 then (false, none) else (true, none)

/-- `Exchange.MarketBuy` (lines 510-512): the body is a `panic`. -/
def MarketBuy (_amount _price _symbol : String) : Outcome (Option Order × Option GoError) :=
  .panics "unsupport the market order"

/-- `Exchange.MarketSell` (lines 514-516): the body is a `panic`. -/
def MarketSell (_amount _price _symbol : String) : Outcome (Option Order × Option GoError) :=
  .panics "unsupport the market order"

/-- `Exchange.GetKlineRecords` (lines 119-121): `return nil, nil`. -/
def GetKlineRecords (_symbol : String) (_period _size : Int) :
    Outcome (List Kline × Option GoError) :=
  .returns ([], none)

/-- `Exchange.GetOrderHistorys` (lines 340-342): `return nil, nil`. -/
def GetOrderHistorys (_symbol : String) : Outcome (List Order × Option GoError) :=
  .returns ([], none)

/-- One currency of a balance payload; both keys are asserted `string`. -/
structure Balance where
  available : String
  onOrders : String

/-- The decoded balance payload: `error` (null when absent) and the
currencies, in the order the `range` visits them. -/
structure BalanceMap where
  error : JVal
  entries : List (String × Balance)

/-- The body of the loop of `GetAccount` (lines 374-385): the two amounts are
what `strconv.ParseFloat` yields, its error discarded. -/
def accountStep (pkg : RootPkg) (subAccounts : SubAccounts) (kv : String × Balance) :
    SubAccounts :=
  let currency := NewCurrency kv.1 ""
  let vv := kv.2
  let subAcc : SubAccount := {}
  let subAcc := { subAcc with Currency := currency }
  let subAcc := { subAcc with Amount := pkg.ParseFloat vv.available }
  let subAcc := { subAcc with ForzenAmount := pkg.ParseFloat vv.onOrders }
  let subAccounts := subAccounts.set subAcc.Currency subAcc
  if currency.Symbol = "USDT" then subAccounts.set USD subAcc else subAccounts

/-- `Exchange.GetAccount` (lines 344-388), with the Go result pair
`(*Account, error)`. -/
def GetAccount (pkg : RootPkg) (HttpPostForm2 : Reply BalanceMap) :
    Option Account × Option GoError :=
  match HttpPostForm2 with
  | .transport err => (none, some (.passed err))
  | .malformed _ err => (none, some (.passed err))
  | .json _ respmap =>
    let err : Option GoError := none
    if respmap.error ≠ JVal.null then (none, err)
    else
      (some { Exchange := "poloniex.com"
              SubAccounts := respmap.entries.foldl (accountStep pkg) [] }, none)

end Poloniex

namespace Kucoin

/-- One entry of the account list (`kucoin.AccountModel`), the fields
`GetAccount` reads. -/
structure AccountModel where
  Currency : String
  Available : String
  Holds : String

/-- The body of the loop of `GetAccount` (lines 359-375). -/
def accountStep (pkg : RootPkg) (subAccounts : SubAccounts) (v : AccountModel) :
    SubAccounts :=
  let currency := (NewCurrency v.Currency "").AdaptBccToBch
  match subAccounts.get currency with
  | none =>
    subAccounts.set currency
      { Currency := currency
        Amount := pkg.ToFloat64 (JVal.str v.Available)
        ForzenAmount := pkg.ToFloat64 (JVal.str v.Holds) }
  | some sub =>
    subAccounts.set currency
      { Currency := currency
        Amount := F64.add sub.Amount (pkg.ToFloat64 (JVal.str v.Available))
        ForzenAmount := F64.add sub.ForzenAmount (pkg.ToFloat64 (JVal.str v.Holds)) }

/-- `Exchange.GetAccount` (lines 348-378); `accs` is what `exchange.Accounts`
returns, `name` the constant `KUCOIN`. -/
def GetAccount (pkg : RootPkg) (name : String) (accs : Except String (List AccountModel)) :
    Except String Account :=
  match accs with
  | .error err => .error err
  | .ok accs => .ok { Exchange := name, SubAccounts := accs.foldl (accountStep pkg) [] }

end Kucoin

/-! ## Concrete payloads: errors, accounts, klines -/

/-- An unsigned decimal numeral with an optional fraction, as a rational:
the digits without the point over the power of ten of the fraction length. -/
def decimalValue (cs : List Char) : Option ℚ :=
  let whole := cs.takeWhile (fun c => c != '.')
  let frac := (cs.dropWhile (fun c => c != '.')).drop 1
  match digitsValue (whole ++ frac) with
  | some n => some (mkRat n (10 ^ frac.length))
  | none => none

/-- The root package `samplePkg` with a `ToFloat64` that also reads decimal
fractions in strings (`"104.5"`), as the Go helper does. -/
def decimalPkg : RootPkg :=
  { samplePkg with
    ToFloat64 := fun v =>
      match v with
      | .num x => x
      | .str s => F64.fin ((decimalValue s.toList).getD 0)
      | _ => F64.zero }

/-- `ApiError.Error` for the examples: the text attached by `OriginErr`. -/
def sampleApiText (_kind : ApiErrKind) (originErrMsg : String) : String := originErrMsg

/-- The bytes of a Poloniex error answer. -/
def Poloniex.errorRaw : String := "\x7b\"error\":\"Not enough BTC.\"\x7d"

/-- A Poloniex placement answer that is valid JSON with an `error` field. -/
def Poloniex.placeError : Reply Poloniex.PlaceMap :=
  .json Poloniex.errorRaw { error := JVal.str "Not enough BTC.", orderNumber := "" }

/-- A Poloniex cancellation answer that is valid JSON with an `error` field. -/
def Poloniex.cancelError : Reply Poloniex.CancelMap :=
  .json Poloniex.errorRaw { error := JVal.str "Not enough BTC.", success := F64.fin 0 }

/-- A Poloniex balance answer whose `available` for BTC is not a number. -/
def Poloniex.badBalance : Reply Poloniex.BalanceMap :=
  .json "" { error := JVal.null
             entries := [("BTC", { available := "abc", onOrders := "1" })] }

/-- An entry of a Poloniex balance payload writes the key `c`: its own
currency, and `USD` as well when its symbol is `USDT`. -/
def Poloniex.writes (kv : String × Poloniex.Balance) (c : Currency) : Prop :=
  NewCurrency kv.1 "" = c ∨ ((NewCurrency kv.1 "").Symbol = "USDT" ∧ c = USD)

/-- The Atop failure envelope `code 1001, info "insufficient balance"`. -/
def Atop.insufficient : Reply (Atop.Envelope Atop.PlateData) :=
  .json "" { code := F64.fin 1001, info := "insufficient balance", data := { id := F64.fin 0 } }

/-- An Atop success envelope: code 200 and the order id 42 in `data`. -/
def Atop.placed : Reply (Atop.Envelope Atop.PlateData) :=
  .json "" { code := F64.fin 200, info := "", data := { id := F64.fin 42 } }

/-- An Atop balance answer: BTC with 1 available and 2 frozen. -/
def Atop.balances : Reply (List (String × Atop.Balance)) :=
  .json "" [("btc", { available := JVal.str "1", freeze := JVal.str "2" })]

/-- The currency of a KuCoin account entry, after the alias rule. -/
def Kucoin.currencyOf (v : Kucoin.AccountModel) : Currency :=
  (NewCurrency v.Currency "").AdaptBccToBch

/-- Sum of a list of amounts, added from left to right. -/
def sumAmounts (xs : List F64) : F64 := xs.foldl F64.add F64.zero

/-- The available amounts of the entries of a currency, in list order. -/
def Kucoin.availableOf (pkg : RootPkg) (c : Currency) (accs : List Kucoin.AccountModel) :
    List F64 :=
  (accs.filter (fun v => Kucoin.currencyOf v = c)).map
    (fun v => pkg.ToFloat64 (JVal.str v.Available))

/-- The held amounts of the entries of a currency, in list order. -/
def Kucoin.holdsOf (pkg : RootPkg) (c : Currency) (accs : List Kucoin.AccountModel) :
    List F64 :=
  (accs.filter (fun v => Kucoin.currencyOf v = c)).map
    (fun v => pkg.ToFloat64 (JVal.str v.Holds))

/-- A KuCoin account list: BTC in two wallets, and the legacy symbol BCC next
to BCH. -/
def Kucoin.wallets : List Kucoin.AccountModel :=
  [ { Currency := "BTC", Available := "1", Holds := "2" },
    { Currency := "BCC", Available := "5", Holds := "0" },
    { Currency := "BTC", Available := "3", Holds := "4" },
    { Currency := "BCH", Available := "6", Holds := "1" } ]

/-- The kline row `[1625097600000, "100.0", "105.0", "99.0", "104.5", "1200"]`
of a Binance payload. -/
def Binance.exampleRow : Binance.KlineRow :=
  { t := F64.fin 1625097600000, o := JVal.str "100.0", h := JVal.str "105.0"
    l := JVal.str "99.0", c := JVal.str "104.5", v := JVal.str "1200" }

/-- The same row in an Atop payload. -/
def Atop.exampleRow : Atop.KlineRow :=
  { time := F64.fin 1625097600000
    cols := [JVal.str "100.0", JVal.str "105.0", JVal.str "99.0", JVal.str "104.5",
             JVal.str "1200"] }

/-! ## Request signing: timestamps and nonces -/

/-- Two steps of a Go call in sequence: the second runs on the value the first
returns, a panic of the first ends the call. -/
def Outcome.bind {α β : Type} (x : Outcome α) (f : α → Outcome β) : Outcome β :=
  match x with
  | .returns v => f v
  | .panics msg => .panics msg

/-- A UTC instant as `time.Time` prints it: calendar date, time of day and
nanoseconds within the second. -/
structure UTCTime where
  year : Nat
  month : Nat
  day : Nat
  hour : Nat
  minute : Nat
  second : Nat
  nanosecond : Nat
deriving DecidableEq

/-- The `width` low decimal digits of `n`, most significant first, with
leading zeros. -/
def padDigits (width n : Nat) : List Char :=
  (List.range width).reverse.map (fun i => digitChar (n / 10 ^ i % 10))

/-- The fraction of the layout `.999999999`: the nine digits of the
nanoseconds without their trailing zeros, and nothing at all, not even the
point, when the nanoseconds are zero. -/
def fractionDigits (nanosecond : Nat) : List Char :=
  let kept := ((padDigits 9 nanosecond).reverse.dropWhile (fun c => c == '0')).reverse
  if kept.isEmpty then [] else '.' :: kept

/-- Go `Time.String()` of a UTC time without monotonic clock reading (which
`UTC()` strips): the layout `2006-01-02 15:04:05.999999999 -0700 MST`. -/
def timeString (t : UTCTime) : String :=
  String.mk (padDigits 4 t.year ++ ['-'] ++ padDigits 2 t.month ++ ['-'] ++ padDigits 2 t.day
    ++ [' '] ++ padDigits 2 t.hour ++ [':'] ++ padDigits 2 t.minute ++ [':']
    ++ padDigits 2 t.second ++ fractionDigits t.nanosecond ++ " +0000 UTC".toList)

/-- The string has the form `YYYY-MM-DDTHH:MM:SS.mmmZ`: 24 characters, digits
at the places of the letters. -/
def isIsoMillis (s : String) : Bool :=
  match s.toList with
  | [y1, y2, y3, y4, '-', m1, m2, '-', d1, d2, 'T', h1, h2, ':', n1, n2, ':', s1, s2, '.',
      f1, f2, f3, 'Z'] =>
    [y1, y2, y3, y4, m1, m2, d1, d2, h1, h2, n1, n2, s1, s2, f1, f2, f3].all Char.isDigit
  | _ => false

namespace OKEx

/-- `Exchange.IsoTime` (lines 127-133); `now` is `time.Now().UTC()`. -/
def IsoTime (now : UTCTime) : Outcome String :=
  let iso := timeString now
  (sliceString iso 0 10).bind fun date =>
    (sliceString iso 11 23).bind fun clock =>
      .returns (date ++ "T" ++ clock ++ "Z")

/-- `Exchange.doParamSign` (lines 115-121); `hmac` is
`GetParamHmacSHA256Base64Sign` of the root package. -/
def doParamSign (hmac : String → String → String) (apiSecretKey : String) (now : UTCTime)
    (httpMethod uri requestBody : String) : Outcome (String × String) :=
  (IsoTime now).bind fun timestamp =>
    let preText := timestamp ++ stringsToUpper httpMethod ++ uri ++ requestBody
    let sign := hmac apiSecretKey preText
    .returns (sign, timestamp)

end OKEx

namespace Binance

/-- `Exchange.buildParamsSigned` (lines 171-179); `now` is
`time.Now().UnixNano()`, `encode` is `url.Values.Encode`, `hmac` is
`GetParamHmacSHA256Sign` of the root package. -/
def buildParamsSigned (hmac : String → String → String) (encode : Values → String)
    (secretKey : String) (timeOffset now : Int) (postForm : Values) : Outcome Values :=
  let postForm := postForm.Set "recvWindow" "60000"
  (sliceString (FormatInt (addInt64 now timeOffset)) 0 13).bind fun tonce =>
    let postForm := postForm.Set "timestamp" tonce
    let payload := encode postForm
    let sign := hmac secretKey payload
    .returns (postForm.Set "signature" sign)

end Binance

namespace Atop

/-- The nonce of `buildPostForm` (line 145): `time.Now().UnixNano()/1e6`, an
`int64` division. -/
def nonceOf (now : Int) : Int := Int.tdiv now 1000000

/-- `Exchange.buildPostForm` (lines 143-152); `now` is
`time.Now().UnixNano()`, `encode` is `url.Values.Encode`, `hmac` is
`GetParamHmacSHA256Sign` of the root package. -/
def buildPostForm (hmac : String → String → String) (encode : Values → String)
    (accessKey secretKey : String) (now : Int) (postForm : Values) : Values :=
  let postForm := postForm.Set "accesskey" accessKey
  let nonce := FormatInt (nonceOf now)
  let postForm := postForm.Set "nonce" nonce
  let payload := encode postForm
  let sign := hmac secretKey payload
  postForm.Set "signature" sign

end Atop

/-! ## Bitfinex symbols -/

namespace Bitfinex

/-- `Exchange.currencyPairToSymbol` (lines 343-345). -/
def currencyPairToSymbol (currencyPair : CurrencyPair) : String :=
  stringsToUpper (currencyPair.ToSymbol "")

/-- `Exchange.adaptCurrencyPair` (lines 353-380). -/
def adaptCurrencyPair (pair : CurrencyPair) : CurrencyPair :=
  let DASH := NewCurrency "DASH" ""
  let DSH := NewCurrency "DSH" ""
  let QTM := NewCurrency "QTM" ""
  let IOTA := NewCurrency "IOTA" ""
  let IOT := NewCurrency "IOT" ""
  let currencyA :=
    if pair.CurrencyA = DASH then DSH
    else if pair.CurrencyA = QTUM then QTM
    else if pair.CurrencyA = IOTA then IOT
    else pair.CurrencyA
  let currencyB := if pair.CurrencyB = USDT then USD else pair.CurrencyB
  NewCurrencyPair currencyA currencyB

/-- `symbolToCurrencyPair` (lines 382-386): the slices `symbol[0:3]` and
`symbol[3:]`. -/
def symbolToCurrencyPair (symbol : String) : Outcome CurrencyPair :=
  (sliceString symbol 0 3).bind fun a =>
    (sliceString symbol 3 symbol.length).bind fun b =>
      let currencyA := stringsToUpper a
      let currencyB := stringsToUpper b
      .returns (NewCurrencyPair (NewCurrency currencyA "") (NewCurrency currencyB ""))

/-- The symbol at the end of the request path of `GetTicker` (lines 37-39). -/
def tickerSymbol (currencyPair : CurrencyPair) : String :=
  let currencyPair := adaptCurrencyPair currencyPair
  stringsToLower (currencyPair.ToSymbol "")

/-- The symbol in the request path of `GetDepth` (line 63). -/
def depthSymbol (currencyPair : CurrencyPair) : String :=
  currencyPairToSymbol currencyPair

/-- The `symbol` parameter of `placeOrder` (line 185). -/
def placeOrderSymbol (pair : CurrencyPair) : String :=
  currencyPairToSymbol pair

end Bitfinex

/-! ## KuCoin orders -/

namespace Kucoin

/-- One order of the venue (`kucoin.OrderModel`), the fields the adapter
reads; `Type_` is the Go field `Type`. -/
structure OrderModel where
  Id : String
  Symbol : String
  Type_ : String
  Side : String
  Price : String
  Size : String
  DealFunds : String
  DealSize : String
  Fee : String
  ClientOid : String
  CancelExist : Bool
  CreatedAt : Int

/-- `Exchange.GetOneOrder` (lines 239-294); `model` is what `service.Order`
and `ReadData` yield. Without the pair, which `NewCurrencyPair3` of the root
package parses from `model.Symbol`. -/
def GetOneOrder (pkg : RootPkg) (model : Except String OrderModel) : Except String Order :=
  match model with
  | .error err => .error err
  | .ok model =>
    let order : Order := {}
    let order := { order with Price := pkg.ToFloat64 (JVal.str model.Price) }
    let order := { order with Amount := pkg.ToFloat64 (JVal.str model.Size) }
    let order := { order with
      AvgPrice := F64.div (pkg.ToFloat64 (JVal.str model.DealFunds))
        (pkg.ToFloat64 (JVal.str model.DealSize)) }
    let order := { order with DealAmount := pkg.ToFloat64 (JVal.str model.DealSize) }
    let order := { order with Fee := pkg.ToFloat64 (JVal.str model.Fee) }
    let order := { order with Cid := model.ClientOid }
    let order := { order with OrderID2 := model.Id }
    let order := { order with OrderTime := Int.tdiv model.CreatedAt 1000 }
    let order := { order with Type_ := model.Type_ }
    let order :=
      if model.Side = "buy" then
        if model.Type_ = "limit" then { order with Side := BUY }
        else { order with Side := BUY_MARKET }
      else
        if model.Type_ = "limit" then { order with Side := SELL }
        else { order with Side := SELL_MARKET }
    let order :=
      if model.CancelExist then
        if model.DealSize = "0" then { order with Status := ORDER_UNFINISH }
        else { order with Status := ORDER_PART_FINISH }
      else
        if model.DealSize = "0" then { order with Status := ORDER_CANCEL }
        else if model.DealSize = model.Side then { order with Status := ORDER_FINISH }
        else order
    .ok order

/-- `Exchange.GetUnfinishOrders` (lines 296-316); `active` is what
`service.Orders` and `ReadData` yield for the active orders of the pair. -/
def GetUnfinishOrders (active : Except String (List OrderModel)) : Except String (List Order) :=
  match active with
  | .error err => .error err
  | .ok _ =>
    let orders : List Order := []
    .ok orders

end Kucoin

/-! ## Kraken orders -/

namespace Kraken

/-- `Exchange.convertOrderStatus` (lines 422-434). -/
def convertOrderStatus (status : String) : TradeStatus :=
  if status = "open" ∨ status = "pending" then ORDER_UNFINISH
  else if status = "canceled" ∨ status = "expired" then ORDER_CANCEL
  else if status = "filled" ∨ status = "closed" then ORDER_FINISH
  else if status = "partialfilled" then ORDER_PART_FINISH
  else ORDER_UNFINISH

/-- The `descr` object of an order record; `pair` and `type` are asserted
`string`. -/
structure Descr where
  pair : String
  price : JVal
  type : String

/-- One order record, the keys `toOrder` reads; `status` is asserted
`string`. -/
structure OrderInfo where
  descr : Descr
  vol : JVal
  vol_exec : JVal
  price : JVal
  fee : JVal
  opentm : JVal
  status : String

/-- `Exchange.toOrder` (lines 109-128); `AdaptTradeSide` is a function of the
root package. -/
def toOrder (pkg : RootPkg) (AdaptTradeSide : String → TradeSide) (omap : OrderInfo) :
    Outcome Order :=
  let descmap := omap.descr
  let pair := descmap.pair
  let ind := stringsIndex pair "EUR"
  (sliceString pair 0 ind).bind fun a =>
    (sliceString pair ind pair.length).bind fun b =>
      let curr : Currency := { Symbol := a, Desc := "" }
      let fiat : Currency := { Symbol := b, Desc := "" }
      let currency : CurrencyPair := { CurrencyA := curr, CurrencyB := fiat }
      .returns
        { Amount := pkg.ToFloat64 omap.vol
          Price := pkg.ToFloat64 descmap.price
          DealAmount := pkg.ToFloat64 omap.vol_exec
          AvgPrice := pkg.ToFloat64 omap.price
          Side := AdaptTradeSide descmap.type
          Status := convertOrderStatus omap.status
          Fee := pkg.ToFloat64 omap.fee
          OrderTime := pkg.ToInt omap.opentm
          Currency := currency }

end Kraken

/-! ## Bitstamp order status -/

namespace Bitstamp

/-- One transaction of an order-status payload: a JSON object. -/
abbrev Transaction := List (String × JVal)

/-- Go `transaction[key]`: the value of the key, `nil` when absent. -/
def Transaction.get (transaction : Transaction) (key : String) : JVal :=
  match transaction.find? (fun kv => kv.1 = key) with
  | some kv => kv.2
  | none => JVal.null

/-- The decoded order-status payload: `transactions` when it is an array
(the assertion `.([]interface{})` holds), and `status`, asserted `string`. -/
structure StatusMap where
  transactions : Option (List Transaction)
  status : String

/-- The three running sums of the loop over the transactions. -/
structure Sums where
  dealAmount : F64 := F64.zero
  tradeAmount : F64 := F64.zero
  fee : F64 := F64.zero

/-- One iteration of the loop over the transactions (lines 266-278), in
rounded `float64` arithmetic. -/
def sumStep (pkg : RootPkg) (currencyStr : String) (acc : Sums) (transaction : Transaction) :
    Sums :=
  let price := pkg.ToFloat64 (transaction.get "price")
  let amount := pkg.ToFloat64 (transaction.get currencyStr)
  { dealAmount := F64.addR acc.dealAmount amount
    tradeAmount := F64.addR acc.tradeAmount (F64.mulR amount price)
    fee := F64.addR acc.fee (pkg.ToFloat64 (transaction.get "fee")) }

/-- `Exchange.GetOneOrder` (lines 219-287); the quotient of line 279 is a
rounded `float64` division. -/
def GetOneOrder (pkg : RootPkg) (reply : Reply StatusMap) (orderId : String)
    (currency : CurrencyPair) : Except String Order :=
  match reply with
  | .transport err => .error err
  | .malformed _ err => .error err
  | .json resp respmap =>
    match respmap.transactions with
    | none => .error resp
    | some transactions =>
      let status := respmap.status
      let ord : Order := {}
      let ord := { ord with Currency := currency }
      let ord := { ord with OrderID := pkg.ToInt (JVal.str orderId) }
      let ord := { ord with OrderID2 := orderId }
      let ord :=
        if status = "Finished" then { ord with Status := ORDER_FINISH }
        else { ord with Status := ORDER_UNFINISH }
      if transactions.length > 0 then
        let ord :=
          if ord.Status ≠ ORDER_FINISH then { ord with Status := ORDER_PART_FINISH } else ord
        let currencyStr := stringsToLower currency.CurrencyA.Symbol
        let sums := transactions.foldl (sumStep pkg currencyStr) {}
        let avgPrice := F64.divR sums.tradeAmount sums.dealAmount
        let ord := { ord with DealAmount := sums.dealAmount }
        let ord := { ord with AvgPrice := avgPrice }
        let ord := { ord with Fee := sums.fee }
        .ok ord
      else .ok ord

end Bitstamp

/-! ## Concrete inputs: instants, pairs, orders -/

/-- The instant 2018-03-16 18:02:48.284123456 UTC. -/
def OKEx.usualInstant : UTCTime := ⟨2018, 3, 16, 18, 2, 48, 284123456⟩

/-- The instant 2018-03-16 18:02:48 UTC, on the second. -/
def OKEx.wholeSecond : UTCTime := ⟨2018, 3, 16, 18, 2, 48, 0⟩

/-- The instant 2018-03-16 18:02:48.2 UTC, on a tenth of a second. -/
def OKEx.tenthOfSecond : UTCTime := ⟨2018, 3, 16, 18, 2, 48, 200000000⟩

/-- The pair DASH/USD, built with `NewCurrency`. -/
def Bitfinex.dashUsd : CurrencyPair := NewCurrencyPair (NewCurrency "DASH" "") USD

/-- Every character of the string is one of the upper-case letters `A`-`Z`. -/
def allUpper (s : String) : Prop := ∀ c ∈ s.toList, c.isUpper = true

/-- A KuCoin order of size 1, bought at a limit and fully filled: `DealSize`
equals `Size`, no cancellation pending. -/
def Kucoin.filledOrder : Kucoin.OrderModel :=
  { Id := "5c35c02703aa673ceec2a168", Symbol := "BTC-USDT", Type_ := "limit", Side := "buy"
    Price := "100", Size := "1", DealFunds := "100", DealSize := "1", Fee := "0"
    ClientOid := "", CancelExist := false, CreatedAt := 1625097600000 }

/-- A Kraken order record for the given pair string. -/
def Kraken.orderOf (pair : String) : Kraken.OrderInfo :=
  { descr := { pair := pair, price := JVal.str "100", type := "buy" }
    vol := JVal.str "1", vol_exec := JVal.str "0", price := JVal.str "0"
    fee := JVal.str "0", opentm := JVal.num (F64.fin 0), status := "open" }

/-- `AdaptTradeSide` for the examples: `"sell"` is SELL, anything else BUY. -/
def Kraken.sampleTradeSide (side : String) : TradeSide := if side = "sell" then SELL else BUY

/-! ## Bitstamp transactions -/

namespace Bitstamp

/-- The base-currency amount of a transaction, as the loop coerces it. -/
def amountOf (pkg : RootPkg) (currencyStr : String) (transaction : Transaction) : F64 :=
  pkg.ToFloat64 (transaction.get currencyStr)

/-- The price of a transaction, as the loop coerces it. -/
def priceOf (pkg : RootPkg) (transaction : Transaction) : F64 :=
  pkg.ToFloat64 (transaction.get "price")

/-- The fee of a transaction, as the loop coerces it. -/
def feeOf (pkg : RootPkg) (transaction : Transaction) : F64 :=
  pkg.ToFloat64 (transaction.get "fee")

/-- The traded value of a transaction, the `float64` product `amount * price`
of line 271. -/
def valueOf (pkg : RootPkg) (currencyStr : String) (transaction : Transaction) : F64 :=
  F64.mulR (amountOf pkg currencyStr transaction) (priceOf pkg transaction)

/-- The pair BTC/USD. -/
def btcUsd : CurrencyPair := NewCurrencyPair (NewCurrency "BTC" "") USD

/-- Two transactions of an order on BTC/USD: 1 BTC at 100 with fee 0, and
3 BTC at 200 with fee 1. -/
def twoFills : List Transaction :=
  [ [("btc", JVal.str "1"), ("price", JVal.str "100"), ("fee", JVal.str "0")],
    [("btc", JVal.str "3"), ("price", JVal.str "200"), ("fee", JVal.str "1")] ]

/-- Two transactions of an order on BTC/USD: 1 BTC at price 1 and 48 BTC at
price 0, without fees. The amounts sum to 49, the traded value is
1 * 1 + 48 * 0 = 1. -/
def unevenFills : List Transaction :=
  [ [("btc", JVal.str "1"), ("price", JVal.str "1"), ("fee", JVal.str "0")],
    [("btc", JVal.str "48"), ("price", JVal.str "0"), ("fee", JVal.str "0")] ]

end Bitstamp

/-! ## Rounding to binary64: the fractions rounded -/

/-- The fraction that `F64.addR` rounds is the sum. -/
theorem F64.addR_fraction (a b : ℚ) :
    ((a.num * b.den + b.num * a.den : Int) : ℚ) / ((a.den * b.den : Nat) : ℚ) = a + b := by
  have ha : (a.den : ℚ) ≠ 0 := Nat.cast_ne_zero.2 a.den_nz
  have hb : (b.den : ℚ) ≠ 0 := Nat.cast_ne_zero.2 b.den_nz
  have ea : a = a.num / a.den := (Rat.num_div_den a).symm
  have eb : b = b.num / b.den := (Rat.num_div_den b).symm
  conv_rhs => rw [ea, eb]
  push_cast
  field_simp

/-- The fraction that `F64.mulR` rounds is the product. -/
theorem F64.mulR_fraction (a b : ℚ) :
    ((a.num * b.num : Int) : ℚ) / ((a.den * b.den : Nat) : ℚ) = a * b := by
  have ha : (a.den : ℚ) ≠ 0 := Nat.cast_ne_zero.2 a.den_nz
  have hb : (b.den : ℚ) ≠ 0 := Nat.cast_ne_zero.2 b.den_nz
  have ea : a = a.num / a.den := (Rat.num_div_den a).symm
  have eb : b = b.num / b.den := (Rat.num_div_den b).symm
  conv_rhs => rw [ea, eb]
  push_cast
  field_simp

/-- The fraction that `F64.divR` rounds is the quotient. -/
theorem F64.divR_fraction (a b : ℚ) (hb : b.num ≠ 0) :
    ((a.num * b.den * b.num.sign : Int) : ℚ) / ((a.den * b.num.natAbs : Nat) : ℚ) = a / b := by
  have ha : (a.den : ℚ) ≠ 0 := Nat.cast_ne_zero.2 a.den_nz
  have hbd : (b.den : ℚ) ≠ 0 := Nat.cast_ne_zero.2 b.den_nz
  have hbn : (b.num : ℚ) ≠ 0 := Int.cast_ne_zero.2 hb
  have habs : ((b.num.natAbs : Nat) : ℚ) = (b.num.sign : ℚ) * (b.num : ℚ) := by
    have h : (b.num.natAbs : Int) = b.num.sign * b.num := by
      rcases lt_or_gt_of_ne hb with hneg | hpos
      · rw [Int.sign_eq_neg_one_of_neg hneg, Int.ofNat_natAbs_of_nonpos hneg.le]
        ring
      · rw [Int.sign_eq_one_of_pos hpos, Int.natAbs_of_nonneg hpos.le]
        ring
    have h2 : ((b.num.natAbs : Int) : ℚ) = ((b.num.sign * b.num : Int) : ℚ) := by rw [h]
    rw [Int.cast_natCast] at h2
    rw [h2]
    push_cast
    ring
  have hs : (b.num.sign : ℚ) ≠ 0 :=
    Int.cast_ne_zero.2 (fun h => hb (Int.sign_eq_zero_iff_zero.1 h))
  have ea : a = a.num / a.den := (Rat.num_div_den a).symm
  have eb : b = b.num / b.den := (Rat.num_div_den b).symm
  conv_rhs => rw [ea, eb]
  push_cast
  rw [habs]
  field_simp
  ring

/-! ## Rounding to binary64: error bounds -/

namespace F64

/-- Zero has no binary digit. -/
theorem bitLength_zero (fuel : Nat) : bitLength fuel 0 = 0 := by
  cases fuel <;> simp [bitLength]

/-- A number is below the power of two of its digit count. -/
theorem lt_two_pow_bitLength : ∀ (fuel n : Nat), n < 2 ^ fuel → n < 2 ^ bitLength fuel n := by
  intro fuel
  induction fuel with
  | zero => intro n h; simpa [bitLength] using h
  | succ k ih =>
    intro n h
    by_cases hn : n = 0
    · subst hn; simp
    · have h2 : n / 2 < 2 ^ k := by
        rw [pow_succ] at h
        omega
      have := ih (n / 2) h2
      simp only [bitLength, hn, if_false, pow_succ]
      omega

/-- A positive number is at least half the power of two of its digit count. -/
theorem two_pow_bitLength_le : ∀ (fuel n : Nat), n < 2 ^ fuel → 0 < n →
    2 ^ bitLength fuel n ≤ 2 * n := by
  intro fuel
  induction fuel with
  | zero => intro n h hpos; simp at h; omega
  | succ k ih =>
    intro n h hpos
    have hn : n ≠ 0 := by omega
    have h2 : n / 2 < 2 ^ k := by
      rw [pow_succ] at h
      omega
    simp only [bitLength, hn, if_false, pow_succ]
    by_cases h0 : n / 2 = 0
    · rw [h0, bitLength_zero]
      omega
    · have := ih (n / 2) h2 (by omega)
      omega

/-- The rounded quotient is within one half of the quotient. -/
theorem roundHalfEven_spec (a b : Nat) (hb : 0 < b) :
    2 * roundHalfEven a b * b ≤ 2 * a + b ∧ 2 * a ≤ 2 * roundHalfEven a b * b + b := by
  have hdm := Nat.div_add_mod a b
  have hr := Nat.mod_lt a hb
  have e1 : 2 * (a / b) * b = 2 * (b * (a / b)) := by ring
  have e2 : 2 * (a / b + 1) * b = 2 * (b * (a / b)) + 2 * b := by ring
  unfold roundHalfEven
  simp only
  split_ifs <;> constructor <;> (first | rw [e1] | rw [e2]) <;> omega


/-- The comparison made by `binaryExponent`, without the case distinction on the
sign of the difference of the digit counts. -/
theorem binaryExponent_eq (a d : Nat) :
    binaryExponent a d
      = if d * 2 ^ bitLength a a ≤ a * 2 ^ bitLength d d
        then (bitLength a a : Int) - (bitLength d d : Int)
        else (bitLength a a : Int) - (bitLength d d : Int) - 1 := by
  have key : (if (0 : Int) ≤ (bitLength a a : Int) - (bitLength d d : Int)
        then decide (d * 2 ^ ((bitLength a a : Int) - (bitLength d d : Int)).toNat ≤ a)
        else decide (d ≤ a * 2 ^ (-((bitLength a a : Int) - (bitLength d d : Int))).toNat))
      = decide (d * 2 ^ bitLength a a ≤ a * 2 ^ bitLength d d) := by
    generalize bitLength a a = La
    generalize bitLength d d = Ld
    by_cases h : (0 : Int) ≤ (La : Int) - (Ld : Int)
    · have hle : Ld ≤ La := by omega
      have ht : ((La : Int) - (Ld : Int)).toNat = La - Ld := by omega
      have hp : 2 ^ La = 2 ^ (La - Ld) * 2 ^ Ld := by
        rw [← pow_add, Nat.sub_add_cancel hle]
      rw [if_pos h, ht, hp, ← Nat.mul_assoc]
      congr 1
      exact propext (mul_le_mul_right (pow_pos (by norm_num) Ld)).symm
    · have hle : La ≤ Ld := by omega
      have ht : (-((La : Int) - (Ld : Int))).toNat = Ld - La := by omega
      have hp : 2 ^ Ld = 2 ^ (Ld - La) * 2 ^ La := by
        rw [← pow_add, Nat.sub_add_cancel hle]
      rw [if_neg h, ht, hp, ← Nat.mul_assoc]
      congr 1
      exact propext (mul_le_mul_right (pow_pos (by norm_num) La)).symm
  unfold binaryExponent
  simp only [key]
  by_cases hP : d * 2 ^ bitLength a a ≤ a * 2 ^ bitLength d d <;> simp [hP]

/-- The binary exponent brackets the fraction: `2 ^ e ≤ a / d < 2 ^ (e + 1)`. -/
theorem binaryExponent_spec (a d : Nat) (ha : 0 < a) (hd : 0 < d) :
    (2 : ℚ) ^ binaryExponent a d ≤ (a : ℚ) / d ∧
      (a : ℚ) / d < (2 : ℚ) ^ (binaryExponent a d + 1) := by
  have ha1 := lt_two_pow_bitLength a a (Nat.lt_two_pow a)
  have ha2 := two_pow_bitLength_le a a (Nat.lt_two_pow a) ha
  have hd1 := lt_two_pow_bitLength d d (Nat.lt_two_pow d)
  have hd2 := two_pow_bitLength_le d d (Nat.lt_two_pow d) hd
  rw [binaryExponent_eq]
  generalize bitLength a a = La at *
  generalize bitLength d d = Ld at *
  have hA : (0 : ℚ) < a := Nat.cast_pos.2 ha
  have hD : (0 : ℚ) < d := Nat.cast_pos.2 hd
  have hX : (0 : ℚ) < 2 ^ La := pow_pos (by norm_num) La
  have hY : (0 : ℚ) < 2 ^ Ld := pow_pos (by norm_num) Ld
  have qa1 : (a : ℚ) < 2 ^ La := by exact_mod_cast ha1
  have qa2 : (2 : ℚ) ^ La ≤ 2 * a := by exact_mod_cast ha2
  have qd1 : (d : ℚ) < 2 ^ Ld := by exact_mod_cast hd1
  have qd2 : (2 : ℚ) ^ Ld ≤ 2 * d := by exact_mod_cast hd2
  have hz : (2 : ℚ) ^ ((La : Int) - (Ld : Int)) = 2 ^ La / 2 ^ Ld := by
    rw [zpow_sub₀ (by norm_num), zpow_natCast, zpow_natCast]
  have hz1 : (2 : ℚ) ^ ((La : Int) - (Ld : Int) + 1) = 2 * (2 ^ La / 2 ^ Ld) := by
    rw [zpow_add₀ (by norm_num), hz, zpow_one, mul_comm]
  have hzm : (2 : ℚ) ^ ((La : Int) - (Ld : Int) - 1) = 2 ^ La / 2 ^ Ld / 2 := by
    rw [zpow_sub₀ (by norm_num), hz, zpow_one]
  by_cases hP : d * 2 ^ La ≤ a * 2 ^ Ld
  · have qP : (d : ℚ) * 2 ^ La ≤ a * 2 ^ Ld := by exact_mod_cast hP
    rw [if_pos hP, hz, hz1]
    constructor
    · rw [div_le_div_iff₀ hY hD]
      linarith
    · rw [← mul_div_assoc, div_lt_div_iff₀ hD hY]
      nlinarith
  · have qP : (a : ℚ) * 2 ^ Ld < d * 2 ^ La := by
      have := Nat.lt_of_not_le hP
      exact_mod_cast this
    rw [if_neg hP, sub_add_cancel, hz, hzm]
    constructor
    · rw [div_div, div_le_div_iff₀ (by positivity) hD]
      nlinarith
    · rw [div_lt_div_iff₀ hD hY]
      linarith


/-- The significand taken at the step `2 ^ qe` is within half a step of the
fraction. -/
theorem significand_spec (a d : Nat) (qe : Int) (hd : 0 < d) :
    |(((if 0 ≤ qe then roundHalfEven a (d * 2 ^ qe.toNat)
          else roundHalfEven (a * 2 ^ (-qe).toNat) d : Nat) : ℚ)) * (2 : ℚ) ^ qe - (a : ℚ) / d|
      ≤ (2 : ℚ) ^ qe / 2 := by
  have hD : (0 : ℚ) < d := Nat.cast_pos.2 hd
  by_cases h : 0 ≤ qe
  · obtain ⟨k, rfl⟩ := Int.eq_ofNat_of_zero_le h
    rw [if_pos h, Int.toNat_ofNat, zpow_natCast]
    have hW : (0 : ℚ) < 2 ^ k := pow_pos (by norm_num) k
    obtain ⟨h1, h2⟩ := roundHalfEven_spec a (d * 2 ^ k) (Nat.mul_pos hd (pow_pos (by norm_num) k))
    generalize roundHalfEven a (d * 2 ^ k) = m at h1 h2
    have q1 : 2 * (m : ℚ) * (d * 2 ^ k) ≤ 2 * a + d * 2 ^ k := by exact_mod_cast h1
    have q2 : 2 * (a : ℚ) ≤ 2 * m * (d * 2 ^ k) + d * 2 ^ k := by exact_mod_cast h2
    have hx : (a : ℚ) = (a : ℚ) / d * d := by field_simp
    generalize (a : ℚ) / d = x at hx
    rw [hx] at q1 q2
    rw [abs_le]
    constructor
    · have : (2 * x - 2 * m * 2 ^ k - 2 ^ k) * d ≤ 0 := by linarith
      have := nonpos_of_mul_nonpos_left this hD
      linarith
    · have : (2 * m * 2 ^ k - 2 * x - 2 ^ k) * d ≤ 0 := by linarith
      have := nonpos_of_mul_nonpos_left this hD
      linarith
  · have hneg : 0 ≤ -qe := by omega
    obtain ⟨k, hk⟩ := Int.eq_ofNat_of_zero_le hneg
    have hq : qe = -(k : Int) := by omega
    rw [if_neg h, hk, Int.toNat_ofNat, hq, zpow_neg, zpow_natCast]
    have hW : (0 : ℚ) < 2 ^ k := pow_pos (by norm_num) k
    obtain ⟨h1, h2⟩ := roundHalfEven_spec (a * 2 ^ k) d hd
    generalize roundHalfEven (a * 2 ^ k) d = m at h1 h2
    have q1 : 2 * (m : ℚ) * d ≤ 2 * (a * 2 ^ k) + d := by exact_mod_cast h1
    have q2 : 2 * ((a : ℚ) * 2 ^ k) ≤ 2 * m * d + d := by exact_mod_cast h2
    have hx : (a : ℚ) = (a : ℚ) / d * d := by field_simp
    generalize (a : ℚ) / d = x at hx
    rw [hx] at q1 q2
    generalize (2 : ℚ) ^ k = W at hW q1 q2
    have hWi : W⁻¹ * W = 1 := inv_mul_cancel₀ hW.ne'
    rw [abs_le]
    constructor
    · have h3 : (2 * x * W - 2 * m - 1) * d ≤ 0 := by linarith
      have h4 := nonpos_of_mul_nonpos_left h3 hD
      have h5 : (-(W⁻¹ / 2) - (m * W⁻¹ - x)) * W ≤ 0 := by
        have : (-(W⁻¹ / 2) - (m * W⁻¹ - x)) * W = (2 * x * W - 2 * m - 1) / 2 * (W⁻¹ * W) := by
          rw [hWi]; field_simp; ring
        rw [this, hWi]; linarith
      have := nonpos_of_mul_nonpos_left h5 hW
      linarith
    · have h3 : (2 * m - 2 * x * W - 1) * d ≤ 0 := by linarith
      have h4 := nonpos_of_mul_nonpos_left h3 hD
      have h5 : ((m * W⁻¹ - x) - W⁻¹ / 2) * W ≤ 0 := by
        have : ((m * W⁻¹ - x) - W⁻¹ / 2) * W = (2 * m - 2 * x * W - 1) / 2 * (W⁻¹ * W) := by
          rw [hWi]; field_simp; ring
        rw [this, hWi]; linarith
      have := nonpos_of_mul_nonpos_left h5 hW
      linarith


set_option exponentiation.threshold 2000 in
/-- Rounding in the normal range: a fraction that is 0, or of absolute value
from `2 ^ (-1022)` to below the overflow bound `2 ^ 1024 - 2 ^ 970`, rounds to a
finite value within the relative error `2 ^ (-53)`. -/
theorem roundRat_near (n : Int) (d : Nat) (hd : 0 < d)
    (hlo : n = 0 ∨ (2 : ℚ) ^ (-1022 : Int) ≤ |(n : ℚ) / d|)
    (hhi : |(n : ℚ) / d| < 2 ^ 1024 - 2 ^ 970) :
    ∃ q : ℚ, roundRat n d = fin q ∧ |q - (n : ℚ) / d| ≤ (2 : ℚ) ^ (-53 : Int) * |(n : ℚ) / d| := by
  by_cases hn : n = 0
  · subst hn
    exact ⟨0, by simp [roundRat], by simp⟩
  have hlo1 : (2 : ℚ) ^ (-1022 : Int) ≤ |(n : ℚ) / d| := hlo.resolve_left hn
  have hD : (0 : ℚ) < d := Nat.cast_pos.2 hd
  have hapos : 0 < n.natAbs := Int.natAbs_pos.2 hn
  have habs : |(n : ℚ) / d| = (n.natAbs : ℚ) / d := by
    rw [abs_div, Nat.abs_cast, Nat.cast_natAbs, Int.cast_abs]
  obtain ⟨he1, he2⟩ := binaryExponent_spec n.natAbs d hapos hd
  rw [habs] at hlo1 hhi
  -- the exponent is in the normal range
  have hemin : -1022 ≤ binaryExponent n.natAbs d := by
    have h := lt_of_le_of_lt hlo1 he2
    have := (zpow_lt_zpow_iff_right₀ (by norm_num : (1 : ℚ) < 2)).1 h
    omega
  have hemax : binaryExponent n.natAbs d ≤ 1023 := by
    have h : (2 : ℚ) ^ binaryExponent n.natAbs d < (2 : ℚ) ^ (1024 : Int) := by
      refine lt_of_le_of_lt he1 (lt_trans hhi ?_)
      rw [show (1024 : Int) = ((1024 : Nat) : Int) by rfl, zpow_natCast]
      exact sub_lt_self _ (pow_pos (by norm_num) 970)
    have := (zpow_lt_zpow_iff_right₀ (by norm_num : (1 : ℚ) < 2)).1 h
    omega
  have hsig := significand_spec n.natAbs d (binaryExponent n.natAbs d - 52) hd
  generalize he : binaryExponent n.natAbs d = e at *
  generalize hm : (if 0 ≤ e - 52 then roundHalfEven n.natAbs (d * 2 ^ (e - 52).toNat)
          else roundHalfEven (n.natAbs * 2 ^ (-(e - 52)).toNat) d : Nat) = m at hsig
  have hZ : (0 : ℚ) < 2 ^ (e - 52) := zpow_pos (by norm_num) _
  have hZe : (2 : ℚ) ^ (e - 52) = 2 ^ (-53 : Int) * 2 ^ e * 2 := by
    rw [show e - 52 = -53 + e + 1 by ring, zpow_add₀ (by norm_num), zpow_add₀ (by norm_num),
      zpow_one]
  obtain ⟨hs1, hs2⟩ := abs_le.1 hsig
  -- no overflow
  have hno : ¬ (0 ≤ e - 52 ∧ 2 ^ 1024 ≤ m * 2 ^ (e - 52).toNat) := by
    rintro ⟨h0, hov⟩
    obtain ⟨k, hk⟩ := Int.eq_ofNat_of_zero_le h0
    rw [hk, Int.toNat_ofNat] at hov
    have hk971 : k ≤ 971 := by omega
    have q : ((2 ^ 1024 : Nat) : ℚ) ≤ ((m * 2 ^ k : Nat) : ℚ) := Nat.cast_le.2 hov
    rw [Nat.cast_pow, Nat.cast_mul, Nat.cast_pow, Nat.cast_ofNat] at q
    rw [hk, zpow_natCast] at hs2 hZ
    have hle : (2 : ℚ) ^ k ≤ 2 ^ 971 := pow_le_pow_right₀ (by norm_num) hk971
    have : (2 : ℚ) ^ 971 / 2 = 2 ^ 970 := by norm_num
    linarith
  have hmax : max e (-1022) = e := max_eq_left hemin
  have hsign : ((if n < 0 then (-1 : Int) else 1 : Int) : ℚ) * ((n.natAbs : ℚ) / d) = (n : ℚ) / d := by
    by_cases hneg : n < 0
    · rw [if_pos hneg, Nat.cast_natAbs, abs_of_neg hneg]
      push_cast
      ring
    · rw [if_neg hneg, Nat.cast_natAbs, abs_of_nonneg (not_lt.1 hneg)]
      push_cast
      ring
  have hsq : |((if n < 0 then (-1 : Int) else 1 : Int) : ℚ)| = 1 := by
    by_cases hneg : n < 0
    · rw [if_pos hneg]; norm_num
    · rw [if_neg hneg]; norm_num
  have hval : roundRat n d
      = fin (((if n < 0 then (-1 : Int) else 1 : Int) : ℚ) * (m * (2 : ℚ) ^ (e - 52))) := by
    simp only [roundRat, hn, hd.ne', or_self, if_false, he, hmax, hm, hno]
    by_cases h0 : 0 ≤ e - 52
    · obtain ⟨k, hk⟩ := Int.eq_ofNat_of_zero_le h0
      rw [if_pos h0, hk, Int.toNat_ofNat, zpow_natCast, Rat.mkRat_one]
      push_cast
      congr 1
      ring
    · have hneg : 0 ≤ -(e - 52) := by omega
      obtain ⟨k, hk⟩ := Int.eq_ofNat_of_zero_le hneg
      have hq : e - 52 = -(k : Int) := by omega
      rw [if_neg h0, hk, Int.toNat_ofNat, hq, zpow_neg, zpow_natCast, Rat.mkRat_eq_div]
      push_cast
      congr 1
      ring
  refine ⟨_, hval, ?_⟩
  rw [← hsign, ← mul_sub, abs_mul, hsq, one_mul, hsign, habs]
  refine le_trans hsig ?_
  rw [hZe]
  have : (2 : ℚ) ^ (-53 : Int) * 2 ^ e ≤ 2 ^ (-53 : Int) * ((n.natAbs : ℚ) / d) :=
    mul_le_mul_of_nonneg_left he1 (zpow_nonneg (by norm_num) _)
  linarith


/-- A rounded quotient in the normal range is within the relative error
`2 ^ (-53)` of the quotient. -/
theorem divR_near (t a : ℚ) (ha : a ≠ 0)
    (hlo : t = 0 ∨ (2 : ℚ) ^ (-1022 : Int) ≤ |t / a|) (hhi : |t / a| < 2 ^ 1024 - 2 ^ 970) :
    ∃ p : ℚ, divR (fin t) (fin a) = fin p ∧ |p - t / a| ≤ (2 : ℚ) ^ (-53 : Int) * |t / a| := by
  have han : a.num ≠ 0 := fun h => ha (Rat.num_eq_zero.1 h)
  have hfr := divR_fraction t a han
  have hden : 0 < t.den * a.num.natAbs := Nat.mul_pos t.den_pos (Int.natAbs_pos.2 han)
  have hlo2 : t.num * a.den * a.num.sign = 0 ∨
      (2 : ℚ) ^ (-1022 : Int)
        ≤ |((t.num * a.den * a.num.sign : Int) : ℚ) / ((t.den * a.num.natAbs : Nat) : ℚ)| := by
    rcases hlo with h | h
    · left; rw [h]; simp
    · right; rw [hfr]; exact h
  have hhi2 : |((t.num * a.den * a.num.sign : Int) : ℚ) / ((t.den * a.num.natAbs : Nat) : ℚ)|
      < 2 ^ 1024 - 2 ^ 970 := by rw [hfr]; exact hhi
  obtain ⟨p, hp, hb⟩ := roundRat_near _ _ hden hlo2 hhi2
  rw [hfr] at hb
  exact ⟨p, by simp only [divR, han, if_false, hp], hb⟩

/-- A rounded product in the normal range is within the relative error
`2 ^ (-53)` of the product. -/
theorem mulR_near (x y : ℚ)
    (hlo : x * y = 0 ∨ (2 : ℚ) ^ (-1022 : Int) ≤ |x * y|) (hhi : |x * y| < 2 ^ 1024 - 2 ^ 970) :
    ∃ r : ℚ, mulR (fin x) (fin y) = fin r ∧ |r - x * y| ≤ (2 : ℚ) ^ (-53 : Int) * |x * y| := by
  have hfr := mulR_fraction x y
  have hden : 0 < x.den * y.den := Nat.mul_pos x.den_pos y.den_pos
  have hlo2 : x.num * y.num = 0 ∨
      (2 : ℚ) ^ (-1022 : Int) ≤ |((x.num * y.num : Int) : ℚ) / ((x.den * y.den : Nat) : ℚ)| := by
    rcases hlo with h | h
    · left
      rcases mul_eq_zero.1 h with h0 | h0
      · rw [h0]; simp
      · rw [h0]; simp
    · right; rw [hfr]; exact h
  have hhi2 : |((x.num * y.num : Int) : ℚ) / ((x.den * y.den : Nat) : ℚ)| < 2 ^ 1024 - 2 ^ 970 := by
    rw [hfr]; exact hhi
  obtain ⟨r, hr, hb⟩ := roundRat_near _ _ hden hlo2 hhi2
  rw [hfr] at hb
  exact ⟨r, by simp only [mulR, hr], hb⟩

/-- A rounded sum in the normal range is within the relative error `2 ^ (-53)`
of the sum. -/
theorem addR_near (x y : ℚ)
    (hlo : x + y = 0 ∨ (2 : ℚ) ^ (-1022 : Int) ≤ |x + y|) (hhi : |x + y| < 2 ^ 1024 - 2 ^ 970) :
    ∃ r : ℚ, addR (fin x) (fin y) = fin r ∧ |r - (x + y)| ≤ (2 : ℚ) ^ (-53 : Int) * |x + y| := by
  have hfr := addR_fraction x y
  have hden : 0 < x.den * y.den := Nat.mul_pos x.den_pos y.den_pos
  have hlo2 : x.num * y.den + y.num * x.den = 0 ∨
      (2 : ℚ) ^ (-1022 : Int)
        ≤ |((x.num * y.den + y.num * x.den : Int) : ℚ) / ((x.den * y.den : Nat) : ℚ)| := by
    rcases hlo with h | h
    · left
      have h2 := hfr
      rw [h, div_eq_zero_iff] at h2
      rcases h2 with h2 | h2
      · exact_mod_cast h2
      · exact absurd h2 (Nat.cast_ne_zero.2 hden.ne')
    · right; rw [hfr]; exact h
  have hhi2 : |((x.num * y.den + y.num * x.den : Int) : ℚ) / ((x.den * y.den : Nat) : ℚ)|
      < 2 ^ 1024 - 2 ^ 970 := by
    rw [hfr]; exact hhi
  obtain ⟨r, hr, hb⟩ := roundRat_near _ _ hden hlo2 hhi2
  rw [hfr] at hb
  exact ⟨r, by simp only [addR, hr], hb⟩

/-- Dividing by `a` and multiplying by `a` again, each operation rounded, gives
back `t` within the relative error `2 ^ (-52) + 2 ^ (-106)` of two roundings,
as long as `t` and `t / a` are 0 or in the normal range. -/
theorem divR_mulR_near (t a : ℚ) (ha : a ≠ 0)
    (ht : t = 0 ∨ (2 : ℚ) ^ (-1021 : Int) ≤ |t|) (ht2 : |t| ≤ 2 ^ 1023)
    (hq : t = 0 ∨ (2 : ℚ) ^ (-1022 : Int) ≤ |t / a|) (hq2 : |t / a| ≤ 2 ^ 1023) :
    ∃ p r : ℚ, divR (fin t) (fin a) = fin p ∧ mulR (fin p) (fin a) = fin r ∧
      |p - t / a| ≤ (2 : ℚ) ^ (-53 : Int) * |t / a| ∧
      |r - t| ≤ ((2 : ℚ) ^ (-52 : Int) + 2 ^ (-106 : Int)) * |t| := by
  have hP : (0 : ℚ) < 2 ^ 970 := pow_pos (by norm_num) _
  have hP1 : (2 : ℚ) ^ 1023 = 2 ^ 53 * 2 ^ 970 := by
    rw [show (1023 : Nat) = 53 + 970 by norm_num, pow_add]
  have hP2 : (2 : ℚ) ^ 1024 = 2 ^ 1023 * 2 := by
    rw [show (1024 : Nat) = 1023 + 1 by norm_num, pow_succ]
  have hP3 : (4 : ℚ) ≤ 2 ^ 53 := by norm_num
  have hP4 : (2 : ℚ) ^ 970 * 4 ≤ 2 ^ 1023 := by
    rw [hP1]
    exact (mul_comm ((2 : ℚ) ^ 970) 4).le.trans (mul_le_mul_of_nonneg_right hP3 hP.le)
  have hbig : (2 : ℚ) ^ 1023 < 2 ^ 1024 - 2 ^ 970 := by
    rw [hP2]
    linarith
  obtain ⟨p, hp, hpb⟩ := divR_near t a ha hq (lt_of_le_of_lt hq2 hbig)
  have u53 : (2 : ℚ) ^ (-53 : Int) = 2 ^ (-1 : Int) * 2 ^ (-52 : Int) := by
    rw [← zpow_add₀ (by norm_num)]; norm_num
  have u106 : (2 : ℚ) ^ (-106 : Int) = 2 ^ (-53 : Int) * 2 ^ (-53 : Int) := by
    rw [← zpow_add₀ (by norm_num)]; norm_num
  have u52 : (2 : ℚ) ^ (-52 : Int) = 2 * 2 ^ (-53 : Int) := by
    rw [u53, ← mul_assoc]; norm_num
  have hu : (0 : ℚ) < 2 ^ (-53 : Int) := zpow_pos (by norm_num) _
  have hu1 : (2 : ℚ) ^ (-53 : Int) ≤ 2 ^ (-1 : Int) :=
    zpow_le_zpow_right₀ (by norm_num) (by norm_num)
  have hhalf : (2 : ℚ) ^ (-1 : Int) = 1 / 2 := by norm_num
  -- the exact product of the rounded quotient is within one rounding of the traded value
  have hpa : |p * a - t| ≤ (2 : ℚ) ^ (-53 : Int) * |t| := by
    have e1 : p * a - t = (p - t / a) * a := by field_simp
    have e2 : |t| = |t / a| * |a| := by rw [← abs_mul, div_mul_cancel₀ t ha]
    rw [e1, abs_mul, e2, ← mul_assoc]
    exact mul_le_mul_of_nonneg_right hpb (abs_nonneg a)
  have hpa_hi : |p * a| ≤ (1 + (2 : ℚ) ^ (-53 : Int)) * |t| := by
    have := abs_sub_abs_le_abs_sub (p * a) t
    linarith
  have hpa_lo : (1 - (2 : ℚ) ^ (-53 : Int)) * |t| ≤ |p * a| := by
    have := abs_sub_abs_le_abs_sub t (p * a)
    rw [abs_sub_comm] at this
    linarith
  have hlo3 : p * a = 0 ∨ (2 : ℚ) ^ (-1022 : Int) ≤ |p * a| := by
    rcases ht with h | h
    · left
      have h0 : |p * a - t| ≤ 0 := by simpa [h] using hpa
      have h1 := abs_eq_zero.1 (le_antisymm h0 (abs_nonneg _))
      rw [h] at h1
      simpa using h1
    · right
      have e : (2 : ℚ) ^ (-1021 : Int) = 2 * 2 ^ (-1022 : Int) := by
        rw [show (-1021 : Int) = 1 + -1022 by norm_num, zpow_add₀ (by norm_num), zpow_one]
      have key : ∀ u Z X T PA : ℚ, u ≤ 1 / 2 → 0 ≤ T → X = 2 * Z → X ≤ T →
          (1 - u) * T ≤ PA → Z ≤ PA := by
        intro u Z X T PA h1 h2 h3 h4 h5
        nlinarith [mul_nonneg (sub_nonneg.2 h1) h2]
      exact key _ _ _ _ _ (hhalf ▸ hu1) (abs_nonneg t) e h hpa_lo
  have hhi3 : |p * a| < 2 ^ 1024 - 2 ^ 970 := by
    have h3 : (2 : ℚ) ^ (-53 : Int) * 2 ^ 53 = 1 := by
      rw [zpow_neg, show ((53 : Int)) = ((53 : Nat) : Int) by rfl, zpow_natCast]
      exact inv_mul_cancel₀ (pow_ne_zero _ (by norm_num))
    have h4 : (2 : ℚ) ^ (-53 : Int) * |t| ≤ 2 ^ 970 := by
      calc (2 : ℚ) ^ (-53 : Int) * |t| ≤ 2 ^ (-53 : Int) * 2 ^ 1023 :=
            mul_le_mul_of_nonneg_left ht2 hu.le
        _ = 2 ^ 970 := by rw [hP1, ← mul_assoc, h3, one_mul]
    rw [hP2]
    linarith
  obtain ⟨r, hr, hrb⟩ := mulR_near p a hlo3 hhi3
  refine ⟨p, r, hp, hr, hpb, ?_⟩
  have htri : |r - t| ≤ |r - p * a| + |p * a - t| := by
    have := abs_add (r - p * a) (p * a - t)
    simpa using this
  have h7 : (2 : ℚ) ^ (-53 : Int) * |p * a| ≤ 2 ^ (-53 : Int) * ((1 + 2 ^ (-53 : Int)) * |t|) :=
    mul_le_mul_of_nonneg_left hpa_hi hu.le
  rw [u106, u52]
  nlinarith [abs_nonneg t]

end F64

/-! ## Rounding to binary64: checked values -/

/-- The decimal 0.1 rounds to the `float64` 3602879701896397 / 2^55. -/
theorem F64.roundRat_tenth :
    F64.roundRat 1 10 = F64.fin (mkRat 3602879701896397 (2 ^ 55)) := by
  decide

set_option maxRecDepth 4000 in
/-- The `float64` sum of 0.1 and 0.2 is 0.30000000000000004, the value
5404319552844596 / 2^54: the exact sum lies midway between two values and goes
to the even significand. -/
theorem F64.addR_tenth_fifth :
    F64.addR (F64.fin (mkRat 3602879701896397 (2 ^ 55)))
        (F64.fin (mkRat 3602879701896397 (2 ^ 54)))
      = F64.fin (mkRat 5404319552844596 (2 ^ 54)) := by
  decide

set_option maxRecDepth 2000 in
/-- The quotient 1 / 3 is 0.3333333333333333, the value
6004799503160661 / 2^54, and 1 / -3 is its opposite; division by zero gives
`NaN` or an infinity. -/
theorem F64.divR_third :
    F64.divR (F64.fin 1) (F64.fin 3) = F64.fin (mkRat 6004799503160661 (2 ^ 54)) ∧
      F64.divR (F64.fin 1) (F64.fin (-3)) = F64.fin (mkRat (-6004799503160661) (2 ^ 54)) ∧
      F64.divR (F64.fin 0) (F64.fin 0) = F64.nan ∧
      F64.divR (F64.fin 1) (F64.fin 0) = F64.inf false := by
  decide

set_option exponentiation.threshold 2000 in
/-- Above 2^53 the integers are not all values: 2^53 + 1 goes to 2^53 and
2^53 + 3 to 2^53 + 4, the even significands. -/
theorem F64.roundRat_ties_to_even :
    F64.roundRat (2 ^ 53 + 1) 1 = F64.fin (mkRat (2 ^ 53) 1) ∧
      F64.roundRat (2 ^ 53 + 3) 1 = F64.fin (mkRat (2 ^ 53 + 4) 1) := by
  decide

set_option exponentiation.threshold 2000 in
/-- The largest value is 2^1024 - 2^971; what lies at least half a step above
it overflows to an infinity, what lies below that bound rounds down to it. -/
theorem F64.roundRat_overflow :
    F64.roundRat (2 ^ 1024 - 2 ^ 970) 1 = F64.inf false ∧
      F64.roundRat (-(2 ^ 1024 - 2 ^ 970)) 1 = F64.inf true ∧
      F64.roundRat (2 ^ 1024 - 2 ^ 970 - 1) 1 = F64.fin (mkRat (2 ^ 1024 - 2 ^ 971) 1) := by
  decide!

set_option exponentiation.threshold 2000 in
/-- The smallest positive value is 2^(-1074): half of it rounds to 0, three
halves of it to 2^(-1073). -/
theorem F64.roundRat_underflow :
    F64.roundRat 1 (2 ^ 1074) = F64.fin (mkRat 1 (2 ^ 1074)) ∧
      F64.roundRat 1 (2 ^ 1075) = F64.fin 0 ∧
      F64.roundRat 3 (2 ^ 1075) = F64.fin (mkRat 1 (2 ^ 1073)) := by
  decide!

/-! ## Lemmas on `float64` comparisons -/

theorem F64.le_of_lt_true {a b : F64} (h : F64.lt a b = true) : F64.le a b = true := by
  rcases a with a | na | _ <;> rcases b with b | nb | _ <;> (try cases na) <;>
    (try cases nb) <;> simp_all [F64.lt, F64.le]
  exact le_of_lt h

theorem F64.le_of_lt_false {a b : F64} (ha : F64.notNaN a = true)
    (hb : F64.notNaN b = true) (h : F64.lt b a = false) : F64.le a b = true := by
  rcases a with a | na | _ <;> rcases b with b | nb | _ <;> (try cases na) <;>
    (try cases nb) <;> simp_all [F64.lt, F64.le, F64.notNaN]

theorem F64.le_chain {a b c : F64} (hab : F64.le a b = true) (hbc : F64.le b c = true) :
    F64.le a c = true := by
  rcases a with a | na | _ <;> rcases b with b | nb | _ <;> rcases c with c | nc | _ <;>
    (try cases na) <;> (try cases nb) <;> (try cases nc) <;> simp_all [F64.le]
  exact le_trans hab hbc

/-! ## Lemmas on `sort.Sort` -/

theorem mem_sortBubble {α : Type} (less : α → α → Bool) (x : α) (acc : List α) (a : α) :
    a ∈ sortBubble less x acc ↔ a = x ∨ a ∈ acc := by
  induction acc with
  | nil => simp [sortBubble]
  | cons y ys ih =>
    simp only [sortBubble]
    split
    · simp only [List.mem_cons, ih]; tauto
    · simp only [List.mem_cons]

theorem sortBubble_perm {α : Type} (less : α → α → Bool) (x : α) (acc : List α) :
    (sortBubble less x acc).Perm (x :: acc) := by
  induction acc with
  | nil => simp [sortBubble]
  | cons y ys ih =>
    simp only [sortBubble]
    split
    · exact (List.Perm.cons y ih).trans (List.Perm.swap x y ys)
    · exact List.Perm.refl _

/-- One insertion keeps the prefix ordered: `R` is the order of the prefix read
back to front, `P` a property of the elements on which `less` decides `R`. -/
theorem sortBubble_pairwise {α : Type} (less : α → α → Bool) (R : α → α → Prop)
    (P : α → Prop)
    (hstay : ∀ a b, P a → P b → less a b = false → R a b)
    (hmove : ∀ a b, P a → P b → less a b = true → R b a)
    (htrans : ∀ a b c, R a b → R b c → R a c)
    (x : α) (acc : List α) (hx : P x) (hacc : ∀ a ∈ acc, P a)
    (hs : acc.Pairwise R) : (sortBubble less x acc).Pairwise R := by
  induction acc with
  | nil => simp [sortBubble]
  | cons y ys ih =>
    have hy : P y := hacc y (List.mem_cons_self y ys)
    have hys : ∀ a ∈ ys, P a := fun a ha => hacc a (List.mem_cons_of_mem y ha)
    rw [List.pairwise_cons] at hs
    simp only [sortBubble]
    cases hl : less x y with
    | true =>
      simp only [if_true]
      rw [List.pairwise_cons]
      refine ⟨?_, ih hys hs.2⟩
      intro a ha
      rcases (mem_sortBubble less x ys a).1 ha with rfl | ha
      · exact hmove _ _ hx hy hl
      · exact hs.1 a ha
    | false =>
      simp only [Bool.false_eq_true, if_false]
      rw [List.pairwise_cons]
      refine ⟨?_, List.pairwise_cons.2 hs⟩
      intro a ha
      rcases List.mem_cons.1 ha with rfl | ha
      · exact hstay _ _ hx hy hl
      · exact htrans _ _ _ (hstay _ _ hx hy hl) (hs.1 a ha)

/-- The loop of the insertion sort keeps its prefix ordered and a permutation
of what it has consumed. -/
theorem sortFold_spec {α : Type} (less : α → α → Bool) (R : α → α → Prop)
    (P : α → Prop)
    (hstay : ∀ a b, P a → P b → less a b = false → R a b)
    (hmove : ∀ a b, P a → P b → less a b = true → R b a)
    (htrans : ∀ a b c, R a b → R b c → R a c)
    (data : List α) (hdata : ∀ a ∈ data, P a) (acc : List α) (hacc : ∀ a ∈ acc, P a)
    (hs : acc.Pairwise R) :
    (data.foldl (fun acc x => sortBubble less x acc) acc).Pairwise R ∧
      (data.foldl (fun acc x => sortBubble less x acc) acc).Perm (data.reverse ++ acc) := by
  induction data generalizing acc with
  | nil => simpa using hs
  | cons x xs ih =>
    have hx : P x := hdata x (List.mem_cons_self x xs)
    have hxs : ∀ a ∈ xs, P a := fun a ha => hdata a (List.mem_cons_of_mem x ha)
    have hacc1 : ∀ a ∈ sortBubble less x acc, P a := by
      intro a ha
      rcases (mem_sortBubble less x acc a).1 ha with rfl | ha
      · exact hx
      · exact hacc a ha
    have h := ih hxs (sortBubble less x acc) hacc1
      (sortBubble_pairwise less R P hstay hmove htrans x acc hx hacc hs)
    refine ⟨h.1, ?_⟩
    simp only [List.foldl_cons, List.reverse_cons, List.append_assoc, List.singleton_append]
    exact h.2.trans (List.Perm.append_left _ (sortBubble_perm less x acc))

/-- Sorting with `sort.Reverse` of the price order leaves the records with
non-increasing prices, when no price is NaN. -/
theorem sortSort_reverse_price (data : DepthRecords)
    (hdata : ∀ a ∈ data, F64.notNaN a.Price = true) :
    (sortSort (sortReverse DepthRecords.Less) data).Pairwise
        (fun a b => F64.le b.Price a.Price = true) ∧
      (sortSort (sortReverse DepthRecords.Less) data).Perm data := by
  have h := sortFold_spec (sortReverse DepthRecords.Less)
    (fun a b => F64.le a.Price b.Price = true) (fun a => F64.notNaN a.Price = true)
    (fun a b ha hb hl => F64.le_of_lt_false ha hb hl)
    (fun a b _ _ hl => F64.le_of_lt_true hl)
    (fun a b c hab hbc => F64.le_chain hab hbc)
    data hdata [] (by simp) List.Pairwise.nil
  constructor
  · unfold sortSort
    rw [List.pairwise_reverse]
    exact h.1
  · unfold sortSort
    refine (List.reverse_perm _).trans (h.2.trans ?_)
    simp

/-! ## Binance `GetDepth` -/

namespace Binance

/-- The collecting loop, entered with `n` below `size`, appends the first
`size - n` levels (all of them when there are fewer). -/
theorem collectLevels_eq_take (pkg : RootPkg) (size : Int) (ls : List Level) :
    ∀ (n : Int) (acc : DepthRecords), n < size →
      collectLevels pkg size n ls acc
        = acc ++ (ls.take (size - n).toNat).map (levelRecord pkg) := by
  induction ls with
  | nil => intro n acc _; simp [collectLevels]
  | cons l ls ih =>
    intro n acc hn
    simp only [collectLevels]
    have hpos : (size - n).toNat = (size - (n + 1)).toNat + 1 := by omega
    rw [hpos, List.take_succ_cons, List.map_cons]
    split
    · next h =>
      have h0 : (size - (n + 1)).toNat = 0 := by omega
      simp [h0, levelRecord]
    · next h =>
      have hlt : n + 1 < size := by omega
      rw [ih (n + 1) _ hlt]
      simp [levelRecord]

theorem depthLimit_pos (size : Int) : 0 < depthLimit size := by
  unfold depthLimit
  split_ifs <;> omega

/-- What `GetDepth` returns on a book: the first `limit` levels of each side,
the asks then sorted by `sort.Reverse` of the price order. -/
theorem GetDepth_ok (pkg : RootPkg) (now : Int) (HttpGet : Int → Except String DepthResp)
    (size : Int) (resp : DepthResp) (hget : HttpGet (depthLimit size) = .ok resp)
    (hcode : resp.code = none) :
    GetDepth pkg now HttpGet size = .ok
      { UTime := now
        AskList := sortSort (sortReverse DepthRecords.Less)
          ((resp.asks.take (depthLimit size).toNat).map (levelRecord pkg))
        BidList := (resp.bids.take (depthLimit size).toNat).map (levelRecord pkg) } := by
  have hpos := depthLimit_pos size
  simp only [GetDepth, hget, hcode]
  rw [collectLevels_eq_take pkg _ _ 0 [] hpos, collectLevels_eq_take pkg _ _ 0 [] hpos]
  simp

/-- C1 (the code departs from the claim): asked for size 7, `GetDepth` requests
tier 10 and, answered with 10 levels per side, returns 10 bid records and 10
ask records, not 7: the loops stop at `n == size` after `size` has been
overwritten with the tier. -/
theorem binance_GetDepth_size7_returns_tier :
    depthLimit 7 = 10 ∧
      (fullBook (depthLimit 7)).toOption.map
          (fun r => (r.bids.length, r.asks.length)) = some (10, 10) ∧
      (GetDepth samplePkg 0 fullBook 7).toOption.map
          (fun d => (d.BidList.length, d.AskList.length)) = some (10, 10) := by
  decide

/-- C2: the limit put in the depth request is the least tier of
{5,10,20,50,100,500,1000} that is at least the requested size when the size is
at most 1000, and 1000 when the size exceeds 1000; every size up to 5, zero and
negative sizes included, requests tier 5. -/
theorem binance_depthLimit_least_tier (size : Int) :
    (size ≤ 1000 →
        depthLimit size ∈ depthTiers ∧ size ≤ depthLimit size ∧
          ∀ t ∈ depthTiers, size ≤ t → depthLimit size ≤ t) ∧
      (1000 < size → depthLimit size = 1000) ∧
      (size ≤ 5 → depthLimit size = 5) := by
  unfold depthLimit depthTiers
  refine ⟨fun h => ⟨?_, ?_, ?_⟩, fun h => ?_, fun h => ?_⟩
  · split_ifs <;> simp
  · split_ifs <;> omega
  · intro t ht hst
    simp only [List.mem_cons, List.mem_singleton, List.not_mem_nil, or_false] at ht
    split_ifs <;> omega
  · split_ifs <;> omega
  · rw [if_pos h]

theorem binance_depthLimit_least_tier_witness :
    (depthLimit 7 ∈ depthTiers ∧ (7 : Int) ≤ depthLimit 7 ∧
        ∀ t ∈ depthTiers, (7 : Int) ≤ t → depthLimit 7 ≤ t) ∧
      depthLimit 2000 = 1000 ∧ depthLimit (-3) = 5 :=
  ⟨(binance_depthLimit_least_tier 7).1 (by decide),
   (binance_depthLimit_least_tier 2000).2.1 (by decide),
   (binance_depthLimit_least_tier (-3)).2.2 (by decide)⟩

/-- C3 (as stated, refuted): answered with the asks at prices 1, 2, `GetDepth`
returns the ask list at prices 2, 1, which is not non-decreasing by price. -/
theorem binance_GetDepth_asks_not_ascending :
    ∃ d, GetDepth samplePkg 0 (fun _ => .ok (bookOf [2, 1] [1, 2])) 5 = .ok d ∧
      d.AskList.map (fun r => r.Price) = [F64.fin 2, F64.fin 1] ∧
      ¬ nonDecreasing d.AskList :=
  ⟨_, rfl, by decide, by decide⟩

/-- C3 (amended): for every depth response whose ask prices are not NaN,
whatever the order of the asks in it, `GetDepth` returns a Depth whose AskList
is non-increasing by price (the asks are sorted with `sort.Reverse`), and is a
rearrangement of the first `limit` asks of the response. -/
theorem binance_GetDepth_asks_non_increasing (pkg : RootPkg) (now : Int)
    (HttpGet : Int → Except String DepthResp) (size : Int) (resp : DepthResp)
    (hget : HttpGet (depthLimit size) = .ok resp) (hcode : resp.code = none)
    (hnum : ∀ l ∈ resp.asks, F64.notNaN (pkg.ToFloat64 l.price) = true) :
    ∃ d, GetDepth pkg now HttpGet size = .ok d ∧ nonIncreasing d.AskList ∧
      d.AskList.Perm ((resp.asks.take (depthLimit size).toNat).map (levelRecord pkg)) := by
  refine ⟨_, GetDepth_ok pkg now HttpGet size resp hget hcode, ?_⟩
  have hdata : ∀ a ∈ (resp.asks.take (depthLimit size).toNat).map (levelRecord pkg),
      F64.notNaN a.Price = true := by
    intro a ha
    rcases List.mem_map.1 ha with ⟨l, hl, rfl⟩
    exact hnum l (List.mem_of_mem_take hl)
  exact sortSort_reverse_price _ hdata

theorem binance_GetDepth_asks_non_increasing_witness :
    ∃ d, GetDepth samplePkg 0 (fun _ => .ok (bookOf [2, 1] [1, 3, 2])) 5 = .ok d ∧
      nonIncreasing d.AskList ∧
      d.AskList.Perm
        (((bookOf [2, 1] [1, 3, 2]).asks.take (depthLimit 5).toNat).map
          (levelRecord samplePkg)) :=
  binance_GetDepth_asks_non_increasing samplePkg 0 (fun _ => .ok (bookOf [2, 1] [1, 3, 2])) 5
    (bookOf [2, 1] [1, 3, 2]) rfl rfl (by decide)

/-- C4 (as stated, refuted): answered with the bids at prices 1, 2, `GetDepth`
returns the bid list at prices 1, 2, which is not non-increasing by price. -/
theorem binance_GetDepth_bids_not_descending :
    ∃ d, GetDepth samplePkg 0 (fun _ => .ok (bookOf [1, 2] [1, 2])) 5 = .ok d ∧
      d.BidList.map (fun r => r.Price) = [F64.fin 1, F64.fin 2] ∧
      ¬ nonIncreasing d.BidList :=
  ⟨_, rfl, by decide, by decide⟩

/-- C4 (amended): for every depth response, `GetDepth` returns as BidList the
first `limit` bids of the response in the order of the response (the bids are
not sorted); so the BidList is non-increasing by price when the bids of the
response are. -/
theorem binance_GetDepth_bids_in_response_order (pkg : RootPkg) (now : Int)
    (HttpGet : Int → Except String DepthResp) (size : Int) (resp : DepthResp)
    (hget : HttpGet (depthLimit size) = .ok resp) (hcode : resp.code = none) :
    ∃ d, GetDepth pkg now HttpGet size = .ok d ∧
      d.BidList = (resp.bids.take (depthLimit size).toNat).map (levelRecord pkg) ∧
      (nonIncreasing (resp.bids.map (levelRecord pkg)) → nonIncreasing d.BidList) := by
  refine ⟨_, GetDepth_ok pkg now HttpGet size resp hget hcode, rfl, ?_⟩
  intro h
  unfold nonIncreasing at *
  simp only
  exact h.sublist ((List.take_sublist _ _).map _)

theorem binance_GetDepth_bids_in_response_order_witness :
    ∃ d, GetDepth samplePkg 0 (fun _ => .ok (bookOf [3, 2, 1] [1, 2])) 5 = .ok d ∧
      d.BidList = (((bookOf [3, 2, 1] [1, 2]).bids.take (depthLimit 5).toNat).map
        (levelRecord samplePkg)) ∧
      (nonIncreasing ((bookOf [3, 2, 1] [1, 2]).bids.map (levelRecord samplePkg)) →
        nonIncreasing d.BidList) :=
  binance_GetDepth_bids_in_response_order samplePkg 0
    (fun _ => .ok (bookOf [3, 2, 1] [1, 2])) 5 (bookOf [3, 2, 1] [1, 2]) rfl rfl

/-! ## Binance order normalisation -/

/-- With `executedQty` coerced to zero, `adaptOrder` still forms the quotient
`cummulativeQuoteQty / executedQty`: the value it hands to `FloatToFixed` is
NaN or an infinity, never a finite number. -/
theorem adaptOrder_avgPrice_unguarded (pkg : RootPkg) (adaptOrderStatus : String → TradeStatus)
    (orderMap : OrderMap) (h : pkg.ToFloat64 orderMap.executedQty = F64.fin 0) :
    ∃ v, (adaptOrder pkg adaptOrderStatus orderMap).AvgPrice = pkg.FloatToFixed v 8 ∧
      v = F64.div (pkg.ToFloat64 orderMap.cummulativeQuoteQty) (F64.fin 0) ∧
      ∀ q, v ≠ F64.fin q := by
  refine ⟨_, by simp [adaptOrder, h], rfl, ?_⟩
  intro q
  rcases pkg.ToFloat64 orderMap.cummulativeQuoteQty with a | n | _
  · by_cases ha : a = 0 <;> simp [F64.div, ha]
  · simp [F64.div]
  · simp [F64.div]

/-- C5 (the code departs from the claim): on an order payload with
`executedQty` 0 (and `cummulativeQuoteQty` 0) `adaptOrder` divides by the
executed quantity and its AvgPrice is NaN, not 0, while `placeOrder` on the
same figures takes its guard and leaves the average at 0. -/
theorem binance_adaptOrder_zero_executedQty_avgPrice_nan :
    (adaptOrder samplePkg (fun _ => ORDER_UNFINISH) unfilledOrder).DealAmount = F64.fin 0 ∧
      (adaptOrder samplePkg (fun _ => ORDER_UNFINISH) unfilledOrder).AvgPrice = F64.nan ∧
      (placeOrder samplePkg (fun _ => .json "" unfilledAck) "2" "100" "BTCUSDT" "LIMIT"
          "BUY").toOption.map (fun o => (o.DealAmount, o.AvgPrice))
        = some (F64.fin 0, F64.fin 0) := by
  decide

end Binance

/-! ## OKEx order state -/

namespace OKEx

/-- C8: `adaptOrderState` maps -2 to failed, -1 to canceled, 0 and 3 to
unfinished, 1 to partially-filled, 2 to filled, 4 to cancel-pending, and every
other integer state to unfinished. -/
theorem okex_adaptOrderState_table :
    adaptOrderState (-2) = ORDER_FAIL ∧ adaptOrderState (-1) = ORDER_CANCEL ∧
      adaptOrderState 0 = ORDER_UNFINISH ∧ adaptOrderState 3 = ORDER_UNFINISH ∧
      adaptOrderState 1 = ORDER_PART_FINISH ∧ adaptOrderState 2 = ORDER_FINISH ∧
      adaptOrderState 4 = ORDER_CANCEL_ING ∧
      ∀ state : Int, state ∉ [-2, -1, 0, 1, 2, 3, 4] →
        adaptOrderState state = ORDER_UNFINISH := by
  refine ⟨rfl, rfl, rfl, rfl, rfl, rfl, rfl, ?_⟩
  intro state hs
  simp only [List.mem_cons, List.mem_singleton, List.not_mem_nil, or_false, not_or] at hs
  obtain ⟨h1, h2, h3, h4, h5, h6, h7⟩ := hs
  simp [adaptOrderState, h1, h2, h3, h4, h5, h6, h7]

theorem okex_adaptOrderState_table_witness :
    adaptOrderState 9 = ORDER_UNFINISH ∧ adaptOrderState (-5) = ORDER_UNFINISH :=
  ⟨okex_adaptOrderState_table.2.2.2.2.2.2.2 9 (by decide),
   okex_adaptOrderState_table.2.2.2.2.2.2.2 (-5) (by decide)⟩

end OKEx

/-! ## Poloniex `GetOneOrder` -/

namespace Poloniex

/-- The loop over the fills adds the parsed amounts to `DealAmount` and never
assigns `Amount`. -/
theorem foldl_fillStep (pkg : RootPkg) (fills : List Fill) :
    ∀ acc : FillAcc,
      (fills.foldl (fillStep pkg) acc).order.Amount = acc.order.Amount ∧
        (fills.foldl (fillStep pkg) acc).order.DealAmount
          = (fillAmounts pkg fills).foldl F64.add acc.order.DealAmount := by
  induction fills with
  | nil => intro acc; simp [fillAmounts]
  | cons vv fills ih =>
    intro acc
    have h := ih (fillStep pkg acc vv)
    simp only [List.foldl_cons, fillAmounts, List.map_cons] at h ⊢
    refine ⟨h.1.trans ?_, h.2.trans ?_⟩
    · unfold fillStep; split <;> rfl
    · have e : (fillStep pkg acc vv).order.DealAmount
          = F64.add acc.order.DealAmount (pkg.ParseFloat vv.amount) := by
        unfold fillStep; split <;> rfl
      rw [e]

/-- A sum of finite non-negative amounts, from a finite non-negative start, is
finite and at least the start; it equals the start only if every amount is 0. -/
theorem foldl_add_nonneg (xs : List F64) (hxs : ∀ x ∈ xs, ∃ q : ℚ, x = F64.fin q ∧ 0 ≤ q) :
    ∀ q0 : ℚ, ∃ q : ℚ, xs.foldl F64.add (F64.fin q0) = F64.fin q ∧ q0 ≤ q ∧
      (q = q0 ↔ ∀ x ∈ xs, x = F64.fin 0) := by
  induction xs with
  | nil => intro q0; exact ⟨q0, rfl, le_refl _, by simp⟩
  | cons x xs ih =>
    intro q0
    obtain ⟨a, rfl, ha⟩ := hxs x (List.mem_cons_self x xs)
    obtain ⟨q, hq, hle, hiff⟩ :=
      ih (fun y hy => hxs y (List.mem_cons_of_mem _ hy)) (q0 + a)
    refine ⟨q, by simpa [F64.add] using hq, by linarith, ?_⟩
    constructor
    · intro h
      have ha0 : a = 0 := by linarith
      subst ha0
      intro y hy
      rcases List.mem_cons.1 hy with rfl | hy
      · rfl
      · exact hiff.1 (by simpa using h) y hy
    · intro h
      have ha0 : a = 0 := by
        have := h (F64.fin a) (List.mem_cons_self _ xs)
        simpa using this
      subst ha0
      have := hiff.2 (fun y hy => h y (List.mem_cons_of_mem _ hy))
      simpa using this

/-- C6 (as stated, refuted): for the order-trades response with the single
fill of amount 1, `GetOneOrder` returns an order with DealAmount 1 and Amount 0:
DealAmount <= Amount fails. -/
theorem poloniex_GetOneOrder_dealAmount_exceeds_amount :
    ∃ o, GetOneOrder samplePkg "" (.fills "" [fillOf "1" "2"]) "7" = .ok o ∧
      o.DealAmount = F64.fin 1 ∧ o.Amount = F64.fin 0 ∧
      F64.le o.DealAmount o.Amount = false := by
  refine ⟨_, rfl, ?_, ?_, ?_⟩ <;>
    simp [fillStep, fillOf, samplePkg, digitsValue, F64.add, F64.zero, F64.le]

/-- C6 (amended): for every order-trades response whose fill amounts are finite
and non-negative, `GetOneOrder` returns an order whose DealAmount is the sum of
the fill amounts, so 0 <= DealAmount, and whose Amount is left at its zero
value; DealAmount <= Amount holds exactly when every fill amount is 0. -/
theorem poloniex_GetOneOrder_dealAmount_sum (pkg : RootPkg) (notFound raw orderId : String)
    (fills : List Fill)
    (hfills : ∀ x ∈ fillAmounts pkg fills, ∃ q : ℚ, x = F64.fin q ∧ 0 ≤ q) :
    ∃ o, GetOneOrder pkg notFound (.fills raw fills) orderId = .ok o ∧
      o.Amount = F64.zero ∧
      o.DealAmount = (fillAmounts pkg fills).foldl F64.add F64.zero ∧
      F64.le F64.zero o.DealAmount = true ∧
      (F64.le o.DealAmount o.Amount = true ↔ ∀ x ∈ fillAmounts pkg fills, x = F64.fin 0) := by
  obtain ⟨hA, hD⟩ := foldl_fillStep pkg fills
    { order := { ({} : Order) with OrderID := pkg.Atoi orderId }, total := F64.zero }
  obtain ⟨q, hq, hle, hiff⟩ := foldl_add_nonneg (fillAmounts pkg fills) hfills 0
  simp only at hA hD
  refine ⟨_, rfl, ?_, ?_, ?_, ?_⟩
  · exact hA
  · exact hD
  · show F64.le F64.zero (List.foldl (fillStep pkg) _ fills).order.DealAmount = true
    rw [hD]
    change F64.le (F64.fin 0) (List.foldl F64.add (F64.fin 0) _) = true
    rw [hq]
    simpa [F64.le] using hle
  · show F64.le (List.foldl (fillStep pkg) _ fills).order.DealAmount
        (List.foldl (fillStep pkg) _ fills).order.Amount = true ↔ _
    rw [hD, hA]
    change F64.le (List.foldl F64.add (F64.fin 0) _) (F64.fin 0) = true ↔ _
    rw [hq, ← hiff]
    simp only [F64.le, decide_eq_true_eq]
    constructor
    · intro h; exact le_antisymm h hle
    · intro h; exact le_of_eq h

theorem poloniex_GetOneOrder_dealAmount_sum_witness :
    ∃ o, GetOneOrder samplePkg "" (.fills "" [fillOf "1" "2", fillOf "3" "2"]) "7" = .ok o ∧
      o.Amount = F64.zero ∧
      o.DealAmount
        = (fillAmounts samplePkg [fillOf "1" "2", fillOf "3" "2"]).foldl F64.add F64.zero ∧
      F64.le F64.zero o.DealAmount = true ∧
      (F64.le o.DealAmount o.Amount = true ↔
        ∀ x ∈ fillAmounts samplePkg [fillOf "1" "2", fillOf "3" "2"], x = F64.fin 0) :=
  poloniex_GetOneOrder_dealAmount_sum samplePkg "" "" "7" [fillOf "1" "2", fillOf "3" "2"]
    (by
      intro x hx
      simp only [fillAmounts, List.map_cons, List.map_nil, List.mem_cons, List.mem_singleton,
        List.not_mem_nil, or_false] at hx
      rcases hx with rfl | rfl
      · exact ⟨1, by decide, by norm_num⟩
      · exact ⟨3, by decide, by norm_num⟩)

end Poloniex

/-! ## Atop order normalisation -/

namespace Atop

/-- On a successful answer `GetOneOrder` sets Amount to the coerced `number`
and DealAmount to Amount minus the coerced `completeNumber`. -/
theorem GetOneOrder_amounts (pkg : RootPkg) (raw info orderId : String) (data : OrderData) :
    ∃ o, GetOneOrder pkg (.json raw { code := F64.fin 200, info := info, data := data })
          orderId = .ok o ∧
      o.Amount = pkg.ToFloat64 data.number ∧
      o.DealAmount = F64.sub (pkg.ToFloat64 data.number) (pkg.ToFloat64 data.completeNumber) :=
  ⟨_, rfl, rfl, rfl⟩

/-- C7 (the code departs from the claim): on the successful order-status answer
with `number` 10 and `completeNumber` 3, `GetOneOrder` returns Amount 10, the
requested amount, but DealAmount 7, the amount not yet executed, instead of the
executed amount 3. -/
theorem atop_GetOneOrder_dealAmount_is_remainder :
    ∃ o, GetOneOrder samplePkg partFilled "42" = .ok o ∧
      o.Amount = F64.fin 10 ∧ o.DealAmount = F64.fin 7 ∧ o.DealAmount ≠ F64.fin 3 := by
  refine ⟨_, rfl, ?_, ?_, ?_⟩ <;>
    simp [samplePkg, digitsValue, F64.sub, F64.add, F64.neg] <;> norm_num

/-- The records of an open-orders answer are normalised one by one, in order. -/
theorem GetUnfinishOrders_ok (pkg : RootPkg) (records : List OrderRecord) :
    GetUnfinishOrders pkg (openOrders records) = .ok (records.map (recordToOrder pkg)) := by
  have h : ∀ (l : List OrderRecord) (acc : List Order),
      l.foldl (fun orders ord => orders ++ [recordToOrder pkg ord]) acc
        = acc ++ l.map (recordToOrder pkg) := by
    intro l
    induction l with
    | nil => intro acc; simp
    | cons r l ih => intro acc; simp [ih]
  simp [GetUnfinishOrders, openOrders, h]

/-- C9 (the code departs from the claim): an open-orders or order-history
record with the native status 7 is normalised to the Status 7, which is
outside the closed TradeStatus set and is not unfinished (status 4 likewise
becomes rejected, not unfinished), while `GetOneOrder` leaves the same native
codes at unfinished. -/
theorem atop_record_status_cast_unchecked :
    (GetUnfinishOrders samplePkg (openOrders [recordOf 1 7])).toOption.map
        (fun os => os.map (fun o => o.Status)) = some [7] ∧
      (GetOrderHistorys samplePkg (history [recordOf 1 7])).toOption.map
        (fun os => os.map (fun o => o.Status)) = some [7] ∧
      (7 : TradeStatus) ∉ tradeStatusSet ∧ (7 : TradeStatus) ≠ ORDER_UNFINISH ∧
      (GetUnfinishOrders samplePkg (openOrders [recordOf 1 4])).toOption.map
        (fun os => os.map (fun o => o.Status)) = some [ORDER_REJECT] ∧
      (GetOneOrder samplePkg (statusAnswer 7) "42").toOption.map (fun o => o.Status)
        = some ORDER_UNFINISH ∧
      (GetOneOrder samplePkg (statusAnswer 4) "42").toOption.map (fun o => o.Status)
        = some ORDER_UNFINISH := by
  decide

/-- C10 (the code departs from the claim): `plateOrder` sends type 1 for a buy
and type 0 for a sell, and `GetUnfinishOrders` normalises the native type 1 to
BUY, but it normalises the native type 0 to the side 0, which is not SELL and is
no member of the TradeSide set. -/
theorem atop_side_table_not_inverse :
    (∀ (pkg : RootPkg) (amount price market orderType : String),
        (plateOrderParams pkg amount price market orderType "buy").Get "type" = pkg.Itoa 1 ∧
        (plateOrderParams pkg amount price market orderType "sale").Get "type" = pkg.Itoa 0) ∧
      (GetUnfinishOrders samplePkg (openOrders [recordOf 1 0])).toOption.map
        (fun os => os.map (fun o => o.Side)) = some [BUY] ∧
      (GetUnfinishOrders samplePkg (openOrders [recordOf 0 0])).toOption.map
        (fun os => os.map (fun o => o.Side)) = some [0] ∧
      (0 : TradeSide) ≠ SELL ∧ (0 : TradeSide) ∉ tradeSideSet := by
  refine ⟨?_, by decide, by decide, by decide, by decide⟩
  intro pkg amount price market orderType
  constructor <;>
    by_cases h : orderType = "market" <;>
    simp [plateOrderParams, Values.Set, Values.Get, h, List.find?, List.filter]

end Atop

/-! ## Poloniex error handling -/

namespace Poloniex

/-- Whenever the placement answer is valid JSON with an `error` field,
`placeLimitOrder` returns the pair `(nil, nil)`. -/
theorem placeLimitOrder_error_field (pkg : RootPkg) (HttpPostForm2 : Values → Reply PlaceMap)
    (now : Int) (command amount price symbol raw : String) (respmap : PlaceMap)
    (hresp : HttpPostForm2 (placeLimitOrderParams command amount price symbol)
      = .json raw respmap)
    (herr : respmap.error ≠ JVal.null) :
    placeLimitOrder pkg HttpPostForm2 now command amount price symbol = (none, none) := by
  simp [placeLimitOrder, hresp, herr]

/-- C11 (the code departs from the claim): on a placement answer that is valid
JSON with an `error` field, LimitBuy and LimitSell return no order and no
error, the pair `(nil, nil)`; `CancelOrder` on the same answer returns an
error made of the answer's bytes. -/
theorem poloniex_placeLimitOrder_swallows_error :
    LimitBuy samplePkg (fun _ => placeError) 0 "1" "100" "BTC_USDT" = (none, none) ∧
      LimitSell samplePkg (fun _ => placeError) 0 "1" "100" "BTC_USDT" = (none, none) ∧
      CancelOrder cancelError = (false, some (.errorsNew errorRaw)) := by
  decide

/-- C14 (as stated, refuted): `MarketBuy` returns nothing, it panics. -/
theorem poloniex_MarketBuy_does_not_return :
    MarketBuy "1" "100" "BTC_USDT" = .panics "unsupport the market order" ∧
      ∀ r, MarketBuy "1" "100" "BTC_USDT" ≠ .returns r := by
  refine ⟨rfl, ?_⟩
  intro r h
  cases h

/-- C14 (amended): MarketBuy and MarketSell on the Poloniex adapter abort, for
every input, with the panic "unsupport the market order"; they return neither
an order nor an error. -/
theorem poloniex_market_orders_panic (amount price symbol : String) :
    MarketBuy amount price symbol = .panics "unsupport the market order" ∧
      MarketSell amount price symbol = .panics "unsupport the market order" :=
  ⟨rfl, rfl⟩

/-- C15 (as stated, refuted): `GetKlineRecords` and `GetOrderHistorys` return
an empty result and no error. -/
theorem poloniex_unimplemented_return_no_error :
    GetKlineRecords "BTC_USDT" 1 10 = .returns ([], none) ∧
      GetOrderHistorys "BTC_USDT" = .returns ([], none) := by
  decide

/-- C15 (amended): GetKlineRecords and GetOrderHistorys on the Poloniex adapter
return, for every input, the pair `(nil, nil)`: an empty result and no error. -/
theorem poloniex_unimplemented_return_nil_nil (symbol : String) (period size : Int) :
    GetKlineRecords symbol period size = .returns ([], none) ∧
      GetOrderHistorys symbol = .returns ([], none) :=
  ⟨rfl, rfl⟩

end Poloniex

/-! ## Binance error kinds -/

namespace Binance

/-- C12: `adaptError` returns the order-not-found kind if the message of `e`
contains "Order does not exist" or "Unknown order sent", otherwise the
rate-limit kind if it contains "Too much request", otherwise the
insufficient-balance kind if it contains "insufficient", each time carrying
the message of `e`, and otherwise `e` itself. -/
theorem binance_adaptError_kinds (apiText : ApiErrKind → String → String) (e : GoError) :
    ((stringsContains (e.Error apiText) "Order does not exist" = true ∨
          stringsContains (e.Error apiText) "Unknown order sent" = true) →
        adaptError apiText e = .api .EX_ERR_NOT_FIND_ORDER (e.Error apiText)) ∧
      (stringsContains (e.Error apiText) "Order does not exist" = false →
        stringsContains (e.Error apiText) "Unknown order sent" = false →
        stringsContains (e.Error apiText) "Too much request" = true →
        adaptError apiText e = .api .EX_ERR_API_LIMIT (e.Error apiText)) ∧
      (stringsContains (e.Error apiText) "Order does not exist" = false →
        stringsContains (e.Error apiText) "Unknown order sent" = false →
        stringsContains (e.Error apiText) "Too much request" = false →
        stringsContains (e.Error apiText) "insufficient" = true →
        adaptError apiText e = .api .EX_ERR_INSUFFICIENT_BALANCE (e.Error apiText)) ∧
      (stringsContains (e.Error apiText) "Order does not exist" = false →
        stringsContains (e.Error apiText) "Unknown order sent" = false →
        stringsContains (e.Error apiText) "Too much request" = false →
        stringsContains (e.Error apiText) "insufficient" = false →
        adaptError apiText e = e) := by
  refine ⟨?_, ?_, ?_, ?_⟩
  · rintro (h | h) <;> simp [adaptError, h]
  · intro h1 h2 h3; simp [adaptError, h1, h2, h3]
  · intro h1 h2 h3 h4; simp [adaptError, h1, h2, h3, h4]
  · intro h1 h2 h3 h4; simp [adaptError, h1, h2, h3, h4]

theorem binance_adaptError_kinds_witness :
    adaptError sampleApiText (.errorsNew "code -2011: Unknown order sent.")
        = .api .EX_ERR_NOT_FIND_ORDER "code -2011: Unknown order sent." ∧
      adaptError sampleApiText (.passed "Too much request weight used")
        = .api .EX_ERR_API_LIMIT "Too much request weight used" ∧
      adaptError sampleApiText (.errorsNew "Account has insufficient balance")
        = .api .EX_ERR_INSUFFICIENT_BALANCE "Account has insufficient balance" ∧
      adaptError sampleApiText (.errorsNew "Invalid symbol.") = .errorsNew "Invalid symbol." :=
  ⟨(binance_adaptError_kinds sampleApiText
      (.errorsNew "code -2011: Unknown order sent.")).1 (Or.inr (by decide)),
   (binance_adaptError_kinds sampleApiText
      (.passed "Too much request weight used")).2.1 (by decide) (by decide) (by decide),
   (binance_adaptError_kinds sampleApiText
      (.errorsNew "Account has insufficient balance")).2.2.1
      (by decide) (by decide) (by decide) (by decide),
   (binance_adaptError_kinds sampleApiText (.errorsNew "Invalid symbol.")).2.2.2
      (by decide) (by decide) (by decide) (by decide)⟩

end Binance

/-! ## Atop failure envelope -/

namespace Atop

/-- C13 (as stated, refuted): on the failure envelope with code 1001 and info
"insufficient balance", `plateOrder` returns the plain error
`errors.New("insufficient balance")`, which is no error of the
insufficient-balance kind. -/
theorem atop_plateOrder_error_is_untyped :
    plateOrder samplePkg (fun _ => insufficient) 0 "1" "100" "btc_usdt" "limit" "buy"
        = .error (.errorsNew "insufficient balance") ∧
      ∀ originErrMsg, GoError.errorsNew "insufficient balance"
        ≠ .api .EX_ERR_INSUFFICIENT_BALANCE originErrMsg := by
  refine ⟨rfl, ?_⟩
  intro o h
  cases h

/-- C13 (amended): `plateOrder` (LimitBuy, LimitSell, MarketBuy, MarketSell)
maps an envelope whose code is not 200 to the plain error `errors.New(info)`
carrying the venue's text, as for code 1001 and "insufficient balance", and
an envelope with code 200 and an order id in `data` to a successful unfinished
Order with that id, the requested price and amount, and nothing executed. -/
theorem atop_plateOrder_envelope (pkg : RootPkg)
    (HttpPostForm : Values → Reply (Envelope PlateData)) (now : Int)
    (amount price market orderType orderSide raw : String) (respMap : Envelope PlateData)
    (hresp : HttpPostForm (plateOrderParams pkg amount price market orderType orderSide)
      = .json raw respMap) :
    (respMap.code ≠ F64.fin 200 →
        plateOrder pkg HttpPostForm now amount price market orderType orderSide
          = .error (.errorsNew respMap.info)) ∧
      (respMap.code = F64.fin 200 →
        ∃ o, plateOrder pkg HttpPostForm now amount price market orderType orderSide = .ok o ∧
          o.OrderID2 = pkg.FormatFloat respMap.data.id ∧ o.Status = ORDER_UNFINISH ∧
          o.Price = pkg.ToFloat64 (JVal.str price) ∧
          o.Amount = pkg.ToFloat64 (JVal.str amount) ∧ o.DealAmount = F64.zero) := by
  constructor
  · intro h
    simp [plateOrder, hresp, h]
  · intro h
    refine ⟨_, by simp [plateOrder, hresp, h]; rfl, rfl, rfl, rfl, rfl, rfl⟩

theorem atop_plateOrder_envelope_witness :
    MarketSell samplePkg (fun _ => insufficient) 0 "1" "100" "btc_usdt"
        = .error (.errorsNew "insufficient balance") ∧
      ∃ o, LimitBuy samplePkg (fun _ => placed) 0 "1" "100" "btc_usdt" = .ok o ∧
        o.OrderID2 = samplePkg.FormatFloat (F64.fin 42) ∧ o.Status = ORDER_UNFINISH ∧
        o.Price = samplePkg.ToFloat64 (JVal.str "100") ∧
        o.Amount = samplePkg.ToFloat64 (JVal.str "1") ∧ o.DealAmount = F64.zero :=
  ⟨(atop_plateOrder_envelope samplePkg (fun _ => insufficient) 0 "1" "100" "btc_usdt"
      "market" "sale" "" _ rfl).1 (by decide),
   (atop_plateOrder_envelope samplePkg (fun _ => placed) 0 "1" "100" "btc_usdt"
      "limit" "buy" "" _ rfl).2 rfl⟩

end Atop

/-! ## Lemmas on `map[Currency]SubAccount` -/

theorem SubAccounts.get_append_singleton (m : SubAccounts) (k c : Currency) (v : SubAccount) :
    SubAccounts.get (m ++ [(k, v)]) c
      = match SubAccounts.get m c with
        | some w => some w
        | none => if k = c then some v else none := by
  induction m with
  | nil =>
    by_cases h : k = c <;> simp [SubAccounts.get, List.find?, h]
  | cons kv m ih =>
    by_cases h : kv.1 = c
    · simp [SubAccounts.get, List.find?, h]
    · simp only [SubAccounts.get, List.cons_append, List.find?, h, decide_False] at ih ⊢
      exact ih

theorem SubAccounts.get_filter_ne (m : SubAccounts) (k c : Currency) :
    SubAccounts.get (m.filter (fun kv => kv.1 ≠ k)) c
      = if c = k then none else SubAccounts.get m c := by
  induction m with
  | nil => simp [SubAccounts.get]
  | cons kv m ih =>
    by_cases hk : kv.1 = k
    · have hf : (kv :: m).filter (fun kv => kv.1 ≠ k) = m.filter (fun kv => kv.1 ≠ k) := by
        simp [List.filter, hk]
      rw [hf, ih]
      by_cases hc : c = k
      · simp [hc]
      · have hkc : ¬ kv.1 = c := fun h => hc (h ▸ hk)
        simp [hc, SubAccounts.get, List.find?, hkc]
    · have hf : (kv :: m).filter (fun kv => kv.1 ≠ k)
          = kv :: m.filter (fun kv => kv.1 ≠ k) := by
        simp [List.filter, hk]
      rw [hf]
      by_cases hkc : kv.1 = c
      · have hc : ¬ c = k := fun h => hk (hkc.trans h)
        simp [hc, SubAccounts.get, List.find?, hkc]
      · have e1 : SubAccounts.get (kv :: m.filter (fun kv => kv.1 ≠ k)) c
            = SubAccounts.get (m.filter (fun kv => kv.1 ≠ k)) c := by
          simp [SubAccounts.get, List.find?, hkc]
        have e2 : SubAccounts.get (kv :: m) c = SubAccounts.get m c := by
          simp [SubAccounts.get, List.find?, hkc]
        rw [e1, e2, ih]

/-- Reading the key just written gives the value written. -/
theorem SubAccounts.get_set_self (m : SubAccounts) (k : Currency) (v : SubAccount) :
    SubAccounts.get (SubAccounts.set m k v) k = some v := by
  unfold SubAccounts.set
  rw [SubAccounts.get_append_singleton, SubAccounts.get_filter_ne]
  simp

/-- Writing a key leaves the other keys as they were. -/
theorem SubAccounts.get_set_ne (m : SubAccounts) (k c : Currency) (v : SubAccount)
    (h : c ≠ k) : SubAccounts.get (SubAccounts.set m k v) c = SubAccounts.get m c := by
  unfold SubAccounts.set
  rw [SubAccounts.get_append_singleton, SubAccounts.get_filter_ne]
  have hk : ¬ k = c := fun e => h e.symm
  simp only [h, if_false, hk]
  cases SubAccounts.get m c <;> rfl

/-! ## Atop and Poloniex accounts -/

namespace Atop

theorem atop_foldl_accountStep_untouched (pkg : RootPkg) (c : Currency)
    (rest : List (String × Balance)) (hrest : ∀ kv ∈ rest, NewCurrency kv.1 "" ≠ c) :
    ∀ m : SubAccounts,
      SubAccounts.get (rest.foldl (accountStep pkg) m) c = SubAccounts.get m c := by
  induction rest with
  | nil => intro m; rfl
  | cons kv rest ih =>
    intro m
    rw [List.foldl_cons, ih (fun x hx => hrest x (List.mem_cons_of_mem _ hx))]
    exact SubAccounts.get_set_ne _ _ _ _ (fun e => hrest kv (List.mem_cons_self _ _) e.symm)

/-- The sub-account that `GetAccount` holds for an entry of the payload that
no later entry overwrites. -/
theorem GetAccount_entry (pkg : RootPkg) (raw : String) (pre rest : List (String × Balance))
    (k : String) (b : Balance)
    (hrest : ∀ kv ∈ rest, NewCurrency kv.1 "" ≠ NewCurrency k "") :
    ∃ acc, GetAccount pkg (.json raw (pre ++ (k, b) :: rest)) = .ok acc ∧
      SubAccounts.get acc.SubAccounts (NewCurrency k "")
        = some { Currency := NewCurrency k ""
                 Amount := F64.add (pkg.ToFloat64 b.available) (pkg.ToFloat64 b.freeze)
                 ForzenAmount := pkg.ToFloat64 b.freeze } := by
  refine ⟨_, rfl, ?_⟩
  simp only [List.foldl_append, List.foldl_cons]
  rw [atop_foldl_accountStep_untouched pkg _ rest hrest]
  exact SubAccounts.get_set_self _ _ _

/-- C18 (as stated, refuted): for the entry BTC with 1 available and 2 frozen,
`GetAccount` returns a sub-account with Amount 3, not the available amount 1;
its ForzenAmount is 2. -/
theorem atop_GetAccount_amount_not_available :
    ∃ acc sub, GetAccount samplePkg balances = .ok acc ∧
      SubAccounts.get acc.SubAccounts (NewCurrency "btc" "") = some sub ∧
      sub.Amount = F64.fin 3 ∧ sub.ForzenAmount = F64.fin 2 ∧ sub.Amount ≠ F64.fin 1 := by
  obtain ⟨acc, hacc, hget⟩ := GetAccount_entry samplePkg "" [] []
    "btc" { available := JVal.str "1", freeze := JVal.str "2" } (by simp)
  have h1 : samplePkg.ToFloat64 (JVal.str "1") = F64.fin 1 := by decide
  have h2 : samplePkg.ToFloat64 (JVal.str "2") = F64.fin 2 := by decide
  refine ⟨acc, _, hacc, hget, ?_, ?_, ?_⟩
  · simp only [h1, h2, F64.add]; norm_num
  · simp only [h2]
  · simp only [h1, h2, F64.add]; norm_num

/-- C18 (amended): for every currency entry of an Atop balance response that no
later entry of the response overwrites, the SubAccount returned by GetAccount
has Amount equal to the available amount plus the frozen (freeze) amount, and
ForzenAmount equal to the frozen amount. -/
theorem atop_GetAccount_amount_is_total (pkg : RootPkg) (raw : String)
    (pre rest : List (String × Balance)) (k : String) (b : Balance)
    (hrest : ∀ kv ∈ rest, NewCurrency kv.1 "" ≠ NewCurrency k "") :
    ∃ acc sub, GetAccount pkg (.json raw (pre ++ (k, b) :: rest)) = .ok acc ∧
      SubAccounts.get acc.SubAccounts (NewCurrency k "") = some sub ∧
      sub.Amount = F64.add (pkg.ToFloat64 b.available) (pkg.ToFloat64 b.freeze) ∧
      sub.ForzenAmount = pkg.ToFloat64 b.freeze := by
  obtain ⟨acc, hacc, hget⟩ := GetAccount_entry pkg raw pre rest k b hrest
  exact ⟨acc, _, hacc, hget, rfl, rfl⟩

theorem atop_GetAccount_amount_is_total_witness :
    ∃ acc sub,
      GetAccount samplePkg (.json ""
        ([("eth", { available := JVal.str "7", freeze := JVal.str "0" })] ++
          ("btc", { available := JVal.str "1", freeze := JVal.str "2" }) :: [])) = .ok acc ∧
      SubAccounts.get acc.SubAccounts (NewCurrency "btc" "") = some sub ∧
      sub.Amount = F64.add (samplePkg.ToFloat64 (JVal.str "1"))
        (samplePkg.ToFloat64 (JVal.str "2")) ∧
      sub.ForzenAmount = samplePkg.ToFloat64 (JVal.str "2") :=
  atop_GetAccount_amount_is_total samplePkg ""
    [("eth", { available := JVal.str "7", freeze := JVal.str "0" })] [] "btc"
    { available := JVal.str "1", freeze := JVal.str "2" } (by simp)

end Atop

namespace Poloniex

theorem accountStep_untouched (pkg : RootPkg) (c : Currency) (m : SubAccounts)
    (kv : String × Balance) (h : ¬ writes kv c) :
    SubAccounts.get (accountStep pkg m kv) c = SubAccounts.get m c := by
  have h1 : c ≠ NewCurrency kv.1 "" := fun e => h (Or.inl e.symm)
  unfold accountStep
  by_cases hs : (NewCurrency kv.1 "").Symbol = "USDT"
  · have h2 : c ≠ USD := fun e => h (Or.inr ⟨hs, e⟩)
    simp only [hs, if_true]
    rw [SubAccounts.get_set_ne _ _ _ _ h2, SubAccounts.get_set_ne _ _ _ _ h1]
  · simp only [hs, if_false]
    rw [SubAccounts.get_set_ne _ _ _ _ h1]

theorem poloniex_foldl_accountStep_untouched (pkg : RootPkg) (c : Currency)
    (rest : List (String × Balance)) (hrest : ∀ kv ∈ rest, ¬ writes kv c) :
    ∀ m : SubAccounts,
      SubAccounts.get (rest.foldl (accountStep pkg) m) c = SubAccounts.get m c := by
  induction rest with
  | nil => intro m; rfl
  | cons kv rest ih =>
    intro m
    rw [List.foldl_cons, ih (fun x hx => hrest x (List.mem_cons_of_mem _ hx))]
    exact accountStep_untouched pkg c m kv (hrest kv (List.mem_cons_self _ _))

theorem accountStep_own (pkg : RootPkg) (m : SubAccounts) (kv : String × Balance) :
    SubAccounts.get (accountStep pkg m kv) (NewCurrency kv.1 "")
      = some { Currency := NewCurrency kv.1 ""
               Amount := pkg.ParseFloat kv.2.available
               ForzenAmount := pkg.ParseFloat kv.2.onOrders } := by
  unfold accountStep
  by_cases hs : (NewCurrency kv.1 "").Symbol = "USDT"
  · have h2 : NewCurrency kv.1 "" ≠ USD := by
      intro e
      rw [e] at hs
      exact absurd hs (by decide)
    simp only [hs, if_true]
    rw [SubAccounts.get_set_ne _ _ _ _ h2]
    exact SubAccounts.get_set_self _ _ _
  · simp only [hs, if_false]
    exact SubAccounts.get_set_self _ _ _

/-- C16 (as stated, refuted): on the balance response whose `available` for
BTC is the string "abc", `GetAccount` returns no error and an Account in which
the BTC amount is 0. -/
theorem poloniex_GetAccount_zeroes_unparsable :
    GetAccount samplePkg badBalance
      = (some { Exchange := "poloniex.com"
                SubAccounts := [(NewCurrency "BTC" "",
                  { Currency := NewCurrency "BTC" "", Amount := F64.fin 0
                    ForzenAmount := F64.fin 1 })] }, none) := by
  decide

/-- C16 (amended): for every Poloniex balance response without an `error`
field, whether or not its "available" and "onOrders" strings are parsable
numbers, GetAccount returns an Account and no error; for every currency entry
that no later entry overwrites, the sub-account holds as Amount and
ForzenAmount what `strconv.ParseFloat` yields for the two strings, its error
discarded. -/
theorem poloniex_GetAccount_discards_parse_error (pkg : RootPkg) (raw : String)
    (pre rest : List (String × Balance)) (k : String) (b : Balance)
    (hrest : ∀ kv ∈ rest, ¬ writes kv (NewCurrency k "")) :
    ∃ acc sub,
      GetAccount pkg (.json raw { error := JVal.null, entries := pre ++ (k, b) :: rest })
        = (some acc, none) ∧
      SubAccounts.get acc.SubAccounts (NewCurrency k "") = some sub ∧
      sub.Amount = pkg.ParseFloat b.available ∧
      sub.ForzenAmount = pkg.ParseFloat b.onOrders := by
  have hget : SubAccounts.get
      ((pre ++ (k, b) :: rest).foldl (accountStep pkg) []) (NewCurrency k "")
      = some { Currency := NewCurrency k ""
               Amount := pkg.ParseFloat b.available
               ForzenAmount := pkg.ParseFloat b.onOrders } := by
    simp only [List.foldl_append, List.foldl_cons]
    rw [poloniex_foldl_accountStep_untouched pkg _ rest hrest]
    exact accountStep_own pkg _ (k, b)
  refine ⟨{ Exchange := "poloniex.com"
            SubAccounts := (pre ++ (k, b) :: rest).foldl (accountStep pkg) [] },
    { Currency := NewCurrency k "", Amount := pkg.ParseFloat b.available
      ForzenAmount := pkg.ParseFloat b.onOrders }, ?_, hget, rfl, rfl⟩
  simp [GetAccount]

theorem poloniex_GetAccount_discards_parse_error_witness :
    ∃ acc sub,
      GetAccount samplePkg (.json ""
        { error := JVal.null
          entries := [] ++ ("BTC", { available := "abc", onOrders := "1" }) :: [] })
        = (some acc, none) ∧
      SubAccounts.get acc.SubAccounts (NewCurrency "BTC" "") = some sub ∧
      sub.Amount = samplePkg.ParseFloat "abc" ∧
      sub.ForzenAmount = samplePkg.ParseFloat "1" :=
  poloniex_GetAccount_discards_parse_error samplePkg "" [] [] "BTC"
    { available := "abc", onOrders := "1" } (by simp)

end Poloniex

/-! ## KuCoin account -/

theorem F64.zero_add_eq (x : F64) : F64.add F64.zero x = x := by
  rcases x with q | n | _ <;> simp [F64.add, F64.zero]

theorem sumAmounts_append_singleton (xs : List F64) (x : F64) :
    sumAmounts (xs ++ [x]) = F64.add (sumAmounts xs) x := by
  simp [sumAmounts, List.foldl_append]

theorem SubAccounts.get_eq_none_iff (m : SubAccounts) (c : Currency) :
    SubAccounts.get m c = none ↔ c ∉ m.map Prod.fst := by
  induction m with
  | nil => simp [SubAccounts.get]
  | cons kv m ih =>
    by_cases h : kv.1 = c
    · simp [SubAccounts.get, List.find?, h]
    · have e : SubAccounts.get (kv :: m) c = SubAccounts.get m c := by
        simp [SubAccounts.get, List.find?, h]
      rw [e, ih]
      have h' : ¬ c = kv.1 := fun e => h e.symm
      simp [h']

theorem SubAccounts.get_of_mem (m : SubAccounts) (hm : (m.map Prod.fst).Nodup)
    (kv : Currency × SubAccount) (hkv : kv ∈ m) : SubAccounts.get m kv.1 = some kv.2 := by
  induction m with
  | nil => simp at hkv
  | cons x m ih =>
    rw [List.map_cons, List.nodup_cons] at hm
    rcases List.mem_cons.1 hkv with rfl | hmem
    · simp [SubAccounts.get, List.find?]
    · have hne : ¬ x.1 = kv.1 := by
        intro e
        exact hm.1 (e ▸ List.mem_map_of_mem Prod.fst hmem)
      have e : SubAccounts.get (x :: m) kv.1 = SubAccounts.get m kv.1 := by
        simp [SubAccounts.get, List.find?, hne]
      rw [e]
      exact ih hm.2 hmem

theorem SubAccounts.nodup_set (m : SubAccounts) (hm : (m.map Prod.fst).Nodup) (k : Currency)
    (v : SubAccount) : ((SubAccounts.set m k v).map Prod.fst).Nodup := by
  unfold SubAccounts.set
  rw [List.map_append, List.nodup_append]
  refine ⟨hm.sublist ((List.filter_sublist m).map Prod.fst), by simp, ?_⟩
  intro c hc hc'
  simp only [List.map_cons, List.map_nil, List.mem_singleton] at hc'
  subst hc'
  rcases List.mem_map.1 hc with ⟨kv, hkv, rfl⟩
  have := (List.mem_filter.1 hkv).2
  simp at this

namespace Kucoin

theorem availableOf_append (pkg : RootPkg) (c : Currency) (pre : List AccountModel)
    (v : AccountModel) :
    availableOf pkg c (pre ++ [v])
      = if currencyOf v = c then
          availableOf pkg c pre ++ [pkg.ToFloat64 (JVal.str v.Available)]
        else availableOf pkg c pre := by
  by_cases h : currencyOf v = c <;> simp [availableOf, List.filter_append, List.filter, h]

theorem holdsOf_append (pkg : RootPkg) (c : Currency) (pre : List AccountModel)
    (v : AccountModel) :
    holdsOf pkg c (pre ++ [v])
      = if currencyOf v = c then holdsOf pkg c pre ++ [pkg.ToFloat64 (JVal.str v.Holds)]
        else holdsOf pkg c pre := by
  by_cases h : currencyOf v = c <;> simp [holdsOf, List.filter_append, List.filter, h]

theorem availableOf_absent (pkg : RootPkg) (c : Currency) (pre : List AccountModel)
    (h : c ∉ pre.map currencyOf) : availableOf pkg c pre = [] := by
  have : pre.filter (fun v => currencyOf v = c) = [] := by
    rw [List.filter_eq_nil_iff]
    intro v hv
    simp only [decide_eq_true_eq]
    intro e
    exact h (e ▸ List.mem_map_of_mem currencyOf hv)
  simp [availableOf, this]

theorem holdsOf_absent (pkg : RootPkg) (c : Currency) (pre : List AccountModel)
    (h : c ∉ pre.map currencyOf) : holdsOf pkg c pre = [] := by
  have : pre.filter (fun v => currencyOf v = c) = [] := by
    rw [List.filter_eq_nil_iff]
    intro v hv
    simp only [decide_eq_true_eq]
    intro e
    exact h (e ▸ List.mem_map_of_mem currencyOf hv)
  simp [holdsOf, this]

/-- What the map holds for `c` once the entries `pre` are processed: nothing
if no entry has the currency `c`, else the sub-account of the two sums. -/
theorem accountStep_get (pkg : RootPkg) (m : SubAccounts) (pre : List AccountModel)
    (v : AccountModel)
    (hm : ∀ c, SubAccounts.get m c
      = if c ∈ pre.map currencyOf then
          some { Currency := c, Amount := sumAmounts (availableOf pkg c pre)
                 ForzenAmount := sumAmounts (holdsOf pkg c pre) }
        else none) :
    ∀ c, SubAccounts.get (accountStep pkg m v) c
      = if c ∈ (pre ++ [v]).map currencyOf then
          some { Currency := c, Amount := sumAmounts (availableOf pkg c (pre ++ [v]))
                 ForzenAmount := sumAmounts (holdsOf pkg c (pre ++ [v])) }
        else none := by
  intro c
  have hcur : (NewCurrency v.Currency "").AdaptBccToBch = currencyOf v := rfl
  by_cases hc : c = currencyOf v
  · subst hc
    have hmem : currencyOf v ∈ (pre ++ [v]).map currencyOf := by simp
    rw [if_pos hmem, availableOf_append, holdsOf_append, if_pos rfl, if_pos rfl,
      sumAmounts_append_singleton, sumAmounts_append_singleton]
    have hk := hm (currencyOf v)
    unfold accountStep
    rw [hcur]
    by_cases hp : currencyOf v ∈ pre.map currencyOf
    · rw [if_pos hp] at hk
      simp only [hk]
      rw [SubAccounts.get_set_self]
    · rw [if_neg hp] at hk
      simp only [hk]
      rw [SubAccounts.get_set_self, availableOf_absent pkg _ _ hp, holdsOf_absent pkg _ _ hp]
      simp [sumAmounts, F64.zero_add_eq]
  · have hne : ¬ currencyOf v = c := fun e => hc e.symm
    have hstep : SubAccounts.get (accountStep pkg m v) c = SubAccounts.get m c := by
      unfold accountStep
      rw [hcur]
      cases hg : SubAccounts.get m (currencyOf v) <;> simp only [hg] <;>
        exact SubAccounts.get_set_ne _ _ _ _ hc
    rw [hstep, hm c, availableOf_append, holdsOf_append, if_neg hne, if_neg hne]
    have hiff : c ∈ (pre ++ [v]).map currencyOf ↔ c ∈ pre.map currencyOf := by
      simp [hc]
    by_cases hp : c ∈ pre.map currencyOf
    · rw [if_pos hp, if_pos (hiff.2 hp)]
    · rw [if_neg hp, if_neg (fun h => hp (hiff.1 h))]

theorem accountStep_nodup (pkg : RootPkg) (m : SubAccounts) (v : AccountModel)
    (hm : (m.map Prod.fst).Nodup) : ((accountStep pkg m v).map Prod.fst).Nodup := by
  unfold accountStep
  cases hg : SubAccounts.get m (NewCurrency v.Currency "").AdaptBccToBch <;>
    simp only [hg] <;> exact SubAccounts.nodup_set m hm _ _

theorem foldl_accountStep_inv (pkg : RootPkg) (rest : List AccountModel) :
    ∀ (m : SubAccounts) (pre : List AccountModel), (m.map Prod.fst).Nodup →
      (∀ c, SubAccounts.get m c
        = if c ∈ pre.map currencyOf then
            some { Currency := c, Amount := sumAmounts (availableOf pkg c pre)
                   ForzenAmount := sumAmounts (holdsOf pkg c pre) }
          else none) →
      ((rest.foldl (accountStep pkg) m).map Prod.fst).Nodup ∧
        ∀ c, SubAccounts.get (rest.foldl (accountStep pkg) m) c
          = if c ∈ (pre ++ rest).map currencyOf then
              some { Currency := c, Amount := sumAmounts (availableOf pkg c (pre ++ rest))
                     ForzenAmount := sumAmounts (holdsOf pkg c (pre ++ rest)) }
            else none := by
  induction rest with
  | nil =>
    intro m pre hn hm
    rw [List.append_nil]
    exact ⟨hn, hm⟩
  | cons v rest ih =>
    intro m pre hn hm
    have h := ih (accountStep pkg m v) (pre ++ [v]) (accountStep_nodup pkg m v hn)
      (accountStep_get pkg m pre v hm)
    rw [List.append_assoc, List.singleton_append] at h
    exact h

/-- C17: for every list of account entries, `GetAccount` returns exactly one
SubAccount per distinct currency (after the BCC-to-BCH alias): the keys of the
map have no duplicate and are the currencies of the list, and the SubAccount
of a currency has as Amount the sum of the available amounts and as
ForzenAmount the sum of the held amounts of the entries of that currency. -/
theorem kucoin_GetAccount_sums_per_currency (pkg : RootPkg) (name : String)
    (accs : List AccountModel) :
    ∃ acc, GetAccount pkg name (.ok accs) = .ok acc ∧
      (acc.SubAccounts.map Prod.fst).Nodup ∧
      (∀ c, c ∈ acc.SubAccounts.map Prod.fst ↔ c ∈ accs.map currencyOf) ∧
      ∀ kv ∈ acc.SubAccounts,
        kv.2 = { Currency := kv.1, Amount := sumAmounts (availableOf pkg kv.1 accs)
                 ForzenAmount := sumAmounts (holdsOf pkg kv.1 accs) } := by
  obtain ⟨hn, hget⟩ := foldl_accountStep_inv pkg accs [] [] List.nodup_nil
    (fun c => by simp [SubAccounts.get])
  simp only [List.nil_append] at hget
  have hkeys : ∀ c, c ∈ (accs.foldl (accountStep pkg) []).map Prod.fst
      ↔ c ∈ accs.map currencyOf := by
    intro c
    have h1 := SubAccounts.get_eq_none_iff (accs.foldl (accountStep pkg) []) c
    rw [hget c] at h1
    by_cases hp : c ∈ accs.map currencyOf
    · rw [if_pos hp] at h1
      constructor
      · intro _; exact hp
      · intro _
        by_contra hc
        exact absurd (h1.2 hc) (by simp)
    · rw [if_neg hp] at h1
      constructor
      · intro hc; exact absurd hc (h1.1 rfl)
      · intro h; exact absurd h hp
  refine ⟨_, rfl, hn, hkeys, ?_⟩
  intro kv hkv
  have hk : kv.1 ∈ accs.map currencyOf :=
    (hkeys kv.1).1 (List.mem_map_of_mem Prod.fst hkv)
  have h1 := SubAccounts.get_of_mem _ hn kv hkv
  have h2 := hget kv.1
  rw [if_pos hk, h1] at h2
  exact Option.some.inj h2

end Kucoin

/-! ## Klines -/

theorem foldl_append_singleton {α β : Type} (f : α → β) (l : List α) :
    ∀ init : List β, l.foldl (fun acc x => acc ++ [f x]) init = init ++ l.map f := by
  induction l with
  | nil => intro init; simp
  | cons x l ih => intro init; simp [ih]

theorem getElem?_middle {β : Type} (pre post : List β) (x : β) :
    (pre ++ x :: post)[pre.length]? = some x := by
  rw [List.getElem?_append_right (Nat.le_refl _)]
  simp

/-- Integer division by 1000 of the integer part is the integer part of the
quotient by 1000. -/
theorem floor_div_thousand (q : ℚ) : ⌊q⌋ / 1000 = ⌊q / 1000⌋ := by
  symm
  rw [Int.floor_eq_iff]
  have h1 : (⌊q⌋ : ℚ) ≤ q := Int.floor_le q
  have h2 : q < ⌊q⌋ + 1 := Int.lt_floor_add_one q
  have h3 : 1000 * (⌊q⌋ / 1000) ≤ ⌊q⌋ := by omega
  have h4 : ⌊q⌋ + 1 ≤ 1000 * (⌊q⌋ / 1000 + 1) := by omega
  have h3c : (1000 : ℚ) * ((⌊q⌋ / 1000 : ℤ) : ℚ) ≤ (⌊q⌋ : ℚ) := by exact_mod_cast h3
  have h4c : ((⌊q⌋ : ℤ) : ℚ) + 1 ≤ 1000 * (((⌊q⌋ / 1000 : ℤ) : ℚ) + 1) := by
    exact_mod_cast h4
  constructor
  · rw [le_div_iff₀ (by norm_num)]; linarith
  · rw [div_lt_iff₀ (by norm_num)]; linarith

/-- Go `int64(x)` of a non-negative finite value below 2^63 is its integer
part. -/
theorem F64.toInt64_nonneg (q : ℚ) (h0 : 0 ≤ q) (h1 : q < 2 ^ 63) :
    F64.toInt64 (F64.fin q) = ⌊q⌋ := by
  have hnum : 0 ≤ q.num := Rat.num_nonneg.2 h0
  have hden : (0 : Int) ≤ (q.den : Int) := Int.natCast_nonneg _
  have ht : Int.tdiv q.num q.den = ⌊q⌋ := by
    rw [Int.tdiv_eq_ediv hnum hden, Rat.floor_def]
  have hlo : -(2 : Int) ^ 63 ≤ ⌊q⌋ := by
    have : (0 : Int) ≤ ⌊q⌋ := Int.floor_nonneg.2 h0
    omega
  have hhi : ⌊q⌋ < (2 : Int) ^ 63 := by
    rw [Int.floor_lt]
    exact_mod_cast h1
  simp only [F64.toInt64, ht]
  rw [if_pos ⟨hlo, hhi⟩]

/-- Go `int64(x)` of an integer value in the range of `int64` is that
integer. -/
theorem F64.toInt64_intCast (n : Int) (hlo : -(2 : Int) ^ 63 ≤ n) (hhi : n < (2 : Int) ^ 63) :
    F64.toInt64 (F64.fin (n : ℚ)) = n := by
  simp only [F64.toInt64, Rat.num_intCast, Rat.den_intCast, Nat.cast_one, Int.tdiv_one]
  rw [if_pos ⟨hlo, hhi⟩]

namespace Binance

theorem binance_GetKlineRecords_ok (pkg : RootPkg) (klines : List KlineRow) :
    GetKlineRecords pkg (.ok klines) = .ok (klines.map (rowToKline pkg)) := by
  simp [GetKlineRecords, foldl_append_singleton]

/-- C19: for every kline row `[t, o, h, l, c, v]` of a Binance payload with `t`
a non-negative millisecond timestamp, `GetKlineRecords` yields at the place of
the row a Kline with Timestamp the integer part of `t / 1000` and Open, High,
Low, Close, Vol coerced from the columns 1 to 5 in that order. -/
theorem binance_GetKlineRecords_row (pkg : RootPkg) (pre post : List KlineRow) (t : ℚ)
    (o h l c v : JVal) (h0 : 0 ≤ t) (h1 : t < 2 ^ 63) :
    ∃ ks, GetKlineRecords pkg
          (.ok (pre ++ { t := F64.fin t, o := o, h := h, l := l, c := c, v := v } :: post))
        = .ok ks ∧
      ks[pre.length]? = some { Timestamp := ⌊t / 1000⌋, Open := pkg.ToFloat64 o
                               High := pkg.ToFloat64 h, Low := pkg.ToFloat64 l
                               Close := pkg.ToFloat64 c, Vol := pkg.ToFloat64 v } := by
  refine ⟨_, binance_GetKlineRecords_ok pkg _, ?_⟩
  have hts : Int.tdiv (F64.toInt64 (F64.fin t)) 1000 = ⌊t / 1000⌋ := by
    rw [F64.toInt64_nonneg t h0 h1,
      Int.tdiv_eq_ediv (Int.floor_nonneg.2 h0) (by norm_num), floor_div_thousand]
  rw [List.map_append, List.map_cons]
  have hlen : pre.length = (pre.map (rowToKline pkg)).length := by simp
  rw [hlen, getElem?_middle]
  simp only [rowToKline, hts]

theorem binance_GetKlineRecords_row_witness :
    ∃ ks, GetKlineRecords decimalPkg (.ok [exampleRow]) = .ok ks ∧
      ks[0]? = some { Timestamp := 1625097600, Open := F64.fin 100, High := F64.fin 105
                      Low := F64.fin 99, Close := F64.fin 104.5, Vol := F64.fin 1200 } := by
  obtain ⟨ks, hks, hrow⟩ := binance_GetKlineRecords_row decimalPkg [] [] 1625097600000
    (JVal.str "100.0") (JVal.str "105.0") (JVal.str "99.0") (JVal.str "104.5")
    (JVal.str "1200") (by norm_num) (by norm_num)
  refine ⟨ks, hks, ?_⟩
  have hts : ⌊(1625097600000 : ℚ) / 1000⌋ = 1625097600 := by norm_num
  have ho : decimalPkg.ToFloat64 (JVal.str "100.0") = F64.fin 100 := by decide
  have hh : decimalPkg.ToFloat64 (JVal.str "105.0") = F64.fin 105 := by decide
  have hl : decimalPkg.ToFloat64 (JVal.str "99.0") = F64.fin 99 := by decide
  have hc : decimalPkg.ToFloat64 (JVal.str "104.5") = F64.fin 104.5 := by
    rw [show (104.5 : ℚ) = mkRat 1045 10 by norm_num]
    decide
  have hv : decimalPkg.ToFloat64 (JVal.str "1200") = F64.fin 1200 := by decide
  rw [hts, ho, hh, hl, hc, hv] at hrow
  exact hrow

end Binance

namespace Atop

theorem atop_GetKlineRecords_ok (pkg : RootPkg) (datas : List KlineRow) :
    GetKlineRecords pkg (.ok datas) = .ok (datas.map (rowToKline pkg)) := by
  simp [GetKlineRecords, foldl_append_singleton]

/-- C20 (the code departs from the claim): for the row whose first column is
the millisecond value 1625097600000, Atop `GetKlineRecords` yields the
Timestamp 1625097600000, not the seconds 1625097600 that the claim and the
comment of line 496 ("to unix timestramp") announce, while Binance
`GetKlineRecords`, under the same comment, divides the same time column by 1000
and yields 1625097600. -/
theorem atop_kline_timestamp_not_seconds :
    (GetKlineRecords decimalPkg (.ok [exampleRow])).toOption.map
        (fun ks => ks.map (fun k => k.Timestamp)) = some [1625097600000] ∧
      (1625097600000 : Int) ≠ 1625097600 ∧
      exampleRow.time = Binance.exampleRow.t ∧
      (Binance.GetKlineRecords decimalPkg (.ok [Binance.exampleRow])).toOption.map
        (fun ks => ks.map (fun k => k.Timestamp)) = some [1625097600] := by
  decide

/-- For every Atop kline row in the column order (time, open, high, low, close,
volume), `GetKlineRecords` yields a Kline whose Timestamp is the first column
converted to an integer, in no case divided by 1000; Open, High, Low, Close,
Vol are coerced from the columns 1 to 5. -/
theorem atop_kline_timestamp_unscaled (pkg : RootPkg) (pre post : List KlineRow) (n : Int)
    (o h l c v : JVal) (hlo : -(2 : Int) ^ 63 ≤ n) (hhi : n < (2 : Int) ^ 63) :
    ∃ ks, GetKlineRecords pkg
          (.ok (pre ++ { time := F64.fin (n : ℚ), cols := [o, h, l, c, v] } :: post))
        = .ok ks ∧
      ks[pre.length]? = some { Timestamp := n, Open := pkg.ToFloat64 o
                               High := pkg.ToFloat64 h, Low := pkg.ToFloat64 l
                               Close := pkg.ToFloat64 c, Vol := pkg.ToFloat64 v } := by
  refine ⟨_, atop_GetKlineRecords_ok pkg _, ?_⟩
  rw [List.map_append, List.map_cons]
  have hlen : pre.length = (pre.map (rowToKline pkg)).length := by simp
  rw [hlen, getElem?_middle]
  simp [rowToKline, klineColumn, F64.toInt64_intCast n hlo hhi]

theorem atop_kline_timestamp_unscaled_witness :
    ∃ ks, GetKlineRecords decimalPkg
          (.ok ([] ++ { time := F64.fin ((1625097600000 : Int) : ℚ)
                        cols := [JVal.str "100.0", JVal.str "105.0", JVal.str "99.0",
                                 JVal.str "104.5", JVal.str "1200"] } :: []))
        = .ok ks ∧
      ks[([] : List KlineRow).length]?
        = some { Timestamp := 1625097600000
                 Open := decimalPkg.ToFloat64 (JVal.str "100.0")
                 High := decimalPkg.ToFloat64 (JVal.str "105.0")
                 Low := decimalPkg.ToFloat64 (JVal.str "99.0")
                 Close := decimalPkg.ToFloat64 (JVal.str "104.5")
                 Vol := decimalPkg.ToFloat64 (JVal.str "1200") } :=
  atop_kline_timestamp_unscaled decimalPkg [] [] 1625097600000 (JVal.str "100.0")
    (JVal.str "105.0") (JVal.str "99.0") (JVal.str "104.5") (JVal.str "1200")
    (by decide) (by decide)

end Atop

/-! ## Request timestamps -/

namespace OKEx

/-- C21 (the code departs from the claim): at an instant on the second
`IsoTime` returns "2018-03-16T18:02:48 +00Z", and on a tenth of a second
"2018-03-16T18:02:48.2 +Z": 24 characters, but not of the form
YYYY-MM-DDTHH:MM:SS.mmmZ; at an instant with nine significant nanosecond digits
it returns "2018-03-16T18:02:48.284Z". -/
theorem okex_IsoTime_short_fraction_malformed :
    IsoTime wholeSecond = .returns "2018-03-16T18:02:48 +00Z" ∧
      isIsoMillis "2018-03-16T18:02:48 +00Z" = false ∧
      IsoTime tenthOfSecond = .returns "2018-03-16T18:02:48.2 +Z" ∧
      isIsoMillis "2018-03-16T18:02:48.2 +Z" = false ∧
      IsoTime usualInstant = .returns "2018-03-16T18:02:48.284Z" ∧
      isIsoMillis "2018-03-16T18:02:48.284Z" = true := by
  decide

end OKEx

/-! ## Binance depth and the clock -/

namespace Binance

/-- C24 (as stated, refuted): the same depth payload normalized at the clock
readings 1 and 2 gives two different Depth values. -/
theorem binance_GetDepth_depends_on_clock :
    (GetDepth samplePkg 1 (fun _ => .ok (bookOf [2, 1] [1, 2])) 5).toOption
      ≠ (GetDepth samplePkg 2 (fun _ => .ok (bookOf [2, 1] [1, 2])) 5).toOption := by
  decide

/-- C24 (amended): normalizing the same depth payload at any two clock readings
yields Depth values with identical AskList and BidList; they differ in UTime
only, which `GetDepth` sets to the clock reading. -/
theorem binance_GetDepth_clock_only_in_UTime (pkg : RootPkg) (now1 now2 : Int)
    (HttpGet : Int → Except String DepthResp) (size : Int) :
    (GetDepth pkg now1 HttpGet size).map (fun d => { d with UTime := 0 })
        = (GetDepth pkg now2 HttpGet size).map (fun d => { d with UTime := 0 }) ∧
      (GetDepth pkg now1 HttpGet size).map (fun d => d.UTime)
        = (GetDepth pkg now2 HttpGet size).map (fun _ => now1) := by
  simp only [GetDepth]
  generalize HttpGet (depthLimit size) = r
  cases r with
  | error err => exact ⟨rfl, rfl⟩
  | ok resp =>
    cases hcode : resp.code with
    | some _ => simp [hcode, Except.map]
    | none => simp [hcode, Except.map]

end Binance

/-! ## Bitfinex request symbols -/

namespace Bitfinex

/-- C26 (the code departs from the claim): for the pair DASH/USD, `GetTicker`
requests the symbol "dshusd" while `GetDepth` and `placeOrder` send
"DASHUSD": the DASH-to-DSH alias of `adaptCurrencyPair` is applied by
`GetTicker` only, and the symbols differ by more than letter case. -/
theorem bitfinex_symbol_differs_between_operations :
    tickerSymbol dashUsd = "dshusd" ∧ depthSymbol dashUsd = "DASHUSD" ∧
      placeOrderSymbol dashUsd = "DASHUSD" ∧
      stringsToLower (depthSymbol dashUsd) ≠ stringsToLower (tickerSymbol dashUsd) := by
  decide

end Bitfinex

/-! ## KuCoin order status -/

namespace Kucoin

/-- With no cancellation pending, a `DealSize` other than "0" and other than
the text of `Side`, `GetOneOrder` assigns no status: it stays at the zero value
of the field, whatever `Size` is. -/
theorem GetOneOrder_status_unassigned (pkg : RootPkg) (model : OrderModel)
    (hc : model.CancelExist = false) (h0 : model.DealSize ≠ "0")
    (hs : model.DealSize ≠ model.Side) :
    ∃ o, GetOneOrder pkg (.ok model) = .ok o ∧ o.Status = ORDER_UNFINISH := by
  refine ⟨_, rfl, ?_⟩
  simp only [hc, h0, hs, if_false, Bool.false_eq_true]
  split <;> split <;> rfl

/-- C27 (the code departs from the claim): for the fully filled order, with
DealSize equal to Size, "1", and CancelExist false, `GetOneOrder` returns the
status unfinished, not filled: the code compares DealSize with Side. -/
theorem kucoin_GetOneOrder_filled_reported_unfinished :
    filledOrder.CancelExist = false ∧ filledOrder.DealSize = filledOrder.Size ∧
      filledOrder.DealSize ≠ "0" ∧
      (GetOneOrder samplePkg (.ok filledOrder)).toOption.map (fun o => o.Status)
        = some ORDER_UNFINISH ∧
      ORDER_UNFINISH ≠ ORDER_FINISH := by
  decide

/-- C29 (the code departs from the claim): on a successful active-orders
response that holds one open order, `GetUnfinishOrders` returns the empty list
and no error; it does so for every successful response. -/
theorem kucoin_GetUnfinishOrders_always_empty :
    GetUnfinishOrders (.ok [filledOrder]) = .ok [] ∧
      ∀ active : List OrderModel, GetUnfinishOrders (.ok active) = .ok [] :=
  ⟨rfl, fun _ => rfl⟩

end Kucoin

/-! ## Kraken order records -/

namespace Kraken

/-- C28 (the code departs from the claim): for the order record whose pair is
"XBTUSD", `strings.Index(pair, "EUR")` is -1 and the slice `pair[:ind]` is out
of bounds: `toOrder` panics; for "XBTEUR" it returns the order of the pair
XBT/EUR. -/
theorem kraken_toOrder_panics_without_EUR :
    stringsIndex "XBTUSD" "EUR" = -1 ∧
      toOrder samplePkg sampleTradeSide (orderOf "XBTUSD")
        = .panics "slice bounds out of range" ∧
      ∃ o, toOrder samplePkg sampleTradeSide (orderOf "XBTEUR") = .returns o ∧
        o.Currency = { CurrencyA := { Symbol := "XBT", Desc := "" }
                       CurrencyB := { Symbol := "EUR", Desc := "" } } := by
  refine ⟨by decide, by decide, _, rfl, by decide⟩

end Kraken

/-! ## Lemmas on `url.Values` -/

theorem Values.find_filter_ne (v : Values) (key k : String) :
    (v.filter (fun kv => kv.1 != key)).find? (fun kv => kv.1 == k)
      = if k = key then none else v.find? (fun kv => kv.1 == k) := by
  induction v with
  | nil => simp
  | cons kv v ih =>
    by_cases h1 : kv.1 = key
    · have b1 : (kv.1 != key) = false := by simp [h1]
      have hf : (kv :: v).filter (fun kv => kv.1 != key) = v.filter (fun kv => kv.1 != key) := by
        rw [List.filter_cons]; simp only [b1, Bool.false_eq_true, if_false]
      rw [hf, ih]
      by_cases h2 : k = key
      · simp only [h2, if_true]
      · have b3 : (kv.1 == k) = false := by
          simp only [beq_eq_false_iff_ne, ne_eq]
          exact fun e => h2 (e ▸ h1)
        simp only [h2, if_false]
        rw [List.find?_cons]
        simp only [b3]
    · have b1 : (kv.1 != key) = true := by simp [h1]
      have hf : (kv :: v).filter (fun kv => kv.1 != key)
          = kv :: v.filter (fun kv => kv.1 != key) := by
        rw [List.filter_cons]; simp only [b1, if_true]
      rw [hf, List.find?_cons, List.find?_cons]
      by_cases h3 : kv.1 = k
      · have b3 : (kv.1 == k) = true := by simp [h3]
        have h2 : ¬ k = key := fun e => h1 (h3.trans e)
        simp only [b3, h2, if_false]
      · have b3 : (kv.1 == k) = false := by simp [h3]
        simp only [b3]
        exact ih

/-- Reading the key just set gives the value set. -/
theorem Values.Get_Set_self (v : Values) (key value : String) :
    (v.Set key value).Get key = value := by
  simp only [Values.Set, Values.Get, List.find?_append, Values.find_filter_ne]
  simp [List.find?]

/-- Setting a key leaves the other keys as they were. -/
theorem Values.Get_Set_ne (v : Values) (key k value : String) (h : k ≠ key) :
    (v.Set key value).Get k = v.Get k := by
  simp only [Values.Set, Values.Get, List.find?_append, Values.find_filter_ne, if_neg h]
  have hk : (key == k) = false := by
    simp only [beq_eq_false_iff_ne, ne_eq]
    exact fun e => h e.symm
  cases hf : v.find? (fun kv => kv.1 == k) with
  | some kv => simp
  | none => simp [List.find?, hk]

/-! ## Atop nonce -/

namespace Atop

theorem buildPostForm_nonce (hmac : String → String → String) (encode : Values → String)
    (accessKey secretKey : String) (now : Int) (postForm : Values) :
    (buildPostForm hmac encode accessKey secretKey now postForm).Get "nonce"
      = FormatInt (nonceOf now) := by
  simp only [buildPostForm]
  rw [Values.Get_Set_ne _ _ _ _ (by decide), Values.Get_Set_self]

/-- C23 (as stated, refuted): two requests built one nanosecond apart, at the
clock readings 1625097600000000000 and 1625097600000000001, carry the same
nonce 1625097600000. -/
theorem atop_nonce_repeats_within_millisecond :
    (1625097600000000000 : Int) < 1625097600000000001 ∧
      nonceOf 1625097600000000000 = 1625097600000 ∧
      nonceOf 1625097600000000001 = 1625097600000 ∧
      (buildPostForm (fun _ payload => payload) (fun _ => "") "key" "secret"
          1625097600000000000 []).Get "nonce"
        = (buildPostForm (fun _ payload => payload) (fun _ => "") "key" "secret"
          1625097600000000001 []).Get "nonce" := by
  decide

/-- C23 (amended): for two signed requests built at clock readings
`0 <= t1 < t2` (nanoseconds since epoch), the nonce of the second,
`floor(t2 / 10^6)`, is at least the nonce of the first, and strictly greater
when the readings are at least one millisecond apart; the nonce form field is
the decimal rendering of that number. -/
theorem atop_nonce_non_decreasing (t1 t2 : Int) (h0 : 0 ≤ t1) (h : t1 < t2) :
    nonceOf t1 = t1 / 1000000 ∧ nonceOf t2 = t2 / 1000000 ∧
      nonceOf t1 ≤ nonceOf t2 ∧
      (t1 + 1000000 ≤ t2 → nonceOf t1 < nonceOf t2) ∧
      ∀ (hmac : String → String → String) (encode : Values → String)
        (accessKey secretKey : String) (postForm : Values),
        (buildPostForm hmac encode accessKey secretKey t2 postForm).Get "nonce"
          = FormatInt (nonceOf t2) := by
  have e1 : nonceOf t1 = t1 / 1000000 := Int.tdiv_eq_ediv h0 (by norm_num)
  have e2 : nonceOf t2 = t2 / 1000000 := Int.tdiv_eq_ediv (by omega) (by norm_num)
  refine ⟨e1, e2, ?_, ?_, ?_⟩
  · rw [e1, e2]; omega
  · intro hgap; rw [e1, e2]; omega
  · intro hmac encode accessKey secretKey postForm
    exact buildPostForm_nonce hmac encode accessKey secretKey t2 postForm

theorem atop_nonce_non_decreasing_witness :
    nonceOf 1625097600000000000 ≤ nonceOf 1625097600001000000 ∧
      nonceOf 1625097600000000000 < nonceOf 1625097600001000000 :=
  ⟨(atop_nonce_non_decreasing 1625097600000000000 1625097600001000000
      (by decide) (by decide)).2.2.1,
   (atop_nonce_non_decreasing 1625097600000000000 1625097600001000000
      (by decide) (by decide)).2.2.2.1 (by decide)⟩

end Atop

/-! ## Decimal rendering -/

/-- With enough fuel `decimalChars` gives the digits of the number, most
significant first. -/
theorem decimalChars_eq_digits :
    ∀ (fuel n : Nat), 0 < n → n < 10 ^ fuel →
      decimalChars fuel n = (Nat.digits 10 n).reverse.map digitChar := by
  intro fuel
  induction fuel with
  | zero => intro n hpos hlt; simp at hlt; omega
  | succ fuel ih =>
    intro n hpos hlt
    simp only [decimalChars]
    split
    · next h =>
      rw [Nat.digits_of_lt 10 n (by omega) h]
      simp
    · next h =>
      have hdiv : n / 10 < 10 ^ fuel := by
        rw [pow_succ] at hlt
        exact Nat.div_lt_of_lt_mul (by omega)
      rw [ih (n / 10) (by omega) hdiv, Nat.digits_def' (by norm_num) hpos]
      simp

/-- The digits of a number of more than `k` digits are the digits of its
quotient by `10 ^ k` followed by `k` more digits. -/
theorem digits_reverse_split :
    ∀ (k n : Nat), 10 ^ k ≤ n →
      ∃ L : List Nat, L.length = k ∧
        (Nat.digits 10 n).reverse = (Nat.digits 10 (n / 10 ^ k)).reverse ++ L := by
  intro k
  induction k with
  | zero => intro n _; exact ⟨[], rfl, by simp⟩
  | succ k ih =>
    intro n hn
    have h10 : 10 ^ (k + 1) = 10 * 10 ^ k := by rw [pow_succ, Nat.mul_comm]
    have hkpos : 0 < 10 ^ k := pow_pos (by norm_num) k
    have hpos : 0 < n := by omega
    have hdiv : 10 ^ k ≤ n / 10 := by
      rw [Nat.le_div_iff_mul_le (by norm_num)]
      omega
    obtain ⟨L, hL, hrev⟩ := ih (n / 10) hdiv
    refine ⟨L ++ [n % 10], by simp [hL], ?_⟩
    rw [Nat.digits_def' (by norm_num) hpos, List.reverse_cons, hrev, Nat.div_div_eq_div_mul,
      h10, List.append_assoc]

theorem FormatInt_natCast (N : Nat) (hpos : 0 < N) :
    FormatInt (N : Int) = String.mk ((Nat.digits 10 N).reverse.map digitChar) := by
  have hlt : N < 10 ^ (N + 1) :=
    Nat.lt_of_lt_of_le (Nat.lt_pow_self (by norm_num) N)
      (Nat.pow_le_pow_right (by norm_num) (Nat.le_succ N))
  have hneg : ¬ ((N : Int) < 0) := by omega
  simp only [FormatInt, Int.natAbs_ofNat, hneg, if_false]
  rw [decimalChars_eq_digits (N + 1) N hpos hlt]

namespace Binance

/-- C22: when `n`, the `int64` sum of the clock in nanoseconds and
`timeOffset`, satisfies `10^18 <= n < 10^19`, the `timestamp` field that
`buildParamsSigned` sets is the decimal rendering of `floor(n / 10^6)`, the
milliseconds since epoch, and has 13 digits. -/
theorem binance_timestamp_is_milliseconds (hmac : String → String → String)
    (encode : Values → String) (secretKey : String) (timeOffset now : Int)
    (postForm : Values)
    (hlo : (10 : Int) ^ 18 ≤ addInt64 now timeOffset)
    (hhi : addInt64 now timeOffset < (10 : Int) ^ 19) :
    ∃ form, buildParamsSigned hmac encode secretKey timeOffset now postForm = .returns form ∧
      form.Get "timestamp" = FormatInt (addInt64 now timeOffset / 10 ^ 6) ∧
      (FormatInt (addInt64 now timeOffset / 10 ^ 6)).length = 13 := by
  have hgoal : ∀ n : Int, (10 : Int) ^ 18 ≤ n → n < (10 : Int) ^ 19 →
      ∃ tonce, sliceString (FormatInt n) 0 13 = .returns tonce ∧
        tonce = FormatInt (n / 10 ^ 6) ∧ (FormatInt (n / 10 ^ 6)).length = 13 := by
    intro n hlo hhi
    obtain ⟨N, rfl⟩ := Int.eq_ofNat_of_zero_le (by omega : (0 : Int) ≤ n)
    have hloN : 10 ^ 18 ≤ N := by exact_mod_cast hlo
    have hhiN : N < 10 ^ 19 := by exact_mod_cast hhi
    have hq1 : 10 ^ 12 ≤ N / 10 ^ 6 := by
      rw [Nat.le_div_iff_mul_le (by norm_num)]; omega
    have hq2 : N / 10 ^ 6 < 10 ^ 13 := by
      rw [Nat.div_lt_iff_lt_mul (by norm_num)]; omega
    have hcast : ((N : Int) / 10 ^ 6) = ((N / 10 ^ 6 : Nat) : Int) := by push_cast; rfl
    obtain ⟨L, hL, hsplit⟩ := digits_reverse_split 6 N (by omega)
    have hlen : (Nat.digits 10 (N / 10 ^ 6)).length = 13 := by
      rw [Nat.digits_len 10 _ (by norm_num) (by omega),
        Nat.log_eq_of_pow_le_of_lt_pow hq1 hq2]
    obtain ⟨D, hD⟩ : ∃ D, D = (Nat.digits 10 (N / 10 ^ 6)).reverse.map digitChar := ⟨_, rfl⟩
    obtain ⟨E, hE⟩ : ∃ E, E = L.map digitChar := ⟨_, rfl⟩
    have hDlen : D.length = 13 := by
      rw [hD, List.length_map, List.length_reverse, hlen]
    have hElen : E.length = 6 := by
      rw [hE, List.length_map, hL]
    have hfull : FormatInt (N : Int) = String.mk (D ++ E) := by
      rw [FormatInt_natCast N (by omega), hsplit, List.map_append, hD, hE]
    have hquot : FormatInt ((N : Int) / 10 ^ 6) = String.mk D := by
      rw [hcast, FormatInt_natCast _ (by omega), hD]
    have hslice : sliceString (FormatInt (N : Int)) 0 13
        = .returns (FormatInt ((N : Int) / 10 ^ 6)) := by
      rw [hfull, hquot]
      have hl : (String.mk (D ++ E)).length = 19 := by
        show (D ++ E).length = 19
        rw [List.length_append, hDlen, hElen]
      have htake : ((String.mk (D ++ E)).toList.drop (0 : Int).toNat).take
          ((13 : Int).toNat - (0 : Int).toNat) = D := by
        show ((D ++ E).drop 0).take 13 = D
        rw [List.drop_zero, List.take_left' hDlen]
      simp only [sliceString, hl, htake]
      simp
    exact ⟨_, hslice, rfl, by rw [hquot]; exact hDlen⟩
  obtain ⟨tonce, hslice, htonce, hlen⟩ := hgoal (addInt64 now timeOffset) hlo hhi
  have hform : buildParamsSigned hmac encode secretKey timeOffset now postForm
      = .returns (((postForm.Set "recvWindow" "60000").Set "timestamp" tonce).Set "signature"
          (hmac secretKey (encode ((postForm.Set "recvWindow" "60000").Set "timestamp" tonce)))) := by
    simp only [buildParamsSigned, hslice, Outcome.bind]
  refine ⟨_, hform, ?_, hlen⟩
  rw [Values.Get_Set_ne _ _ _ _ (by decide), Values.Get_Set_self, htonce]

theorem binance_timestamp_is_milliseconds_witness :
    ∃ form, buildParamsSigned (fun _ payload => payload) (fun _ => "") "secret" 250000000
          1625097600123456789 [] = .returns form ∧
      form.Get "timestamp" = FormatInt (addInt64 1625097600123456789 250000000 / 10 ^ 6) ∧
      (FormatInt (addInt64 1625097600123456789 250000000 / 10 ^ 6)).length = 13 :=
  binance_timestamp_is_milliseconds (fun _ payload => payload) (fun _ => "") "secret"
    250000000 1625097600123456789 [] (by decide) (by decide)

end Binance

/-! ## Bitfinex symbol round trip -/

theorem toUpper_of_isUpper (c : Char) (h : c.isUpper = true) : c.toUpper = c := by
  simp only [Char.isUpper, Bool.and_eq_true, decide_eq_true_eq] at h
  unfold Char.toUpper
  simp only
  split
  · next h2 =>
    exfalso
    obtain ⟨_, h3⟩ := h
    obtain ⟨h4, _⟩ := h2
    have h5 : c.val.toNat ≤ 90 := h3
    have h6 : 97 ≤ c.val.toNat := h4
    omega
  · rfl

theorem stringsToUpper_of_allUpper (s : String) (h : allUpper s) : stringsToUpper s = s := by
  have hmap : s.toList.map Char.toUpper = s.toList := by
    conv_rhs => rw [← List.map_id s.toList]
    exact List.map_congr_left (fun c hc => toUpper_of_isUpper c (h c hc))
  unfold stringsToUpper
  rw [hmap]
  rfl

/-- Slicing a string at the end of a prefix gives the prefix and the rest. -/
theorem sliceString_split (s : String) (A B : List Char) (h : s.toList = A ++ B) :
    sliceString s 0 (A.length : Int) = .returns (String.mk A) ∧
      sliceString s (A.length : Int) (s.length : Int) = .returns (String.mk B) := by
  have hlen : s.length = A.length + B.length := by
    show s.toList.length = _
    rw [h, List.length_append]
  constructor
  · have hc : (0 : Int) ≤ 0 ∧ (0 : Int) ≤ (A.length : Int) ∧ (A.length : Int) ≤ (s.length : Int) := by
      rw [hlen]; omega
    simp only [sliceString, if_pos hc, h]
    simp
  · have hc : (0 : Int) ≤ (A.length : Int) ∧ (A.length : Int) ≤ (s.length : Int) ∧
        (s.length : Int) ≤ (s.length : Int) := by
      rw [hlen]; omega
    have hn : (s.length : Int).toNat - (A.length : Int).toNat = B.length := by
      rw [hlen, Int.toNat_ofNat, Int.toNat_ofNat]
      omega
    simp only [sliceString, if_pos hc, h, hn]
    simp

namespace Bitfinex

/-- C25: for every currency pair whose base symbol is three upper-case letters
and whose quote symbol is upper-case,
`symbolToCurrencyPair (currencyPairToSymbol p)` returns a pair with the base
and quote symbols of `p`. -/
theorem bitfinex_symbol_round_trip (p : CurrencyPair)
    (hlen : p.CurrencyA.Symbol.length = 3) (hA : allUpper p.CurrencyA.Symbol)
    (hB : allUpper p.CurrencyB.Symbol) :
    ∃ q, symbolToCurrencyPair (currencyPairToSymbol p) = .returns q ∧
      q.CurrencyA.Symbol = p.CurrencyA.Symbol ∧ q.CurrencyB.Symbol = p.CurrencyB.Symbol := by
  have hsymU : allUpper (p.ToSymbol "") := by
    intro c hc
    simp only [CurrencyPair.ToSymbol, String.toList, String.data_append, List.mem_append] at hc
    rcases hc with (hc | hc) | hc
    · exact hA c hc
    · simp at hc
    · exact hB c hc
  have hsym : currencyPairToSymbol p = p.ToSymbol "" :=
    stringsToUpper_of_allUpper _ hsymU
  have hlist : (p.ToSymbol "").toList = p.CurrencyA.Symbol.toList ++ p.CurrencyB.Symbol.toList := by
    simp [CurrencyPair.ToSymbol, String.toList, String.data_append]
  obtain ⟨h1, h2⟩ := sliceString_split (p.ToSymbol "") _ _ hlist
  have hl3 : (p.CurrencyA.Symbol.toList.length : Int) = 3 := by
    have : p.CurrencyA.Symbol.toList.length = 3 := hlen
    rw [this]; rfl
  rw [hl3] at h1 h2
  have hmkA : String.mk p.CurrencyA.Symbol.toList = p.CurrencyA.Symbol := rfl
  have hmkB : String.mk p.CurrencyB.Symbol.toList = p.CurrencyB.Symbol := rfl
  rw [hmkA] at h1
  rw [hmkB] at h2
  refine ⟨NewCurrencyPair (NewCurrency (stringsToUpper p.CurrencyA.Symbol) "")
    (NewCurrency (stringsToUpper p.CurrencyB.Symbol) ""), ?_, ?_, ?_⟩
  · rw [hsym]
    simp only [symbolToCurrencyPair, h1, h2, Outcome.bind]
  · show stringsToUpper (stringsToUpper p.CurrencyA.Symbol) = _
    rw [stringsToUpper_of_allUpper _ hA, stringsToUpper_of_allUpper _ hA]
  · show stringsToUpper (stringsToUpper p.CurrencyB.Symbol) = _
    rw [stringsToUpper_of_allUpper _ hB, stringsToUpper_of_allUpper _ hB]

theorem bitfinex_symbol_round_trip_witness :
    ∃ q, symbolToCurrencyPair (currencyPairToSymbol (NewCurrencyPair (NewCurrency "BTC" "") USD))
        = .returns q ∧
      q.CurrencyA.Symbol = (NewCurrencyPair (NewCurrency "BTC" "") USD).CurrencyA.Symbol ∧
      q.CurrencyB.Symbol = (NewCurrencyPair (NewCurrency "BTC" "") USD).CurrencyB.Symbol :=
  bitfinex_symbol_round_trip (NewCurrencyPair (NewCurrency "BTC" "") USD) (by decide)
    (by unfold allUpper; decide) (by unfold allUpper; decide)

end Bitfinex

/-! ## Bitstamp order status -/

namespace Bitstamp

/-- The loop over the transactions adds their amounts, values and fees to the
three running sums, each in `float64` arithmetic. -/
theorem foldl_sumStep (pkg : RootPkg) (currencyStr : String) (txs : List Transaction) :
    ∀ acc : Sums,
      txs.foldl (sumStep pkg currencyStr) acc
        = { dealAmount := (txs.map (amountOf pkg currencyStr)).foldl F64.addR acc.dealAmount
            tradeAmount := (txs.map (valueOf pkg currencyStr)).foldl F64.addR acc.tradeAmount
            fee := (txs.map (feeOf pkg)).foldl F64.addR acc.fee } := by
  induction txs with
  | nil => intro acc; rfl
  | cons tx txs ih =>
    intro acc
    rw [List.foldl_cons, ih]
    rfl

/-- On the fills 1 BTC at 100 and 3 BTC at 200 with fees 0 and 1 every
intermediate result is a `float64`, nothing is rounded: DealAmount is 4, Fee 1,
AvgPrice 700 / 4 = 175 and AvgPrice * DealAmount the traded value 700. -/
theorem bitstamp_GetOneOrder_exact_fills :
    ∃ o, GetOneOrder samplePkg (.json "" { transactions := some twoFills, status := "Finished" })
          "42" btcUsd = .ok o ∧
      o.DealAmount = F64.fin 4 ∧ o.Fee = F64.fin 1 ∧ o.AvgPrice = F64.fin 175 ∧
      F64.mulR o.AvgPrice o.DealAmount = F64.fin 700 := by
  refine ⟨_, rfl, ?_, ?_, ?_, ?_⟩ <;> decide

/-- C30 (as stated, refuted): for the response with the two transactions 1 BTC
at price 1 and 48 BTC at price 0, whose amounts sum to 49 and whose traded
value is 1, `GetOneOrder` returns DealAmount 49 and the AvgPrice
5882252574524729 / 2^58, the `float64` nearest to 1/49 and not 1/49 itself;
AvgPrice * DealAmount is the `float64` 1 - 2^(-53), printed
0.9999999999999999, not the total traded value 1. -/
theorem bitstamp_GetOneOrder_product_not_total :
    unevenFills.map (amountOf samplePkg "btc") = [F64.fin 1, F64.fin 48] ∧
      unevenFills.map (priceOf samplePkg) = [F64.fin 1, F64.fin 0] ∧
      ∃ o, GetOneOrder samplePkg
            (.json "" { transactions := some unevenFills, status := "Finished" }) "42" btcUsd
          = .ok o ∧
        o.DealAmount = F64.fin 49 ∧
        o.AvgPrice = F64.fin (mkRat 5882252574524729 (2 ^ 58)) ∧
        o.AvgPrice ≠ F64.fin (mkRat 1 49) ∧
        F64.mulR o.AvgPrice o.DealAmount = F64.fin (mkRat (2 ^ 53 - 1) (2 ^ 53)) ∧
        F64.mulR o.AvgPrice o.DealAmount ≠ F64.fin 1 := by
  refine ⟨by decide, by decide, _, rfl, ?_, ?_, ?_, ?_, ?_⟩ <;> decide

/-- C30 (amended): for every order-status response with a non-empty
transaction list, `GetOneOrder` returns DealAmount = the `float64` sum of the
amounts, Fee = the `float64` sum of the fees and AvgPrice = the `float64`
quotient of the `float64` sum of the products amount * price by DealAmount,
every sum taken from the left and every operation rounded; when that sum of
products `t` and DealAmount `a ≠ 0` are finite and `t` and `t / a` are 0 or in
the normal range (`2^(-1021) ≤ |t| ≤ 2^1023`, `2^(-1022) ≤ |t / a| ≤ 2^1023`),
AvgPrice is within the relative error `2^(-53)` of `t / a` and the `float64`
product AvgPrice * DealAmount within the relative error `2^(-52) + 2^(-106)`
of `t`; with an empty transaction list DealAmount, AvgPrice and Fee are 0, no
division being made. -/
theorem bitstamp_GetOneOrder_rounded_totals (pkg : RootPkg) (raw orderId status : String)
    (currency : CurrencyPair) (txs : List Transaction) :
    (txs ≠ [] →
        ∃ o, GetOneOrder pkg (.json raw { transactions := some txs, status := status })
              orderId currency = .ok o ∧
          o.DealAmount
            = F64.sumR (txs.map (amountOf pkg (stringsToLower currency.CurrencyA.Symbol))) ∧
          o.Fee = F64.sumR (txs.map (feeOf pkg)) ∧
          o.AvgPrice
            = F64.divR
                (F64.sumR (txs.map (valueOf pkg (stringsToLower currency.CurrencyA.Symbol))))
                (F64.sumR (txs.map (amountOf pkg (stringsToLower currency.CurrencyA.Symbol)))) ∧
          ∀ t a : ℚ,
            F64.sumR (txs.map (valueOf pkg (stringsToLower currency.CurrencyA.Symbol)))
              = F64.fin t →
            F64.sumR (txs.map (amountOf pkg (stringsToLower currency.CurrencyA.Symbol)))
              = F64.fin a →
            a ≠ 0 →
            (t = 0 ∨ (2 : ℚ) ^ (-1021 : Int) ≤ |t|) → |t| ≤ 2 ^ 1023 →
            (t = 0 ∨ (2 : ℚ) ^ (-1022 : Int) ≤ |t / a|) → |t / a| ≤ 2 ^ 1023 →
            ∃ p r : ℚ, o.AvgPrice = F64.fin p ∧
              |p - t / a| ≤ (2 : ℚ) ^ (-53 : Int) * |t / a| ∧
              F64.mulR o.AvgPrice o.DealAmount = F64.fin r ∧
              |r - t| ≤ ((2 : ℚ) ^ (-52 : Int) + 2 ^ (-106 : Int)) * |t|) ∧
      ∃ o, GetOneOrder pkg (.json raw { transactions := some [], status := status })
            orderId currency = .ok o ∧
        o.DealAmount = F64.zero ∧ o.AvgPrice = F64.zero ∧ o.Fee = F64.zero := by
  constructor
  · intro hne
    have hpos : txs.length > 0 := List.length_pos.2 hne
    have hfold := foldl_sumStep pkg (stringsToLower currency.CurrencyA.Symbol) txs {}
    have key : ∃ o, GetOneOrder pkg (.json raw { transactions := some txs, status := status })
          orderId currency = .ok o ∧
        o.DealAmount
          = F64.sumR (txs.map (amountOf pkg (stringsToLower currency.CurrencyA.Symbol))) ∧
        o.Fee = F64.sumR (txs.map (feeOf pkg)) ∧
        o.AvgPrice
          = F64.divR
              (F64.sumR (txs.map (valueOf pkg (stringsToLower currency.CurrencyA.Symbol))))
              (F64.sumR (txs.map (amountOf pkg (stringsToLower currency.CurrencyA.Symbol)))) := by
      simp only [GetOneOrder, if_pos hpos, hfold]
      exact ⟨_, rfl, rfl, rfl, rfl⟩
    obtain ⟨o, ho, hd, hf, hav⟩ := key
    refine ⟨o, ho, hd, hf, hav, ?_⟩
    intro t a hT hA ha h1 h2 h3 h4
    obtain ⟨p, r, hp, hr, hb1, hb2⟩ := F64.divR_mulR_near t a ha h1 h2 h3 h4
    refine ⟨p, r, ?_, hb1, ?_, hb2⟩
    · rw [hav, hT, hA]
      exact hp
    · rw [hav, hd, hT, hA, hp]
      exact hr
  · refine ⟨_, rfl, ?_, ?_, ?_⟩ <;> (split <;> rfl)

theorem bitstamp_GetOneOrder_rounded_totals_witness :
    ∃ o, GetOneOrder samplePkg
          (.json "" { transactions := some unevenFills, status := "Finished" }) "42" btcUsd
        = .ok o ∧
      o.DealAmount = F64.fin 49 ∧ o.Fee = F64.fin 0 ∧
      ∃ p r : ℚ, o.AvgPrice = F64.fin p ∧
        |p - 1 / 49| ≤ (2 : ℚ) ^ (-53 : Int) * |1 / 49| ∧
        F64.mulR o.AvgPrice o.DealAmount = F64.fin r ∧
        |r - 1| ≤ ((2 : ℚ) ^ (-52 : Int) + 2 ^ (-106 : Int)) * |1| := by
  obtain ⟨o, ho, hd, hf, _, hb⟩ :=
    (bitstamp_GetOneOrder_rounded_totals samplePkg "" "42" "Finished" btcUsd unevenFills).1
      (by decide)
  have h1 : F64.sumR
      (unevenFills.map (amountOf samplePkg (stringsToLower btcUsd.CurrencyA.Symbol)))
      = F64.fin 49 := by decide
  have h2 : F64.sumR (unevenFills.map (feeOf samplePkg)) = F64.fin 0 := by decide
  have h3 : F64.sumR
      (unevenFills.map (valueOf samplePkg (stringsToLower btcUsd.CurrencyA.Symbol)))
      = F64.fin 1 := by decide
  have one_le : (1 : ℚ) ≤ 2 ^ 1023 := one_le_pow₀ (by norm_num)
  refine ⟨o, ho, hd.trans h1, hf.trans h2, hb 1 49 h3 h1 (by norm_num) (Or.inr ?_) ?_
    (Or.inr ?_) ?_⟩
  · rw [abs_one]
    exact zpow_le_one_of_nonpos₀ (by norm_num) (by norm_num)
  · rw [abs_one]
    exact one_le
  · refine le_trans (zpow_le_zpow_right₀ (by norm_num) (by norm_num : (-1022 : Int) ≤ -6)) ?_
    norm_num [abs_of_pos]
  · refine le_trans ?_ one_le
    norm_num [abs_of_pos]

end Bitstamp

end Goex
